import Mathlib

/-!
# MIMPI: a shallow embedding of `mimpi.c`

The definitions below follow `src/mimpi.c` function by function.  C `int`s are
modelled as `Int` (with an explicit 32-bit wrap where the code adds or
subtracts), bytes of a buffer as `Nat` values `0..255`, buffers as `List Nat`.
-/

namespace Mimpi

/-! ## Constants of `mimpi.c` -/

def MIMPI_CHANNEL_BUF : Int := 512
def GROUP_BEGIN : Int := -2
def GROUP_END : Int := -3
def FINALIZE_BEGIN : Int := -1984
def FINALIZE_END : Int := -4891
def GROUP_FAIL : Int := -8

/-- Modelled from the spec: `mimpi.h` is not part of the sources; its enum
`MIMPI_Retcode` is rebuilt from the return codes that section 6 of the
specification lists. -/
inductive MIMPI_Retcode where
  | MIMPI_SUCCESS
  | MIMPI_ERROR_ATTEMPTED_SELF_OP
  | MIMPI_ERROR_NO_SUCH_RANK
  | MIMPI_ERROR_REMOTE_FINISHED
  | MIMPI_ERROR_DEADLOCK_DETECTED
  deriving DecidableEq, Repr

open MIMPI_Retcode

/-- Modelled from the spec: `mimpi.h` is not part of the sources; `MIMPI_Op` is a
C enum, i.e. an integer, of which `reduce_data` tests three values and sends
every other value to the product. -/
abbrev MIMPI_Op := Int

/-- Modelled from the spec: the four operators of section 6, numbered in the
order in which the specification lists them. -/
def MIMPI_MAX : MIMPI_Op := 0

/-- Modelled from the spec: second operator of section 6. -/
def MIMPI_MIN : MIMPI_Op := 1

/-- Modelled from the spec: third operator of section 6. -/
def MIMPI_SUM : MIMPI_Op := 2

/-- Modelled from the spec: fourth operator of section 6. -/
def MIMPI_PROD : MIMPI_Op := 3

/-- The macro `MAX` of `sys/param.h`: `(((a)>(b))?(a):(b))`. -/
def MAX (a b : Int) : Int := if a > b then a else b

/-- The macro `MIN` of `sys/param.h`: `(((a)<(b))?(a):(b))`. -/
def MIN (a b : Int) : Int := if a < b then a else b

/-- Two's complement wrap of an `int` result to 32 bits. -/
def wrap32 (x : Int) : Int := (x + 2147483648) % 4294967296 - 2147483648

/-! ## Messages and the matching predicate -/

/-- The struct `MIMPI_Message`.  `buffer` holds the bytes of the payload that the
receiver thread has read so far.  The mutex `is_buffered` of the struct is not a
field here: see `is_buffered`. -/
structure MIMPI_Message where
  source : Int
  tag : Int
  count : Int
  buffer : List Nat
  deriving DecidableEq, Repr

/-- The mutex `is_buffered` of a queued message is free.  The receiver thread
takes it when it makes the node (line 141) and gives it back when the payload is
whole (line 164 for `count == 0`, line 183 after the last byte); when the pipe
closes inside the payload the thread returns at lines 174-177 and the mutex stays
taken.  So the mutex of a queued message is free exactly when all `count` bytes
are in `buffer`. -/
def is_buffered (m : MIMPI_Message) : Bool := decide (m.count.toNat ≤ m.buffer.length)

/-- The function `match` of `mimpi.c` (lines 30-34); `a` is the pattern. -/
def match_ (a b : MIMPI_Message) : Bool :=
  ((a.tag == 0 && decide (b.tag > 0)) || a.tag == b.tag)
    && a.source == b.source
    && a.count == b.count

/-! ## `reduce_data` -/

/-- The value C reads from a byte through the type `char`: `char` is signed on
x86-64 (two's complement, `-128..127`) and unsigned on some other targets; the
flag `signedChar` selects the target. -/
def charVal (signedChar : Bool) (b : Nat) : Int :=
  if signedChar && decide (128 ≤ b) then (b : Int) - 256 else (b : Int)

/-- The byte stored when an `int` is assigned to a `char`. -/
def toByte (x : Int) : Nat := (x % 256).toNat

/-- One iteration of the loop body of `reduce_data` (lines 563-570): both
operands are promoted from `char` to `int`, the result is stored as `char`. -/
def reduce_byte (signedChar : Bool) (op : MIMPI_Op) (d s : Nat) : Nat :=
  if op = MIMPI_MAX then toByte (MAX (charVal signedChar d) (charVal signedChar s))
  else if op = MIMPI_MIN then toByte (MIN (charVal signedChar d) (charVal signedChar s))
  else if op = MIMPI_SUM then toByte (charVal signedChar d + charVal signedChar s)
  else toByte (charVal signedChar d * charVal signedChar s)

/-- The loop `for (int i = 0; i < count; i++)` of `reduce_data`, started at
index `i` with `fuel` iterations allowed. -/
def reduce_loop (signedChar : Bool) (op : MIMPI_Op) (src : List Nat) (count : Int) :
    Nat → Nat → List Nat → List Nat
  | 0, _, dest => dest
  | fuel + 1, i, dest =>
    if (i : Int) < count then
      reduce_loop signedChar op src count fuel (i + 1)
        (dest.set i (reduce_byte signedChar op (dest.getD i 0) (src.getD i 0)))
    else dest

/-- The function `reduce_data` (lines 561-573): returns the new contents of
`dest`; `src` is only read. -/
def reduce_data (signedChar : Bool) (dest src : List Nat) (count : Int) (op : MIMPI_Op) :
    List Nat :=
  reduce_loop signedChar op src count count.toNat 0 dest

/-! ## The state of one process -/

/-- Modelled from the spec: `chsend` of `channel.h` (absent), a blocking write on
an ordered reliable byte pipe.  The oracle answers the call number, the destination
rank and the requested length with the return value: the number of bytes accepted,
or `-1` when the peer has closed its read end. -/
abbrev ChSend := Nat → Int → Int → Int

/-- Modelled from the spec: `chrecv` of `channel.h` (absent), a blocking read on an
ordered reliable byte pipe.  The oracle answers the number of bytes still to come
on the pipe and the requested length with the number of bytes delivered; `0` is
the end of the stream. -/
abbrev ChRecv := Nat → Nat → Nat

/-- The number of entries of the arrays `threads` and `left_MIMPI_block` (lines
85-86). -/
def TABLE_SIZE : Int := 16

/-- The static variables of `mimpi.c` (lines 78-87), and the bytes this process
has handed to `chsend`, one entry per call: destination rank and bytes accepted.
The queue is the list of the nodes between the two sentinels, head first.
`left_MIMPI_block i` is the entry `i` of the array `left_MIMPI_block[16]` and means
something for `0 <= i < 16` only: every read and write of the array in the
functions below is guarded by `in_table`, and an index outside the array is
undefined behaviour there.  The array `threads[16]` holds the handles of the
receiver threads, which only `MIMPI_Finalize` reads; the model keeps the bound of
the array (in `MIMPI_Init`) and not the handles. -/
structure MIMPI_State where
  world_size : Int
  my_rank : Int
  queue : List MIMPI_Message
  msg_pattern : Option MIMPI_Message
  found_matching_msg : Bool
  left_MIMPI_block : Int → Bool
  group_failed : Bool
  written : List (Int × List Nat)

/-- The index `i` lies inside the 16-entry arrays `threads` and
`left_MIMPI_block`. -/
def in_table (i : Int) : Bool := decide (0 ≤ i) && decide (i < TABLE_SIZE)

/-- The four bytes of an `int` in memory (little-endian host, as on x86-64). -/
def le32 (x : Int) : List Nat :=
  [(x % 4294967296).toNat % 256,
   (x % 4294967296).toNat / 256 % 256,
   (x % 4294967296).toNat / 65536 % 256,
   (x % 4294967296).toNat / 16777216 % 256]

/-- The `int` stored in four bytes of memory starting at index `i`. -/
def ofLE32 (b : List Nat) (i : Nat) : Int :=
  wrap32 ((b.getD i 0 : Int) + 256 * (b.getD (i + 1) 0 : Int)
    + 65536 * (b.getD (i + 2) 0 : Int) + 16777216 * (b.getD (i + 3) 0 : Int))

/-! ## `MIMPI_Send` -/

/-- The loop `while (count - total_sent)` of `MIMPI_Send` (lines 379-386).
The result is `none` when the fuel runs out, or where the C code leaves defined
behaviour (a negative length or offset handed to `chsend`). -/
def send_loop (chsend : ChSend) (data : List Nat) (count destination : Int) :
    Nat → MIMPI_State → Int → Option (MIMPI_Retcode × MIMPI_State)
  | 0, _, _ => none
  | fuel + 1, st, total_sent =>
    if wrap32 (count - total_sent) = 0 then some (MIMPI_SUCCESS, st)
    else if MIN MIMPI_CHANNEL_BUF (wrap32 (count - total_sent)) < 0 ∨ total_sent < 0 then none
    else if chsend st.written.length destination
        (MIN MIMPI_CHANNEL_BUF (wrap32 (count - total_sent))) = -1 then
      some (MIMPI_ERROR_REMOTE_FINISHED, st)
    else
      send_loop chsend data count destination fuel
        { st with written := st.written ++
            [(destination, (data.drop total_sent.toNat).take
              (chsend st.written.length destination
                (MIN MIMPI_CHANNEL_BUF (wrap32 (count - total_sent)))).toNat)] }
        (wrap32 (total_sent + chsend st.written.length destination
          (MIN MIMPI_CHANNEL_BUF (wrap32 (count - total_sent)))))

/-- The initialised part of the local `buffer` of `MIMPI_Send` (lines 360-368):
tag, count, then the first `MIN(count, 512 - 8)` bytes of the payload. -/
def send_buffer (data : List Nat) (count tag : Int) : List Nat :=
  le32 tag ++ le32 count ++
    (if count > 0 then data.take (MIN count (MIMPI_CHANNEL_BUF - 8)).toNat else [])

/-- The function `MIMPI_Send` (lines 347-389).  `none`: out of fuel, or outside
defined behaviour (`count + meta_size` wrapped to a negative length). -/
def MIMPI_Send (chsend : ChSend) (fuel : Nat) (st : MIMPI_State) (data : List Nat)
    (count destination tag : Int) : Option (MIMPI_Retcode × MIMPI_State) :=
  if st.my_rank = destination then some (MIMPI_ERROR_ATTEMPTED_SELF_OP, st)
  else if destination < 0 ∨ destination ≥ st.world_size then
    some (MIMPI_ERROR_NO_SUCH_RANK, st)
  else if MIN MIMPI_CHANNEL_BUF (wrap32 (count + 8)) < 0 then none
  else if chsend st.written.length destination
      (MIN MIMPI_CHANNEL_BUF (wrap32 (count + 8))) = -1 then
    some (MIMPI_ERROR_REMOTE_FINISHED, st)
  else
    send_loop chsend data count destination fuel
      { st with written := st.written ++
          [(destination, (send_buffer data count tag).take
            (chsend st.written.length destination
              (MIN MIMPI_CHANNEL_BUF (wrap32 (count + 8)))).toNat)] }
      (wrap32 (chsend st.written.length destination
        (MIN MIMPI_CHANNEL_BUF (wrap32 (count + 8))) - 8))

/-- The state after a call of `MIMPI_Send` whose return value the caller drops. -/
def send_ignored (chsend : ChSend) (fuel : Nat) (st : MIMPI_State) (data : List Nat)
    (count destination tag : Int) : Option MIMPI_State :=
  (MIMPI_Send chsend fuel st data count destination tag).map Prod.snd

/-! ## `MIMPI_Receiver` -/

/-- Lines 116-118 of `MIMPI_Receiver`: a frame with tag `-7` from `proc`; the
write `left_MIMPI_block[proc] = 1` for an index `proc` inside the array. -/
def receiver_left (st : MIMPI_State) (proc : Int) : MIMPI_State :=
  { st with left_MIMPI_block := fun p => if p = proc then true else st.left_MIMPI_block p }

/-- Lines 120-134 of `MIMPI_Receiver`: a frame with tag `GROUP_FAIL`. -/
def receiver_group_fail (chsend : ChSend) (fuel : Nat) (st : MIMPI_State) :
    Option MIMPI_State :=
  if !st.group_failed then
    if st.my_rank * 2 - 1 < st.world_size then
      (send_ignored chsend fuel { st with group_failed := true } [] 0
        (st.my_rank * 2 - 1) GROUP_FAIL).bind fun st1 =>
        if st.my_rank * 2 - 1 + 1 < st.world_size then
          send_ignored chsend fuel st1 [] 0 (st.my_rank * 2 - 1 + 1) GROUP_FAIL
        else some st1
    else some { st with group_failed := true }
  else some st

/-- Lines 137-159 and 183 of `MIMPI_Receiver`: the node of a frame from `proc` is
linked before the tail sentinel and a waiting `MIMPI_Recv` is told of a match.
`none`: `msg_pattern` is read while it is `NULL`. -/
def receiver_enqueue (st : MIMPI_State) (proc tag count : Int) (buffer : List Nat) :
    Option MIMPI_State :=
  if !st.found_matching_msg then
    match st.msg_pattern with
    | none => none
    | some pat =>
      if match_ pat ⟨proc, tag, count, buffer⟩ then
        some { st with queue := st.queue ++ [⟨proc, tag, count, buffer⟩],
                       found_matching_msg := true }
      else some { st with queue := st.queue ++ [⟨proc, tag, count, buffer⟩] }
  else some { st with queue := st.queue ++ [⟨proc, tag, count, buffer⟩] }

/-- The loop `while (bytes_left)` of `MIMPI_Receiver` (lines 172-180) on the bytes
`pipe` still to come.  `some (buf, pipe, closed)`: the bytes read, the rest of the
pipe, and whether the pipe ended before `bytes_left` reached 0. -/
def receiver_read (chrecv : ChRecv) :
    Nat → List Nat → Int → List Nat → Option (List Nat × List Nat × Bool)
  | 0, _, _, _ => none
  | fuel + 1, pipe, bytes_left, buf =>
    if bytes_left = 0 then some (buf, pipe, false)
    else if bytes_left < 0 then none
    else if chrecv pipe.length (MIN bytes_left MIMPI_CHANNEL_BUF).toNat = 0 then
      some (buf, pipe, true)
    else
      receiver_read chrecv fuel
        (pipe.drop (chrecv pipe.length (MIN bytes_left MIMPI_CHANNEL_BUF).toNat))
        (bytes_left - chrecv pipe.length (MIN bytes_left MIMPI_CHANNEL_BUF).toNat)
        (buf ++ pipe.take (chrecv pipe.length (MIN bytes_left MIMPI_CHANNEL_BUF).toNat))

/-- How one turn of the loop `while (1)` of `MIMPI_Receiver` ends: the thread
returns `*result`; or the loop goes on with the rest of the pipe; or the C code
aborts or is undefined (or the fuel of the payload loop is used up). -/
inductive ReceiverTurn where
  | exit (result : Int) (st : MIMPI_State)
  | next (st : MIMPI_State) (pipe meta_buf : List Nat)
  | undef

/-- Lines 137-183 of `MIMPI_Receiver`: a frame that is not a control frame.  A
negative count makes `malloc` fail and the assertion abort.  When the pipe closes
inside the payload (lines 174-177) the node stays in the queue with the bytes read
so far and with its mutex taken: `is_buffered` is false of it, and `recv_take`
blocks on it. -/
def receiver_data (chrecv : ChRecv) (proc : Int) (fuel : Nat) (st : MIMPI_State)
    (pipe1 meta1 : List Nat) : ReceiverTurn :=
  if ofLE32 meta1 4 < 0 then ReceiverTurn.undef
  else
    match receiver_read chrecv fuel pipe1 (ofLE32 meta1 4) [] with
    | none => ReceiverTurn.undef
    | some (buf, pipe2, closed) =>
      match receiver_enqueue st proc (ofLE32 meta1 0) (ofLE32 meta1 4) buf with
      | none => ReceiverTurn.undef
      | some st1 =>
        if closed then ReceiverTurn.exit (-1) st1 else ReceiverTurn.next st1 pipe2 meta1

/-- Lines 110-135 of `MIMPI_Receiver`, after the metadata `meta1` is read: the
three control tags, else a data frame.  The write `left_MIMPI_block[proc] = 1` is
undefined for a `proc` outside the array. -/
def receiver_frame (chsend : ChSend) (chrecv : ChRecv) (proc : Int) (fuel : Nat)
    (st : MIMPI_State) (pipe1 meta1 : List Nat) : ReceiverTurn :=
  if ofLE32 meta1 0 = -1 then ReceiverTurn.exit 0 st
  else if ofLE32 meta1 0 = -7 then
    if in_table proc then ReceiverTurn.next (receiver_left st proc) pipe1 meta1
    else ReceiverTurn.undef
  else if ofLE32 meta1 0 = GROUP_FAIL then
    match receiver_group_fail chsend fuel st with
    | none => ReceiverTurn.undef
    | some st1 => ReceiverTurn.next st1 pipe1 meta1
  else receiver_data chrecv proc fuel st pipe1 meta1

/-- One turn of the loop `while (1)` of `MIMPI_Receiver` (lines 103-184) on the
bytes `pipe` still to come; `meta_buf` is the content of the local array of that
name, of which a read of fewer than 8 bytes replaces only the front. -/
def receiver_turn (chsend : ChSend) (chrecv : ChRecv) (proc : Int) (fuel : Nat)
    (st : MIMPI_State) (pipe meta_buf : List Nat) : ReceiverTurn :=
  if chrecv pipe.length 8 = 0 then ReceiverTurn.exit 0 st
  else
    receiver_frame chsend chrecv proc fuel st (pipe.drop (chrecv pipe.length 8))
      (pipe.take (chrecv pipe.length 8) ++ meta_buf.drop (chrecv pipe.length 8))

/-- The thread function `MIMPI_Receiver` (lines 91-185) for the peer `proc`, on
the bytes `pipe` that the peer writes before it closes the pipe; `meta_buf` is not
initialised at the start.  The result is the value of `*result` and the final
state; `none`: out of fuel, or the C code aborts or is undefined. -/
def MIMPI_Receiver (chsend : ChSend) (chrecv : ChRecv) (proc : Int) :
    Nat → MIMPI_State → List Nat → List Nat → Option (Int × MIMPI_State)
  | 0, _, _, _ => none
  | fuel + 1, st, pipe, meta_buf =>
    match receiver_turn chsend chrecv proc (fuel + 1) st pipe meta_buf with
    | ReceiverTurn.exit result st1 => some (result, st1)
    | ReceiverTurn.next st1 pipe1 meta1 =>
      MIMPI_Receiver chsend chrecv proc fuel st1 pipe1 meta1
    | ReceiverTurn.undef => none

/-! ## `MIMPI_Recv` -/

/-- What a receiver thread does to the state in one turn of its loop while the
application thread is inside the wait loop of `MIMPI_Recv`.  While the
application thread sleeps in `pthread_cond_wait`: a data frame from `proc` is
queued (`message`), `proc` announces that it leaves (`left`, tag `-7`), or a
`GROUP_FAIL` frame arrives (`group_fail`).  The turns for the tags `-7` and
`GROUP_FAIL` (lines 115-118 and 120-134) do not take `queue.mutex`, so they can
also fall between the test of the wait condition (lines 428, 446) and the sleep
(lines 429, 447): `left_early` and `group_fail_early`.  A data frame cannot: the
receiver thread links the node under `queue.mutex` (lines 150-155), which the
application thread holds until it sleeps. -/
inductive Event where
  | message (proc tag count : Int) (buffer : List Nat)
  | left (proc : Int)
  | group_fail
  | left_early (proc : Int)
  | group_fail_early
  deriving DecidableEq, Repr

/-- The effect of one receiver turn on the state (`none`: undefined, as in
`receiver_enqueue`, `MIMPI_Send` and the write to `left_MIMPI_block`). -/
def apply_event (chsend : ChSend) (fuel : Nat) (st : MIMPI_State) :
    Event → Option MIMPI_State
  | Event.message proc tag count buffer => receiver_enqueue st proc tag count buffer
  | Event.left proc => if in_table proc then some (receiver_left st proc) else none
  | Event.group_fail => receiver_group_fail chsend fuel st
  | Event.left_early proc => if in_table proc then some (receiver_left st proc) else none
  | Event.group_fail_early => receiver_group_fail chsend fuel st

/-- The turn calls `pthread_cond_signal` while the application thread sleeps: a
data frame that matches the pattern when the matched-flag is clear (lines
157-160), every frame with tag `-7` (line 117), a `GROUP_FAIL` frame when the
group-failed flag is clear (lines 121-123).  The signal of a turn that falls
before the sleep wakes nobody. -/
def signals (st : MIMPI_State) : Event → Bool
  | Event.message proc tag count buffer =>
    !st.found_matching_msg &&
      (match st.msg_pattern with
       | none => false
       | some pat => match_ pat ⟨proc, tag, count, buffer⟩)
  | Event.left _ => true
  | Event.group_fail => !st.group_failed
  | Event.left_early _ => false
  | Event.group_fail_early => false

/-- The turn as it counts when the application thread already sleeps: nothing can
fall before a sleep that has begun, so a turn marked early is then an ordinary
one. -/
def unmark : Event → Event
  | Event.left_early proc => Event.left proc
  | Event.group_fail_early => Event.group_fail
  | e => e

/-- How a `while (...) pthread_cond_wait(...)` loop ends. -/
inductive Wait where
  | woke (st : MIMPI_State)
  | blocked (st : MIMPI_State)
  | undef

/-- The loop `while (waiting) pthread_cond_wait(&matched_msg, &queue.mutex)`.
With `asleep = false` the thread is about to test the condition: when it holds,
the turns marked early happen, then the thread sleeps.  With `asleep = true` the
thread sleeps in `pthread_cond_wait`: a turn that signals wakes it, and it tests
the condition again; after a turn that does not signal it sleeps on, whatever the
condition has become.  The caller is still blocked when the turns run out while
it sleeps, or with the condition true. -/
def cond_wait (chsend : ChSend) (fuel : Nat) (waiting : MIMPI_State → Bool) :
    Bool → MIMPI_State → List Event → Wait
  | false, st, [] => if waiting st then Wait.blocked st else Wait.woke st
  | true, st, [] => Wait.blocked st
  | false, st, e :: es =>
    if waiting st then
      match apply_event chsend fuel st e with
      | none => Wait.undef
      | some st1 =>
        if signals st e then cond_wait chsend fuel waiting false st1 es
        else cond_wait chsend fuel waiting true st1 es
    else Wait.woke st
  | true, st, e :: es =>
    match apply_event chsend fuel st e with
    | none => Wait.undef
    | some st1 =>
      if signals st (unmark e) then cond_wait chsend fuel waiting false st1 es
      else cond_wait chsend fuel waiting true st1 es

/-- The scan `while (q_ptr != queue.end)` of `MIMPI_Recv` (lines 411-417 and
460-466): the position of the first node that matches, counted from the node the
scan starts at. -/
def find_match (pattern : MIMPI_Message) : List MIMPI_Message → Option Nat
  | [] => none
  | m :: q => if match_ pattern m then some 0 else (find_match pattern q).map (· + 1)

/-- How a call of `MIMPI_Recv` ends: it returns a code, with the new state and the
new contents of the caller's buffer; or it is still blocked; or it is undefined
(`recv_node` is `NULL` when it is read). -/
inductive RecvResult where
  | ret (code : MIMPI_Retcode) (st : MIMPI_State) (data : List Nat)
  | blocked (st : MIMPI_State)
  | undef

/-- Lines 468-490 of `MIMPI_Recv`: the call takes the mutex `is_buffered` of the
node at position `i` (line 470) and blocks there while the receiver thread holds
it; then the payload is copied to the caller's buffer and the node is unlinked. -/
def recv_take (st : MIMPI_State) (data : List Nat) (i : Nat) : RecvResult :=
  match st.queue[i]? with
  | none => RecvResult.undef
  | some m =>
    if is_buffered m then
      RecvResult.ret MIMPI_SUCCESS
        { st with queue := st.queue.eraseIdx i, found_matching_msg := true }
        (if m.count > 0 then m.buffer.take m.count.toNat ++ data.drop m.count.toNat
          else data)
    else RecvResult.blocked st

/-- Lines 451-467 of `MIMPI_Recv`, after the wait: give up when nothing matched,
else scan the nodes behind the last node checked (`n0` nodes were checked). -/
def recv_after_wait (st : MIMPI_State) (data : List Nat) (pattern : MIMPI_Message)
    (n0 : Nat) : RecvResult :=
  if !st.found_matching_msg then
    RecvResult.ret MIMPI_ERROR_REMOTE_FINISHED { st with found_matching_msg := true } data
  else
    match find_match pattern (st.queue.drop n0) with
    | none => RecvResult.undef
    | some i => recv_take st data (n0 + i)

/-- The function `MIMPI_Recv` (lines 391-491); `events` are the turns of the
receiver threads that happen while the call is in its wait loop.  The wait
conditions read `left_MIMPI_block[source]` (for a user tag only when `tag >= 0`),
which is undefined for a `source` outside the array. -/
def MIMPI_Recv (chsend : ChSend) (fuel : Nat) (st : MIMPI_State) (data : List Nat)
    (count source tag : Int) (events : List Event) : RecvResult :=
  if st.my_rank = source then RecvResult.ret MIMPI_ERROR_ATTEMPTED_SELF_OP st data
  else if source < 0 ∨ source ≥ st.world_size then
    RecvResult.ret MIMPI_ERROR_NO_SUCH_RANK st data
  else
    match find_match ⟨source, tag, count, []⟩ st.queue with
    | some i => recv_take { st with found_matching_msg := true } data i
    | none =>
      if tag = GROUP_BEGIN ∨ tag = GROUP_END then
        if !in_table source then RecvResult.undef
        else
        match cond_wait chsend fuel
            (fun s => !s.found_matching_msg && !s.left_MIMPI_block source && !s.group_failed)
            false
            { st with msg_pattern := some ⟨source, tag, count, []⟩,
                      found_matching_msg := false } events with
        | Wait.undef => RecvResult.undef
        | Wait.blocked s => RecvResult.blocked s
        | Wait.woke s =>
          if !s.found_matching_msg && s.left_MIMPI_block source then
            match send_ignored chsend fuel { s with found_matching_msg := true } [] 0 0
                GROUP_FAIL with
            | none => RecvResult.undef
            | some s1 => RecvResult.ret MIMPI_ERROR_REMOTE_FINISHED s1 data
          else if s.group_failed then
            RecvResult.ret MIMPI_ERROR_REMOTE_FINISHED { s with found_matching_msg := true }
              data
          else recv_after_wait s data ⟨source, tag, count, []⟩ st.queue.length
      else
        if !decide (tag < 0) && !in_table source then RecvResult.undef
        else
        match cond_wait chsend fuel
            (fun s => !s.found_matching_msg
              && (decide (tag < 0) || !s.left_MIMPI_block source))
            false
            { st with msg_pattern := some ⟨source, tag, count, []⟩,
                      found_matching_msg := false } events with
        | Wait.undef => RecvResult.undef
        | Wait.blocked s => RecvResult.blocked s
        | Wait.woke s => recv_after_wait s data ⟨source, tag, count, []⟩ st.queue.length

/-- The state that `MIMPI_Init` (lines 187-251) and the static initialisers (lines
78-87) leave: an empty queue between the sentinels, no pattern, the matched flag
set, no peer gone, no group failure, nothing written. -/
def init_state (world_size my_rank : Int) : MIMPI_State :=
  { world_size := world_size,
    my_rank := my_rank,
    queue := [],
    msg_pattern := none,
    found_matching_msg := true,
    left_MIMPI_block := fun _ => false,
    group_failed := false,
    written := [] }

/-- The function `MIMPI_Init` (lines 187-251) in a process that `mimpirun` has
given the world size `world_size` and the rank `my_rank`.  The loops of lines
198-214 and 240-246 write `left_MIMPI_block[i]` and `threads[i]` for every
`i < world_size`: with more than 16 ranks they write behind the two 16-entry
arrays, which is undefined (`none`). -/
def MIMPI_Init (world_size my_rank : Int) : Option MIMPI_State :=
  if world_size ≤ TABLE_SIZE then some (init_state world_size my_rank) else none

/-- Two states agree on everything `MIMPI_Recv` looks at while it waits for a
user tag: all fields but `group_failed` and `written`. -/
def same_view (a b : MIMPI_State) : Prop :=
  a.world_size = b.world_size ∧ a.my_rank = b.my_rank ∧ a.queue = b.queue ∧
  a.msg_pattern = b.msg_pattern ∧ a.found_matching_msg = b.found_matching_msg ∧
  a.left_MIMPI_block = b.left_MIMPI_block

/-- A state of rank 1 in a world of 2 with three queued messages from rank 0:
tag 3 with 2 bytes, then tag 7 with "hello", then tag 7 with "world". -/
def example_queue_state : MIMPI_State :=
  { init_state 2 1 with
    queue := [⟨0, 3, 2, [1, 2]⟩, ⟨0, 7, 5, [104, 101, 108, 108, 111]⟩,
              ⟨0, 7, 5, [119, 111, 114, 108, 100]⟩] }

/-- The bytes this process has put on the pipe to rank `d`, in the order of the
`chsend` calls. -/
def pipe_to (st : MIMPI_State) (d : Int) : List Nat :=
  ((st.written.filter (fun w => w.1 == d)).map Prod.snd).flatten

/-- A channel that accepts every write in full. -/
def chsend_full : ChSend := fun _ _ n => n

/-- A pipe whose reads deliver as many bytes as were asked for and are there. -/
def chrecv_avail : ChRecv := fun a r => min a r

/-- Rank 1 of a world of 2 with one queued message from rank 0: tag 7, "world". -/
def example_world_state : MIMPI_State :=
  { init_state 2 1 with queue := [⟨0, 7, 5, [119, 111, 114, 108, 100]⟩] }

/-! ## The collectives -/

/-- The function `MIMPI_real_proc` (lines 520-526). -/
def MIMPI_real_proc (rank root : Int) : Int :=
  if rank = root then 0
  else if rank = 0 then root
  else rank

/-- The local variables of a call of a collective and the place the call has
reached.  `data` is the buffer `data` of `MIMPI_Bcast` and `send_data` of
`MIMPI_Reduce`; `reduced_data` is the buffer that pointer names, and at the root of
a reduction, where the pointer is `recv_data`, both fields hold the same bytes. -/
structure Locals where
  pc : Nat
  data : List Nat
  recv_data : List Nat
  reduced_data : List Nat
  tmp_buf : List Nat
  deriving DecidableEq, Repr

/-- What a collective does next: go on locally, call `MIMPI_Send` and go on with
`next` (the return value is dropped), call `MIMPI_Recv` on the buffer `data` and go
on with the code and the buffer it returns, or return. -/
inductive Instr where
  | goto (next : Locals)
  | send (data : List Nat) (count destination tag : Int) (next : Locals)
  | recv (data : List Nat) (count source tag : Int) (k : MIMPI_Retcode → List Nat → Locals)
  | ret (code : MIMPI_Retcode)

/-- The macro `ASSERT_MIMPI_RECV_OK` (lines 73-75) around a call of `MIMPI_Recv`:
on `MIMPI_ERROR_REMOTE_FINISHED` the collective returns that code (place 8), on
every other code it goes on at place `pc` with the received buffer stored. -/
def recv_ok (loc : Locals) (pc : Nat) (store : Locals → List Nat → Locals) :
    MIMPI_Retcode → List Nat → Locals :=
  fun code buf =>
    if code = MIMPI_ERROR_REMOTE_FINISHED then { loc with pc := 8 }
    else { store loc buf with pc := pc }

/-- The function `MIMPI_Barrier` (lines 493-518), one call at a time: place 0 is
the entry, places 1 and 2 the receives from the children, 3 the send to the parent,
4 the receive from the parent, 5 and 6 the sends to the children, 7 the final
`return MIMPI_SUCCESS`, 8 the `return` inside `ASSERT_MIMPI_RECV_OK`. -/
def MIMPI_Barrier (world_size my_rank : Int) (loc : Locals) : Instr :=
  match loc.pc with
  | 0 => Instr.goto { loc with pc := 1 }
  | 1 =>
    if (my_rank + 1) * 2 - 1 < world_size then
      Instr.recv [] 0 ((my_rank + 1) * 2 - 1) GROUP_BEGIN (recv_ok loc 2 (fun l _ => l))
    else Instr.goto { loc with pc := 3 }
  | 2 =>
    if (my_rank + 1) * 2 - 1 + 1 < world_size then
      Instr.recv [] 0 ((my_rank + 1) * 2 - 1 + 1) GROUP_BEGIN (recv_ok loc 3 (fun l _ => l))
    else Instr.goto { loc with pc := 3 }
  | 3 =>
    if my_rank ≠ 0 then
      Instr.send [] 0 (Int.tdiv (my_rank + 1) 2 - 1) GROUP_BEGIN { loc with pc := 4 }
    else Instr.goto { loc with pc := 4 }
  | 4 =>
    if my_rank ≠ 0 then
      Instr.recv [] 0 (Int.tdiv (my_rank + 1) 2 - 1) GROUP_END (recv_ok loc 5 (fun l _ => l))
    else Instr.goto { loc with pc := 5 }
  | 5 =>
    if (my_rank + 1) * 2 - 1 < world_size then
      Instr.send [] 0 ((my_rank + 1) * 2 - 1) GROUP_END { loc with pc := 6 }
    else Instr.goto { loc with pc := 7 }
  | 6 =>
    if (my_rank + 1) * 2 - 1 + 1 < world_size then
      Instr.send [] 0 ((my_rank + 1) * 2 - 1 + 1) GROUP_END { loc with pc := 7 }
    else Instr.goto { loc with pc := 7 }
  | 7 => Instr.ret MIMPI_SUCCESS
  | _ => Instr.ret MIMPI_ERROR_REMOTE_FINISHED

/-- What the three collectives have in common: the world and the root of the rank
tree, the counts of the messages that go up and down, and what each place does
with the local buffers. -/
structure TreeShape where
  world_size : Int
  root : Int
  count_up : Int
  count_down : Int
  pre : Int → Locals → Locals
  buf_left : Locals → List Nat
  buf_right : Locals → List Nat
  on_child : Int → Locals → List Nat → Locals
  up : Locals → List Nat
  buf_parent : Locals → List Nat
  on_parent : Locals → List Nat → Locals
  down : Locals → List Nat

/-- The rank whose place `my_rank` takes in the tree (`treat_as`). -/
def TreeShape.treat_as (S : TreeShape) (my_rank : Int) : Int :=
  MIMPI_real_proc my_rank S.root

/-- The rank `l_child` of `MIMPI_Bcast` and `MIMPI_Reduce`. -/
def TreeShape.l_child (S : TreeShape) (my_rank : Int) : Int :=
  MIMPI_real_proc ((S.treat_as my_rank + 1) * 2 - 1) S.root

/-- The rank `r_child` of `MIMPI_Bcast` and `MIMPI_Reduce`. -/
def TreeShape.r_child (S : TreeShape) (my_rank : Int) : Int :=
  MIMPI_real_proc ((S.treat_as my_rank + 1) * 2) S.root

/-- The rank `parent` of `MIMPI_Bcast` and `MIMPI_Reduce`. -/
def TreeShape.parent (S : TreeShape) (my_rank : Int) : Int :=
  MIMPI_real_proc (Int.tdiv (S.treat_as my_rank + 1) 2 - 1) S.root

/-- The common control flow of `MIMPI_Barrier`, `MIMPI_Bcast` and `MIMPI_Reduce`. -/
def tree_collective (S : TreeShape) (my_rank : Int) (loc : Locals) : Instr :=
  match loc.pc with
  | 0 => Instr.goto { S.pre my_rank loc with pc := 1 }
  | 1 =>
    if S.l_child my_rank < S.world_size then
      Instr.recv (S.buf_left loc) S.count_up (S.l_child my_rank) GROUP_BEGIN
        (recv_ok loc 2 (S.on_child my_rank))
    else Instr.goto { loc with pc := 3 }
  | 2 =>
    if S.r_child my_rank < S.world_size then
      Instr.recv (S.buf_right loc) S.count_up (S.r_child my_rank) GROUP_BEGIN
        (recv_ok loc 3 (S.on_child my_rank))
    else Instr.goto { loc with pc := 3 }
  | 3 =>
    if S.treat_as my_rank ≠ 0 then
      Instr.send (S.up loc) S.count_up (S.parent my_rank) GROUP_BEGIN { loc with pc := 4 }
    else Instr.goto { loc with pc := 4 }
  | 4 =>
    if S.treat_as my_rank ≠ 0 then
      Instr.recv (S.buf_parent loc) S.count_down (S.parent my_rank) GROUP_END
        (recv_ok loc 5 S.on_parent)
    else Instr.goto { loc with pc := 5 }
  | 5 =>
    if S.l_child my_rank < S.world_size then
      Instr.send (S.down loc) S.count_down (S.l_child my_rank) GROUP_END { loc with pc := 6 }
    else Instr.goto { loc with pc := 7 }
  | 6 =>
    if S.r_child my_rank < S.world_size then
      Instr.send (S.down loc) S.count_down (S.r_child my_rank) GROUP_END { loc with pc := 7 }
    else Instr.goto { loc with pc := 7 }
  | 7 => Instr.ret MIMPI_SUCCESS
  | _ => Instr.ret MIMPI_ERROR_REMOTE_FINISHED

/-- The shape of `MIMPI_Barrier`: root 0, empty messages, no buffers. -/
def barrier_shape (world_size : Int) : TreeShape :=
  { world_size := world_size, root := 0, count_up := 0, count_down := 0,
    pre := fun _ l => l,
    buf_left := fun _ => [], buf_right := fun _ => [],
    on_child := fun _ l _ => l,
    up := fun _ => [],
    buf_parent := fun _ => [],
    on_parent := fun l _ => l,
    down := fun _ => [] }

/-- The shape of `MIMPI_Bcast`: empty messages up, `data` down. -/
def bcast_shape (world_size count root : Int) : TreeShape :=
  { world_size := world_size, root := root, count_up := 0, count_down := count,
    pre := fun _ l => l,
    buf_left := fun _ => [], buf_right := fun _ => [],
    on_child := fun _ l _ => l,
    up := fun _ => [],
    buf_parent := fun l => l.data,
    on_parent := fun l buf => { l with data := buf },
    down := fun l => l.data }

/-- Where the application thread of a rank is: it has not called the collective
yet, it is inside the call, or the call has returned `code`. -/
inductive Status where
  | idle
  | running (loc : Locals)
  | returned (code : MIMPI_Retcode) (loc : Locals)
  deriving DecidableEq, Repr

/-- The state of all processes.  `procs a` is the library state of rank `a`; the
pipe from `a` to `b` holds the bytes `pipe_to (procs a) b`, of which the receiver
thread of `b` for the peer `a` has read the first `consumed b a`, and `meta_bufs b a`
is the array `meta_buf` of that thread. -/
structure Net where
  procs : Int → MIMPI_State
  consumed : Int → Int → Nat
  meta_bufs : Int → Int → List Nat
  app : Int → Status

/-- One atomic move of the world: rank `a` calls the collective; the application
thread of `a` goes one place further; the receiver thread of `b` for the peer `a`
takes one turn of its loop. -/
inductive Action where
  | call (a : Int)
  | thread (a : Int)
  | receiver (b a : Int)
  deriving DecidableEq, Repr

/-- The map `f` with the value at `a` replaced by `v`. -/
def set_at {α : Type} (f : Int → α) (a : Int) (v : α) : Int → α :=
  fun x => if x = a then v else f x

/-- All ranks of a world of `N` in the state that `MIMPI_Init` leaves, before any
of them has called the collective. -/
def Net.initial (N : Int) : Net :=
  { procs := fun a => init_state N a,
    consumed := fun _ _ => 0,
    meta_bufs := fun _ _ => [],
    app := fun _ => Status.idle }

/-- The world of `N` ranks after `MIMPI_Init` in every process; `none` where
`MIMPI_Init` is undefined, which depends on the world size only. -/
def Net.start (N : Int) : Option Net :=
  match MIMPI_Init N 0 with
  | none => none
  | some _ => some (Net.initial N)

/-- The move of the application thread of rank `a` at the instruction `i`.  Every
channel write is accepted in full; `MIMPI_Recv` is not enabled while it would
block (no receiver turn happens inside the move: they are moves of their own). -/
def Net.exec (net : Net) (a : Int) (loc : Locals) : Instr → Option Net
  | Instr.goto next => some { net with app := set_at net.app a (Status.running next) }
  | Instr.ret code => some { net with app := set_at net.app a (Status.returned code loc) }
  | Instr.send data count destination tag next =>
    match MIMPI_Send chsend_full (count.toNat + 1) (net.procs a) data count destination tag with
    | none => none
    | some (_, st) =>
      some { net with procs := set_at net.procs a st,
                      app := set_at net.app a (Status.running next) }
  | Instr.recv data count source tag k =>
    match MIMPI_Recv chsend_full 1 (net.procs a) data count source tag [] with
    | RecvResult.ret code st buf =>
      some { net with procs := set_at net.procs a st,
                      app := set_at net.app a (Status.running (k code buf)) }
    | _ => none

/-- The turn of the receiver thread of `b` for the peer `a` on the bytes of the
pipe it has not read yet; with no byte there the thread is blocked in `chrecv`. -/
def Net.receive (net : Net) (b a : Int) : Option Net :=
  if (pipe_to (net.procs a) b).drop (net.consumed b a) = [] then none
  else
    match receiver_turn chsend_full chrecv_avail a
        (((pipe_to (net.procs a) b).drop (net.consumed b a)).length + 1) (net.procs b)
        ((pipe_to (net.procs a) b).drop (net.consumed b a)) (net.meta_bufs b a) with
    | ReceiverTurn.next st rest meta1 =>
      some { net with
        procs := set_at net.procs b st,
        consumed := set_at net.consumed b
          (set_at (net.consumed b) a ((pipe_to (net.procs a) b).length - rest.length)),
        meta_bufs := set_at net.meta_bufs b (set_at (net.meta_bufs b) a meta1) }
    | _ => none

/-- One move of a world of `N` ranks in which rank `a` runs the program `prog a`
from the local variables `init a`; `none` when the move is not enabled. -/
def Net.step (N : Int) (prog : Int → Locals → Instr) (init : Int → Locals) (net : Net) :
    Action → Option Net
  | Action.call a =>
    if 0 ≤ a ∧ a < N then
      match net.app a with
      | Status.idle => some { net with app := set_at net.app a (Status.running (init a)) }
      | _ => none
    else none
  | Action.thread a =>
    if 0 ≤ a ∧ a < N then
      match net.app a with
      | Status.running loc => net.exec a loc (prog a loc)
      | _ => none
    else none
  | Action.receiver b a =>
    if 0 ≤ a ∧ a < N ∧ 0 ≤ b ∧ b < N ∧ a ≠ b then net.receive b a else none

/-- The world after the moves `acts`, in this order (an interleaving). -/
def Net.run (N : Int) (prog : Int → Locals → Instr) (init : Int → Locals) :
    Net → List Action → Option Net
  | net, [] => some net
  | net, act :: acts =>
    match net.step N prog init act with
    | none => none
    | some net1 => Net.run N prog init net1 acts

/-- The world after `MIMPI_Init` in every process and then the moves `acts`. -/
def Net.launch (N : Int) (prog : Int → Locals → Instr) (init : Int → Locals)
    (acts : List Action) : Option Net :=
  match Net.start N with
  | none => none
  | some net => Net.run N prog init net acts

/-! ## Invariants of a world that runs a collective -/

/-- How far a rank is: 0 before the call, place + 1 inside the call, 9 after the
return. -/
def stage : Status → Nat
  | Status.idle => 0
  | Status.running loc => loc.pc + 1
  | Status.returned _ _ => 9

/-- The bytes of one frame on a pipe: tag, count, payload. -/
def wire (m : MIMPI_Message) : List Nat := le32 m.tag ++ le32 m.count ++ m.buffer

/-- The bytes of a sequence of frames. -/
def wires (ms : List MIMPI_Message) : List Nat := ms.flatMap wire

/-- What `MIMPI_Recv` leaves in the caller's buffer `buf` for a payload. -/
def copy_into (count : Int) (payload buf : List Nat) : List Nat :=
  if count > 0 then payload.take count.toNat ++ buf.drop count.toNat else buf

/-- What is to be shown of the buffers of a collective: `U a p` says that `p` is
the payload rank `a` sends up, `D p` that `p` is the payload sent down, `L a loc`
that the local variables of rank `a` are as they should be at the place `loc.pc`. -/
structure TreeData where
  U : Int → List Nat → Prop
  D : List Nat → Prop
  L : Int → Locals → Prop

/-- Every place of the collective of shape `S` keeps up what `T` says of the
buffers. -/
structure TreeLaws (S : TreeShape) (init : Int → Locals) (T : TreeData) : Prop where
  at_init : ∀ a, 0 ≤ a → a < S.world_size → (init a).pc = 0 ∧ T.L a (init a)
  at_0 : ∀ a loc, 0 ≤ a → a < S.world_size → T.L a loc → loc.pc = 0 →
    T.L a { S.pre a loc with pc := 1 }
  at_1_skip : ∀ a loc, 0 ≤ a → a < S.world_size → T.L a loc → loc.pc = 1 →
    ¬ S.l_child a < S.world_size → T.L a { loc with pc := 3 }
  at_1 : ∀ a loc p, 0 ≤ a → a < S.world_size → T.L a loc → loc.pc = 1 →
    S.l_child a < S.world_size → T.U (S.l_child a) p → p.length = S.count_up.toNat →
    T.L a { S.on_child a loc (copy_into S.count_up p (S.buf_left loc)) with pc := 2 }
  at_2_skip : ∀ a loc, 0 ≤ a → a < S.world_size → T.L a loc → loc.pc = 2 →
    ¬ S.r_child a < S.world_size → T.L a { loc with pc := 3 }
  at_2 : ∀ a loc p, 0 ≤ a → a < S.world_size → T.L a loc → loc.pc = 2 →
    S.r_child a < S.world_size → T.U (S.r_child a) p → p.length = S.count_up.toNat →
    T.L a { S.on_child a loc (copy_into S.count_up p (S.buf_right loc)) with pc := 3 }
  at_3_skip : ∀ a loc, 0 ≤ a → a < S.world_size → T.L a loc → loc.pc = 3 →
    S.treat_as a = 0 → T.L a { loc with pc := 4 }
  at_3 : ∀ a loc, 0 ≤ a → a < S.world_size → T.L a loc → loc.pc = 3 →
    S.treat_as a ≠ 0 →
    S.count_up.toNat ≤ (S.up loc).length ∧ T.U a ((S.up loc).take S.count_up.toNat) ∧
    T.L a { loc with pc := 4 }
  at_4_skip : ∀ a loc, 0 ≤ a → a < S.world_size → T.L a loc → loc.pc = 4 →
    S.treat_as a = 0 → T.L a { loc with pc := 5 }
  at_4 : ∀ a loc p, 0 ≤ a → a < S.world_size → T.L a loc → loc.pc = 4 →
    S.treat_as a ≠ 0 → T.D p → p.length = S.count_down.toNat →
    T.L a { S.on_parent loc (copy_into S.count_down p (S.buf_parent loc)) with pc := 5 }
  at_5_skip : ∀ a loc, 0 ≤ a → a < S.world_size → T.L a loc → loc.pc = 5 →
    ¬ S.l_child a < S.world_size → T.L a { loc with pc := 7 }
  at_5 : ∀ a loc, 0 ≤ a → a < S.world_size → T.L a loc → loc.pc = 5 →
    S.l_child a < S.world_size →
    S.count_down.toNat ≤ (S.down loc).length ∧ T.D ((S.down loc).take S.count_down.toNat) ∧
    T.L a { loc with pc := 6 }
  at_6_skip : ∀ a loc, 0 ≤ a → a < S.world_size → T.L a loc → loc.pc = 6 →
    ¬ S.r_child a < S.world_size → T.L a { loc with pc := 7 }
  at_6 : ∀ a loc, 0 ≤ a → a < S.world_size → T.L a loc → loc.pc = 6 →
    S.r_child a < S.world_size →
    S.count_down.toNat ≤ (S.down loc).length ∧ T.D ((S.down loc).take S.count_down.toNat) ∧
    T.L a { loc with pc := 7 }

/-- A frame or queued message is accounted for: it is a well-formed `GROUP_BEGIN`
message whose sender is past its send to the parent, or a well-formed `GROUP_END`
message whose sender is past its receive from the parent. -/
def Just (S : TreeShape) (T : TreeData) (net : Net)
    (m : MIMPI_Message) : Prop :=
  0 ≤ m.count ∧ m.count ≤ 2147483639 ∧ m.buffer.length = m.count.toNat ∧
  ((m.tag = GROUP_BEGIN ∧ 5 ≤ stage (net.app m.source) ∧ m.count = S.count_up ∧
      T.U m.source m.buffer) ∨
   (m.tag = GROUP_END ∧ 6 ≤ stage (net.app m.source) ∧ m.count = S.count_down ∧
      T.D m.buffer))

/-- What a rank at place `n` knows of its neighbours: past the receive from a
child, the child is past its send to the parent; past the receive from the
parent, the parent is past its own receive from its parent. -/
def Order (S : TreeShape) (net : Net) (a : Int) (n : Nat) : Prop :=
  (2 ≤ n → S.l_child a < S.world_size → 5 ≤ stage (net.app (S.l_child a))) ∧
  (3 ≤ n → S.l_child a < S.world_size → S.r_child a < S.world_size →
    5 ≤ stage (net.app (S.r_child a))) ∧
  (5 ≤ n → S.treat_as a ≠ 0 → 6 ≤ stage (net.app (S.parent a)))

/-- The part of the invariant on the application thread of rank `a`. -/
def AppOK (S : TreeShape) (T : TreeData) (net : Net)
    (a : Int) : Status → Prop
  | Status.idle => True
  | Status.running loc => loc.pc ≤ 7 ∧ T.L a loc ∧ Order S net a loc.pc
  | Status.returned code loc =>
    code = MIMPI_SUCCESS ∧ loc.pc = 7 ∧ T.L a loc ∧ Order S net a 7

/-- The invariant of a failure-free world that runs the collective of shape `S`. -/
structure Inv (S : TreeShape) (T : TreeData) (net : Net) :
    Prop where
  procs_ok : ∀ a, 0 ≤ a → a < S.world_size →
    (net.procs a).my_rank = a ∧ (net.procs a).world_size = S.world_size ∧
    (net.procs a).found_matching_msg = true ∧
    (∀ p, (net.procs a).left_MIMPI_block p = false) ∧
    (net.procs a).group_failed = false
  pipes_ok : ∃ fl : Int → Int → List MIMPI_Message,
    ∀ a b, 0 ≤ a → a < S.world_size →
      (pipe_to (net.procs a) b).drop (net.consumed b a) = wires (fl a b) ∧
      net.consumed b a ≤ (pipe_to (net.procs a) b).length ∧
      ∀ m ∈ fl a b, m.source = a ∧ Just S T net m
  queue_ok : ∀ b, 0 ≤ b → b < S.world_size →
    ∀ m ∈ (net.procs b).queue, Just S T net m
  app_ok : ∀ a, 0 ≤ a → a < S.world_size → AppOK S T net a (net.app a)

/-- The local variables at the call of a collective: place 0, the caller's
buffers `data` and `recv_data`, nothing allocated yet. -/
def Locals.start (data recv_data : List Nat) : Locals :=
  { pc := 0, data := data, recv_data := recv_data, reduced_data := [], tmp_buf := [] }

/-- The buffers of `MIMPI_Barrier`: every message is empty, there is nothing to
say of the local variables. -/
def barrier_data : TreeData :=
  { U := fun _ p => p = [],
    D := fun p => p = [],
    L := fun _ _ => True }

/-- An interleaving of four ranks in `MIMPI_Barrier` in which all of them return. -/
def barrier_schedule : List Action :=
  [Action.call 0, Action.call 1, Action.call 2, Action.call 3,
   Action.thread 0, Action.thread 1, Action.thread 2, Action.thread 2, Action.thread 2,
   Action.thread 3, Action.thread 3, Action.thread 3,
   Action.receiver 0 2, Action.receiver 1 3,
   Action.thread 1, Action.thread 1, Action.thread 1,
   Action.receiver 0 1,
   Action.thread 0, Action.thread 0, Action.thread 0, Action.thread 0, Action.thread 0,
   Action.thread 0, Action.thread 0,
   Action.receiver 1 0,
   Action.thread 1, Action.thread 1, Action.thread 1, Action.thread 1,
   Action.receiver 2 0,
   Action.thread 2, Action.thread 2, Action.thread 2,
   Action.receiver 3 1,
   Action.thread 3, Action.thread 3, Action.thread 3]

/-- The value that the rank at place `t` of a tree of `n` places sends up when
every place folds the values of its children into its own `w t`, left child first,
as `MIMPI_Reduce` does (lines 596-605): the children of `t` are `2t+1` and `2t+2`. -/
def heap_fold {α : Type} (f : α → α → α) (w : Nat → α) (n : Nat) (t : Nat) : α :=
  if 2 * t + 1 < n then
    if 2 * t + 2 < n then
      f (f (w t) (heap_fold f w n (2 * t + 1))) (heap_fold f w n (2 * t + 2))
    else f (w t) (heap_fold f w n (2 * t + 1))
  else w t
termination_by n - t
decreasing_by all_goals omega

theorem reduce_loop_length (sc : Bool) (op : MIMPI_Op) (src : List Nat) (count : Int) :
    ∀ (fuel i : Nat) (dest : List Nat),
      (reduce_loop sc op src count fuel i dest).length = dest.length := by
  intro fuel
  induction fuel with
  | zero => intro i dest; rfl
  | succ n ih =>
    intro i dest
    simp only [reduce_loop]
    split
    · rw [ih]; simp
    · rfl

theorem getD_set_zero (l : List Nat) (i j v : Nat) :
    (l.set i v).getD j 0 = if j = i ∧ i < l.length then v else l.getD j 0 := by
  simp only [List.getD_eq_getElem?_getD, List.getElem?_set]
  by_cases h : i = j
  · subst h
    by_cases h2 : i < l.length
    · simp [h2]
    · simp [h2, List.getElem?_eq_none (Nat.le_of_not_lt h2)]
  · have h' : ¬ j = i := fun e => h e.symm
    simp [h, h']

theorem reduce_loop_getD (sc : Bool) (op : MIMPI_Op) (src : List Nat) (count : Int) :
    ∀ (fuel i : Nat) (dest : List Nat) (j : Nat),
      (reduce_loop sc op src count fuel i dest).getD j 0 =
        if i ≤ j ∧ j < i + fuel ∧ (j : Int) < count ∧ j < dest.length then
          reduce_byte sc op (dest.getD j 0) (src.getD j 0)
        else dest.getD j 0 := by
  intro fuel
  induction fuel with
  | zero =>
    intro i dest j
    have : ¬ (i ≤ j ∧ j < i + 0 ∧ (j : Int) < count ∧ j < dest.length) := by omega
    simp only [reduce_loop, if_neg this]
  | succ n ih =>
    intro i dest j
    simp only [reduce_loop]
    split
    · rename_i hic
      rw [ih, List.length_set, getD_set_zero]
      by_cases hji : j = i
      · subst hji
        by_cases hlen : j < dest.length
        · have h1 : ¬ (j + 1 ≤ j ∧ j < j + 1 + n ∧ (j : Int) < count ∧ j < dest.length) := by omega
          have h2 : (j ≤ j ∧ j < j + (n + 1) ∧ (j : Int) < count ∧ j < dest.length) :=
            ⟨le_refl _, by omega, hic, hlen⟩
          simp [h1, h2, hlen]
        · have h1 : ¬ (j + 1 ≤ j ∧ j < j + 1 + n ∧ (j : Int) < count ∧ j < dest.length) := by omega
          have h2 : ¬ (j ≤ j ∧ j < j + (n + 1) ∧ (j : Int) < count ∧ j < dest.length) := by omega
          simp [h1, h2, hlen]
      · have e : (i + 1 ≤ j ∧ j < i + 1 + n ∧ (j : Int) < count ∧ j < dest.length) ↔
            (i ≤ j ∧ j < i + (n + 1) ∧ (j : Int) < count ∧ j < dest.length) := by omega
        simp only [hji, false_and, if_false, e]
    · rename_i hic
      have : ¬ (i ≤ j ∧ j < i + (n + 1) ∧ (j : Int) < count ∧ j < dest.length) := by
        intro h; omega
      simp only [if_neg this]

theorem reduce_data_getD (sc : Bool) (op : MIMPI_Op) (dest src : List Nat) (count : Int)
    (j : Nat) :
    (reduce_data sc dest src count op).getD j 0 =
      if (j : Int) < count ∧ j < dest.length then
        reduce_byte sc op (dest.getD j 0) (src.getD j 0)
      else dest.getD j 0 := by
  unfold reduce_data
  rw [reduce_loop_getD]
  have e : (0 ≤ j ∧ j < 0 + count.toNat ∧ (j : Int) < count ∧ j < dest.length) ↔
      ((j : Int) < count ∧ j < dest.length) := by omega
  simp only [e]

theorem charVal_emod (sc : Bool) (b : Nat) : charVal sc b % 256 = (b : Int) % 256 := by
  unfold charVal
  split <;> omega

theorem toByte_add (sc : Bool) (d s : Nat) :
    toByte (charVal sc d + charVal sc s) = (d + s) % 256 := by
  unfold toByte
  have h1 := charVal_emod sc d
  have h2 := charVal_emod sc s
  omega

theorem toByte_mul (sc : Bool) (d s : Nat) :
    toByte (charVal sc d * charVal sc s) = (d * s) % 256 := by
  unfold toByte
  have h : (charVal sc d * charVal sc s) % 256 = (((d * s) % 256 : Nat) : Int) := by
    rw [Int.mul_emod, charVal_emod, charVal_emod, ← Int.mul_emod]
    push_cast
    rfl
  rw [h, Int.toNat_natCast]

theorem toByte_charVal (sc : Bool) (b : Nat) (hb : b < 256) : toByte (charVal sc b) = b := by
  unfold toByte charVal
  split <;> omega

theorem reduce_data_length (sc : Bool) (dest src : List Nat) (count : Int) (op : MIMPI_Op) :
    (reduce_data sc dest src count op).length = dest.length :=
  reduce_loop_length sc op src count _ _ _

theorem getD_lt_256 (l : List Nat) (h : ∀ b ∈ l, b < 256) (i : Nat) : l.getD i 0 < 256 := by
  rw [List.getD_eq_getElem?_getD]
  by_cases hi : i < l.length
  · rw [List.getElem?_eq_getElem hi]
    exact h _ (List.getElem_mem hi)
  · rw [List.getElem?_eq_none (Nat.le_of_not_lt hi)]
    decide

theorem charVal_lt_iff (sc : Bool) (d s : Nat) (hd : d < 256) (hs : s < 256)
    (h : sc = false ∨ (d < 128 ↔ s < 128)) :
    charVal sc d < charVal sc s ↔ d < s := by
  unfold charVal
  cases sc
  · simp
  · simp only [Bool.true_and, decide_eq_true_eq]
    rcases h with h | h
    · cases h
    · by_cases h1 : 128 ≤ d <;> by_cases h2 : 128 ≤ s <;> simp only [h1, h2, if_true, if_false]
        <;> omega

/-! ## C3: the matching predicate -/

/-- C3: `match(a, b)` is true for a pattern `a` and a message `b` exactly when the
sources are equal, the counts are equal, and the tags are equal or the pattern has
tag 0 and the message a strictly positive tag; so a tag-0 pattern matches every
message with a positive tag and equal source and count, and no message with a
negative tag. -/
theorem C3_match_iff (a b : MIMPI_Message) :
    (match_ a b = true ↔
      (a.source = b.source ∧ a.count = b.count ∧
        (a.tag = b.tag ∨ (a.tag = 0 ∧ b.tag > 0)))) ∧
    (a.tag = 0 → b.tag > 0 → a.source = b.source → a.count = b.count →
      match_ a b = true) ∧
    (a.tag = 0 → b.tag < 0 → match_ a b = false) := by
  have key : match_ a b = true ↔
      (a.source = b.source ∧ a.count = b.count ∧
        (a.tag = b.tag ∨ (a.tag = 0 ∧ b.tag > 0))) := by
    simp only [match_, Bool.and_eq_true, Bool.or_eq_true, beq_iff_eq, decide_eq_true_eq]
    tauto
  refine ⟨key, ?_, ?_⟩
  · intro h0 hp hs hc
    exact key.2 ⟨hs, hc, Or.inr ⟨h0, hp⟩⟩
  · intro h0 hn
    cases hm : match_ a b
    · rfl
    · have := key.1 hm
      omega

/-- C3 at an instance: the pattern (source 0, tag 0, count 5) against a message
with tag 7, and against one with tag -2. -/
theorem C3_match_iff_witness :
    match_ ⟨0, 0, 5, []⟩ ⟨0, 7, 5, [104, 101, 108, 108, 111]⟩ = true ∧
    match_ ⟨0, 0, 5, []⟩ ⟨0, -2, 5, [104, 101, 108, 108, 111]⟩ = false :=
  ⟨(C3_match_iff ⟨0, 0, 5, []⟩ ⟨0, 7, 5, [104, 101, 108, 108, 111]⟩).2.1
      rfl (by decide) rfl rfl,
   (C3_match_iff ⟨0, 0, 5, []⟩ ⟨0, -2, 5, [104, 101, 108, 108, 111]⟩).2.2
      rfl (by decide)⟩

/-! ## C8: SUM and PROD -/

/-- C8: after `reduce_data(dest, src, count, op)` every index `i < count` holds
`(dest[i] + src[i]) mod 256` when `op` is `MIMPI_SUM`, and `(dest[i] * src[i]) mod 256`
when `op` is none of MAX, MIN, SUM (the product branch); the length of `dest` is kept
and no byte at an index `>= count` is written.  `src` is an input that the function
only reads. -/
theorem C8_reduce_data_sum_prod (sc : Bool) (dest src : List Nat) (count : Int)
    (op : MIMPI_Op) (hd : count ≤ dest.length) :
    (reduce_data sc dest src count op).length = dest.length ∧
    (∀ i : Nat, (i : Int) < count →
      (op = MIMPI_SUM →
        (reduce_data sc dest src count op).getD i 0
          = (dest.getD i 0 + src.getD i 0) % 256) ∧
      (op ≠ MIMPI_MAX → op ≠ MIMPI_MIN → op ≠ MIMPI_SUM →
        (reduce_data sc dest src count op).getD i 0
          = (dest.getD i 0 * src.getD i 0) % 256)) ∧
    (∀ i : Nat, count ≤ (i : Int) →
      (reduce_data sc dest src count op).getD i 0 = dest.getD i 0) := by
  refine ⟨reduce_data_length sc dest src count op, ?_, ?_⟩
  · intro i hi
    have hlen : i < dest.length := by omega
    rw [reduce_data_getD, if_pos ⟨hi, hlen⟩]
    constructor
    · intro hop
      subst hop
      simp only [reduce_byte, MIMPI_SUM, MIMPI_MAX, MIMPI_MIN]
      simp only [show ¬ ((2 : Int) = 0) by decide, show ¬ ((2 : Int) = 1) by decide, if_false,
        if_true]
      exact toByte_add sc _ _
    · intro h1 h2 h3
      simp only [reduce_byte, if_neg h1, if_neg h2, if_neg h3]
      exact toByte_mul sc _ _
  · intro i hi
    rw [reduce_data_getD]
    have : ¬ ((i : Int) < count ∧ i < dest.length) := by omega
    rw [if_neg this]

/-- C8 at an instance: 200 + 100 wraps to 44 and 20 * 30 to 88; the byte after the
first `count` bytes is kept. -/
theorem C8_reduce_data_sum_prod_witness :
    (reduce_data true [200, 7] [100, 9] 1 MIMPI_SUM).getD 0 0 = (200 + 100) % 256 ∧
    (reduce_data true [20, 7] [30, 9] 1 MIMPI_PROD).getD 0 0 = (20 * 30) % 256 ∧
    (reduce_data true [20, 7] [30, 9] 1 MIMPI_PROD).getD 1 0 = 7 :=
  ⟨((C8_reduce_data_sum_prod true [200, 7] [100, 9] 1 MIMPI_SUM (by decide)).2.1 0
      (by decide)).1 rfl,
   ((C8_reduce_data_sum_prod true [20, 7] [30, 9] 1 MIMPI_PROD (by decide)).2.1 0
      (by decide)).2 (by decide) (by decide) (by decide),
   (C8_reduce_data_sum_prod true [20, 7] [30, 9] 1 MIMPI_PROD (by decide)).2.2 1
      (by decide)⟩

/-! ## C9: MAX and MIN -/

/-- C9, as the claim states it, fails where `char` is signed: the maximum of the
bytes 200 and 100 comes out as 100, not as the larger of the two values. -/
theorem C9_counterexample :
    (reduce_data true [200] [100] 1 MIMPI_MAX).getD 0 0 = 100 ∧
    ¬ ((reduce_data true [200] [100] 1 MIMPI_MAX).getD 0 0
        = max ([200].getD 0 0) ([100].getD 0 0)) := by
  decide

/-- C9, amended: `reduce_data` with MAX (MIN) leaves at every index `i < count`
whichever of `dest[i]` and `src[i]` has the larger (smaller) value as a C `char`;
this is the larger (smaller) of the two values `0..255` when `char` is unsigned or
when both bytes lie on the same side of 128. -/
theorem C9_reduce_data_max_min (sc : Bool) (dest src : List Nat) (count : Int)
    (hd : count ≤ dest.length) (hdb : ∀ b ∈ dest, b < 256) (hsb : ∀ b ∈ src, b < 256) :
    ∀ i : Nat, (i : Int) < count →
      (reduce_data sc dest src count MIMPI_MAX).getD i 0
        = (if charVal sc (dest.getD i 0) > charVal sc (src.getD i 0)
            then dest.getD i 0 else src.getD i 0) ∧
      (reduce_data sc dest src count MIMPI_MIN).getD i 0
        = (if charVal sc (dest.getD i 0) < charVal sc (src.getD i 0)
            then dest.getD i 0 else src.getD i 0) ∧
      ((sc = false ∨ (dest.getD i 0 < 128 ↔ src.getD i 0 < 128)) →
        (reduce_data sc dest src count MIMPI_MAX).getD i 0
          = max (dest.getD i 0) (src.getD i 0) ∧
        (reduce_data sc dest src count MIMPI_MIN).getD i 0
          = min (dest.getD i 0) (src.getD i 0)) := by
  intro i hi
  have hlen : i < dest.length := by omega
  have hd256 := getD_lt_256 dest hdb i
  have hs256 := getD_lt_256 src hsb i
  have hmax : (reduce_data sc dest src count MIMPI_MAX).getD i 0
      = (if charVal sc (dest.getD i 0) > charVal sc (src.getD i 0)
          then dest.getD i 0 else src.getD i 0) := by
    rw [reduce_data_getD, if_pos ⟨hi, hlen⟩]
    simp only [reduce_byte, if_true, MAX]
    split
    · exact toByte_charVal sc _ hd256
    · exact toByte_charVal sc _ hs256
  have hmin : (reduce_data sc dest src count MIMPI_MIN).getD i 0
      = (if charVal sc (dest.getD i 0) < charVal sc (src.getD i 0)
          then dest.getD i 0 else src.getD i 0) := by
    rw [reduce_data_getD, if_pos ⟨hi, hlen⟩]
    simp only [reduce_byte, MIMPI_MIN, MIMPI_MAX, show ¬ ((1 : Int) = 0) by decide, if_false,
      if_true, MIN]
    split
    · exact toByte_charVal sc _ hd256
    · exact toByte_charVal sc _ hs256
  refine ⟨hmax, hmin, ?_⟩
  intro h
  rw [hmax, hmin]
  have key := charVal_lt_iff sc _ _ hd256 hs256 h
  have h' : sc = false ∨ (src.getD i 0 < 128 ↔ dest.getD i 0 < 128) :=
    h.imp id Iff.symm
  have key2 := charVal_lt_iff sc _ _ hs256 hd256 h'
  constructor
  · by_cases hlt : src.getD i 0 < dest.getD i 0
    · rw [if_pos (key2.2 hlt)]; omega
    · rw [if_neg (fun hh => hlt (key2.1 hh))]; omega
  · by_cases hlt : dest.getD i 0 < src.getD i 0
    · rw [if_pos (key.2 hlt)]; omega
    · rw [if_neg (fun hh => hlt (key.1 hh))]; omega

/-- C9 amended, at an instance: with a signed `char` the maximum of the bytes 200
and 100 is 100 and their minimum 200; the maximum of 100 and 90 is 100. -/
theorem C9_reduce_data_max_min_witness :
    (reduce_data true [200, 100] [100, 90] 2 MIMPI_MAX).getD 0 0
        = (if charVal true ([200, 100].getD 0 0) > charVal true ([100, 90].getD 0 0)
            then [200, 100].getD 0 0 else [100, 90].getD 0 0) ∧
    ((reduce_data true [200, 100] [100, 90] 2 MIMPI_MAX).getD 1 0
          = max ([200, 100].getD 1 0) ([100, 90].getD 1 0) ∧
        (reduce_data true [200, 100] [100, 90] 2 MIMPI_MIN).getD 1 0
          = min ([200, 100].getD 1 0) ([100, 90].getD 1 0)) :=
  ⟨(C9_reduce_data_max_min true [200, 100] [100, 90] 2 (by decide) (by decide) (by decide)
      0 (by decide)).1,
   (C9_reduce_data_max_min true [200, 100] [100, 90] 2 (by decide) (by decide) (by decide)
      1 (by decide)).2.2 (Or.inr (by decide))⟩

/-! ## C4: argument validation -/

/-- C4: when the peer argument `p` of `MIMPI_Send` or `MIMPI_Recv` is the own rank
the call returns `MIMPI_ERROR_ATTEMPTED_SELF_OP`, otherwise when `p < 0` or
`p >= world_size` it returns `MIMPI_ERROR_NO_SUCH_RANK`; in both cases the state is
the state before the call (nothing is handed to `chsend`, the queue, the matched
flag and the waited-for pattern are the same) and the caller's buffer is returned
as it was. -/
theorem C4_argument_validation (chsend : ChSend) (fuel : Nat) (st : MIMPI_State)
    (data : List Nat) (count p tag : Int) (events : List Event) :
    (p = st.my_rank →
      MIMPI_Send chsend fuel st data count p tag
          = some (MIMPI_ERROR_ATTEMPTED_SELF_OP, st) ∧
      MIMPI_Recv chsend fuel st data count p tag events
          = RecvResult.ret MIMPI_ERROR_ATTEMPTED_SELF_OP st data) ∧
    (p ≠ st.my_rank → (p < 0 ∨ p ≥ st.world_size) →
      MIMPI_Send chsend fuel st data count p tag
          = some (MIMPI_ERROR_NO_SUCH_RANK, st) ∧
      MIMPI_Recv chsend fuel st data count p tag events
          = RecvResult.ret MIMPI_ERROR_NO_SUCH_RANK st data) := by
  constructor
  · intro h
    subst h
    simp [MIMPI_Send, MIMPI_Recv]
  · intro h1 h2
    have h1' : ¬ st.my_rank = p := fun e => h1 e.symm
    simp [MIMPI_Send, MIMPI_Recv, h1', h2]

/-- C4 at an instance: rank 0 of a world of 2 names itself, and names rank 5. -/
theorem C4_argument_validation_witness :
    (MIMPI_Send (fun _ _ n => n) 2 (init_state 2 0) [104] 1 0 7
          = some (MIMPI_ERROR_ATTEMPTED_SELF_OP, init_state 2 0) ∧
      MIMPI_Recv (fun _ _ n => n) 2 (init_state 2 0) [104] 1 0 7 []
          = RecvResult.ret MIMPI_ERROR_ATTEMPTED_SELF_OP (init_state 2 0) [104]) ∧
    (MIMPI_Send (fun _ _ n => n) 2 (init_state 2 0) [104] 1 5 7
          = some (MIMPI_ERROR_NO_SUCH_RANK, init_state 2 0) ∧
      MIMPI_Recv (fun _ _ n => n) 2 (init_state 2 0) [104] 1 5 7 []
          = RecvResult.ret MIMPI_ERROR_NO_SUCH_RANK (init_state 2 0) [104]) :=
  ⟨(C4_argument_validation (fun _ _ n => n) 2 (init_state 2 0) [104] 1 0 7 []).1 rfl,
   (C4_argument_validation (fun _ _ n => n) 2 (init_state 2 0) [104] 1 5 7 []).2
      (by decide) (Or.inr (by decide))⟩

/-! ## Lemmas on the queue scan -/

theorem find_match_of_split (pat : MIMPI_Message) :
    ∀ (pre : List MIMPI_Message) (m : MIMPI_Message) (post : List MIMPI_Message),
      (∀ x ∈ pre, match_ pat x = false) → match_ pat m = true →
      find_match pat (pre ++ m :: post) = some pre.length := by
  intro pre
  induction pre with
  | nil => intro m post _ hm; simp [find_match, hm]
  | cons a pre ih =>
    intro m post hpre hm
    have ha : match_ pat a = false := hpre a (List.mem_cons_self _ _)
    have hrest : ∀ x ∈ pre, match_ pat x = false :=
      fun x hx => hpre x (List.mem_cons_of_mem _ hx)
    simp [find_match, ha, ih m post hrest hm]

theorem split_of_exists_match (pat : MIMPI_Message) :
    ∀ (q : List MIMPI_Message), (∃ m ∈ q, match_ pat m = true) →
      ∃ pre m post, q = pre ++ m :: post ∧ (∀ x ∈ pre, match_ pat x = false) ∧
        match_ pat m = true := by
  intro q
  induction q with
  | nil => intro h; rcases h with ⟨m, hm, _⟩; cases hm
  | cons a q ih =>
    intro h
    by_cases ha : match_ pat a = true
    · exact ⟨[], a, q, rfl, by simp, ha⟩
    · have ha' : match_ pat a = false := by simpa using ha
      rcases h with ⟨m, hm, hmm⟩
      have hmq : m ∈ q := by
        rcases List.mem_cons.1 hm with e | e
        · subst e; rw [hmm] at ha'; cases ha'
        · exact e
      rcases ih ⟨m, hmq, hmm⟩ with ⟨pre, m', post, hq, hpre, hm'⟩
      refine ⟨a :: pre, m', post, by simp [hq], ?_, hm'⟩
      intro x hx
      rcases List.mem_cons.1 hx with e | e
      · subst e; exact ha'
      · exact hpre x e

theorem find_match_none (pat : MIMPI_Message) :
    ∀ (q : List MIMPI_Message), (∀ x ∈ q, match_ pat x = false) → find_match pat q = none := by
  intro q
  induction q with
  | nil => intro _; rfl
  | cons a q ih =>
    intro h
    have ha : match_ pat a = false := h a (List.mem_cons_self _ _)
    simp [find_match, ha, ih (fun x hx => h x (List.mem_cons_of_mem _ hx))]

theorem match_count (pat m : MIMPI_Message) (h : match_ pat m = true) :
    pat.count = m.count := by
  simp only [match_, Bool.and_eq_true, beq_iff_eq] at h
  exact h.2

theorem recv_take_split (st : MIMPI_State) (data : List Nat)
    (pre : List MIMPI_Message) (m : MIMPI_Message) (post : List MIMPI_Message)
    (hq : st.queue = pre ++ m :: post) (hbuf : is_buffered m = true) :
    recv_take st data pre.length =
      RecvResult.ret MIMPI_SUCCESS
        { st with queue := pre ++ post, found_matching_msg := true }
        (if m.count > 0 then m.buffer.take m.count.toNat ++ data.drop m.count.toNat
          else data) := by
  unfold recv_take
  have h1 : st.queue[pre.length]? = some m := by
    rw [hq, List.getElem?_append_right (le_refl _)]; simp
  have h2 : st.queue.eraseIdx pre.length = pre ++ post := by
    rw [hq]; simp [List.eraseIdx_append_of_length_le]
  simp only [h1, h2, hbuf, if_true]

theorem recv_take_locked (st : MIMPI_State) (data : List Nat)
    (pre : List MIMPI_Message) (m : MIMPI_Message) (post : List MIMPI_Message)
    (hq : st.queue = pre ++ m :: post) (hbuf : is_buffered m = false) :
    recv_take st data pre.length = RecvResult.blocked st := by
  unfold recv_take
  have h1 : st.queue[pre.length]? = some m := by
    rw [hq, List.getElem?_append_right (le_refl _)]; simp
  simp only [h1, hbuf]
  rfl

theorem recv_found (chsend : ChSend) (fuel : Nat) (st : MIMPI_State) (data : List Nat)
    (count source tag : Int) (events : List Event)
    (hself : st.my_rank ≠ source) (h0 : 0 ≤ source) (hN : source < st.world_size)
    (pre : List MIMPI_Message) (m : MIMPI_Message) (post : List MIMPI_Message)
    (hq : st.queue = pre ++ m :: post)
    (hpre : ∀ x ∈ pre, match_ ⟨source, tag, count, []⟩ x = false)
    (hm : match_ ⟨source, tag, count, []⟩ m = true) (hbuf : is_buffered m = true) :
    MIMPI_Recv chsend fuel st data count source tag events =
      RecvResult.ret MIMPI_SUCCESS
        { st with queue := pre ++ post, found_matching_msg := true }
        (if count > 0 then m.buffer.take count.toNat ++ data.drop count.toNat
          else data) := by
  have hc : count = m.count := match_count _ _ hm
  have hfind : find_match ⟨source, tag, count, []⟩ st.queue = some pre.length := by
    rw [hq]; exact find_match_of_split _ pre m post hpre hm
  have hrange : ¬ (source < 0 ∨ source ≥ st.world_size) := by omega
  unfold MIMPI_Recv
  rw [if_neg hself, if_neg hrange]
  simp only [hfind]
  rw [recv_take_split { st with found_matching_msg := true } data pre m post hq hbuf, ← hc]

theorem recv_locked (chsend : ChSend) (fuel : Nat) (st : MIMPI_State) (data : List Nat)
    (count source tag : Int) (events : List Event)
    (hself : st.my_rank ≠ source) (h0 : 0 ≤ source) (hN : source < st.world_size)
    (pre : List MIMPI_Message) (m : MIMPI_Message) (post : List MIMPI_Message)
    (hq : st.queue = pre ++ m :: post)
    (hpre : ∀ x ∈ pre, match_ ⟨source, tag, count, []⟩ x = false)
    (hm : match_ ⟨source, tag, count, []⟩ m = true) (hbuf : is_buffered m = false) :
    MIMPI_Recv chsend fuel st data count source tag events =
      RecvResult.blocked { st with found_matching_msg := true } := by
  have hfind : find_match ⟨source, tag, count, []⟩ st.queue = some pre.length := by
    rw [hq]; exact find_match_of_split _ pre m post hpre hm
  have hrange : ¬ (source < 0 ∨ source ≥ st.world_size) := by omega
  unfold MIMPI_Recv
  rw [if_neg hself, if_neg hrange]
  simp only [hfind]
  rw [recv_take_locked { st with found_matching_msg := true } data pre m post hq hbuf]

/-! ## C2: the earliest match is consumed -/

/-- C2, as the claim states it, fails at a queue state that the receiver thread
leaves when the pipe closes inside a payload: rank 0 dies after it has written the
metadata of a message (tag 7, count 5) and three of its five bytes; the receiver
thread of rank 1 links the node, returns with `*result = -1` and leaves the mutex
`is_buffered` of the node taken; the node matches the pattern (source 0, count 5,
tag 7), and `MIMPI_Recv` with that pattern does not return `MIMPI_SUCCESS`: it
blocks on the mutex. -/
theorem C2_counterexample :
    MIMPI_Receiver chsend_full chrecv_avail 0 3 (init_state 2 1)
        (le32 7 ++ le32 5 ++ [104, 101, 108]) []
      = some (-1, { init_state 2 1 with queue := [⟨0, 7, 5, [104, 101, 108]⟩] }) ∧
    (∃ m ∈ ({ init_state 2 1 with queue := [⟨0, 7, 5, [104, 101, 108]⟩] } :
        MIMPI_State).queue, match_ ⟨0, 7, 5, []⟩ m = true) ∧
    MIMPI_Recv chsend_full 1 { init_state 2 1 with queue := [⟨0, 7, 5, [104, 101, 108]⟩] }
        [0, 0, 0, 0, 0] 5 0 7 []
      = RecvResult.blocked
          { init_state 2 1 with queue := [⟨0, 7, 5, [104, 101, 108]⟩] } ∧
    ¬ ∃ st' buf,
      MIMPI_Recv chsend_full 1
          { init_state 2 1 with queue := [⟨0, 7, 5, [104, 101, 108]⟩] }
          [0, 0, 0, 0, 0] 5 0 7 []
        = RecvResult.ret MIMPI_SUCCESS st' buf := by
  have hrecv := recv_locked chsend_full 1
    { init_state 2 1 with queue := [⟨0, 7, 5, [104, 101, 108]⟩] } [0, 0, 0, 0, 0] 5 0 7 []
    (by decide) (by decide) (by decide) [] ⟨0, 7, 5, [104, 101, 108]⟩ [] rfl (by simp)
    (by decide) (by decide)
  refine ⟨?_, ⟨⟨0, 7, 5, [104, 101, 108]⟩, by simp, by decide⟩, hrecv, ?_⟩
  · rfl
  · rintro ⟨st', buf, h⟩
    rw [hrecv] at h
    cases h

/-- C2 amended: when a queued message matches the pattern `(source, count, tag)` of
a valid source and the matching message closest to the head is fully buffered,
`MIMPI_Recv` returns `MIMPI_SUCCESS`; the message taken is the matching
one closest to the head (no node before it matches), its payload is copied to the
caller's buffer, exactly that node is removed and the other nodes keep their order;
so the matching messages are consumed from the front of their arrival sequence. -/
theorem C2_recv_earliest_match (chsend : ChSend) (fuel : Nat) (st : MIMPI_State)
    (data : List Nat) (count source tag : Int) (events : List Event)
    (hself : st.my_rank ≠ source) (h0 : 0 ≤ source) (hN : source < st.world_size)
    (hex : ∃ m ∈ st.queue, match_ ⟨source, tag, count, []⟩ m = true)
    (hbuf : ∀ m, (st.queue.filter (match_ ⟨source, tag, count, []⟩)).head? = some m →
      is_buffered m = true) :
    ∃ pre m post,
      st.queue = pre ++ m :: post ∧
      (∀ x ∈ pre, match_ ⟨source, tag, count, []⟩ x = false) ∧
      match_ ⟨source, tag, count, []⟩ m = true ∧
      MIMPI_Recv chsend fuel st data count source tag events =
        RecvResult.ret MIMPI_SUCCESS
          { st with queue := pre ++ post, found_matching_msg := true }
          (if count > 0 then m.buffer.take count.toNat ++ data.drop count.toNat
            else data) ∧
      (m.buffer.length = count.toNat → data.length = count.toNat →
        (if count > 0 then m.buffer.take count.toNat ++ data.drop count.toNat
          else data) = m.buffer) ∧
      (st.queue.filter (match_ ⟨source, tag, count, []⟩)).head? = some m ∧
      (pre ++ post).filter (match_ ⟨source, tag, count, []⟩)
        = (st.queue.filter (match_ ⟨source, tag, count, []⟩)).tail := by
  rcases split_of_exists_match _ st.queue hex with ⟨pre, m, post, hq, hpre, hm⟩
  have hhead : (st.queue.filter (match_ ⟨source, tag, count, []⟩)).head? = some m := by
    have hf : pre.filter (match_ ⟨source, tag, count, []⟩) = [] := by
      rw [List.filter_eq_nil_iff]
      intro x hx
      simp [hpre x hx]
    rw [hq, List.filter_append, hf, List.filter_cons_of_pos hm]
    rfl
  refine ⟨pre, m, post, hq, hpre, hm,
    recv_found chsend fuel st data count source tag events hself h0 hN pre m post hq hpre hm
      (hbuf m hhead),
    ?_, ?_, ?_⟩
  · intro hb hd
    split
    · rw [← hb, List.take_length, hb, ← hd, List.drop_length, List.append_nil]
    · have hz : count.toNat = 0 := by omega
      rw [hz] at hb hd
      rw [List.length_eq_zero.1 hb, List.length_eq_zero.1 hd]
  · have hf : pre.filter (match_ ⟨source, tag, count, []⟩) = [] := by
      rw [List.filter_eq_nil_iff]
      intro x hx
      simp [hpre x hx]
    rw [hq, List.filter_append, hf, List.filter_cons_of_pos hm]
    rfl
  · have hf : pre.filter (match_ ⟨source, tag, count, []⟩) = [] := by
      rw [List.filter_eq_nil_iff]
      intro x hx
      simp [hpre x hx]
    rw [hq, List.filter_append, List.filter_append, hf, List.filter_cons_of_pos hm]
    rfl

/-- C2 amended, at an instance: rank 1 holds messages with tags 3, 7 ("hello"), 7
("world") from rank 0, all fully buffered, and receives with the pattern (source
0, count 5, tag 7). -/
theorem C2_recv_earliest_match_witness :
    (∀ m, (example_queue_state.queue.filter (match_ ⟨0, 7, 5, []⟩)).head? = some m →
      is_buffered m = true) ∧
    ∃ pre m post,
      example_queue_state.queue = pre ++ m :: post ∧
      (∀ x ∈ pre, match_ ⟨0, 7, 5, []⟩ x = false) ∧
      match_ ⟨0, 7, 5, []⟩ m = true ∧
      MIMPI_Recv (fun _ _ n => n) 1 example_queue_state [0, 0, 0, 0, 0] 5 0 7 [] =
        RecvResult.ret MIMPI_SUCCESS
          { example_queue_state with queue := pre ++ post, found_matching_msg := true }
          (if (5 : Int) > 0 then m.buffer.take (5 : Int).toNat
              ++ [0, 0, 0, 0, 0].drop (5 : Int).toNat
            else [0, 0, 0, 0, 0]) ∧
      (m.buffer.length = (5 : Int).toNat → [0, 0, 0, 0, 0].length = (5 : Int).toNat →
        (if (5 : Int) > 0 then m.buffer.take (5 : Int).toNat
            ++ [0, 0, 0, 0, 0].drop (5 : Int).toNat
          else [0, 0, 0, 0, 0]) = m.buffer) ∧
      (example_queue_state.queue.filter (match_ ⟨0, 7, 5, []⟩)).head? = some m ∧
      (pre ++ post).filter (match_ ⟨0, 7, 5, []⟩)
        = (example_queue_state.queue.filter (match_ ⟨0, 7, 5, []⟩)).tail := by
  have hbuf : ∀ m,
      (example_queue_state.queue.filter (match_ ⟨0, 7, 5, []⟩)).head? = some m →
      is_buffered m = true := by
    intro m hm
    have e : (example_queue_state.queue.filter (match_ ⟨0, 7, 5, []⟩)).head?
        = some ⟨0, 7, 5, [104, 101, 108, 108, 111]⟩ := by decide
    rw [e] at hm
    rw [← Option.some.inj hm]
    decide
  exact ⟨hbuf,
    C2_recv_earliest_match (fun _ _ n => n) 1 example_queue_state [0, 0, 0, 0, 0] 5 0 7 []
      (by decide) (by decide) (by decide) (by decide) hbuf⟩

/-! ## Lemmas on `MIMPI_Send` and the receiver turns -/

theorem same_view_refl (a : MIMPI_State) : same_view a a :=
  ⟨rfl, rfl, rfl, rfl, rfl, rfl⟩

theorem same_view_trans {a b c : MIMPI_State} (h1 : same_view a b) (h2 : same_view b c) :
    same_view a c := by
  rcases h1 with ⟨a1, a2, a3, a4, a5, a6⟩
  rcases h2 with ⟨b1, b2, b3, b4, b5, b6⟩
  exact ⟨a1.trans b1, a2.trans b2, a3.trans b3, a4.trans b4, a5.trans b5, a6.trans b6⟩

theorem send_loop_view (chsend : ChSend) (data : List Nat) (count destination : Int) :
    ∀ (fuel : Nat) (st : MIMPI_State) (total : Int) (rc : MIMPI_Retcode) (st' : MIMPI_State),
      send_loop chsend data count destination fuel st total = some (rc, st') →
      same_view st st' ∧ st.group_failed = st'.group_failed := by
  intro fuel
  induction fuel with
  | zero => intro st total rc st' h; simp [send_loop] at h
  | succ n ih =>
    intro st total rc st' h
    simp only [send_loop] at h
    split at h
    · simp only [Option.some.injEq, Prod.mk.injEq] at h
      rw [← h.2]; exact ⟨same_view_refl _, rfl⟩
    · split at h
      · cases h
      · split at h
        · simp only [Option.some.injEq, Prod.mk.injEq] at h
          rw [← h.2]; exact ⟨same_view_refl _, rfl⟩
        · have := ih _ _ _ _ h
          exact ⟨same_view_trans ⟨rfl, rfl, rfl, rfl, rfl, rfl⟩ this.1, this.2⟩

theorem send_view (chsend : ChSend) (fuel : Nat) (st : MIMPI_State) (data : List Nat)
    (count destination tag : Int) (rc : MIMPI_Retcode) (st' : MIMPI_State)
    (h : MIMPI_Send chsend fuel st data count destination tag = some (rc, st')) :
    same_view st st' ∧ st.group_failed = st'.group_failed := by
  unfold MIMPI_Send at h
  split at h
  · simp only [Option.some.injEq, Prod.mk.injEq] at h
    rw [← h.2]; exact ⟨same_view_refl _, rfl⟩
  · split at h
    · simp only [Option.some.injEq, Prod.mk.injEq] at h
      rw [← h.2]; exact ⟨same_view_refl _, rfl⟩
    · split at h
      · cases h
      · split at h
        · simp only [Option.some.injEq, Prod.mk.injEq] at h
          rw [← h.2]; exact ⟨same_view_refl _, rfl⟩
        · have := send_loop_view _ _ _ _ _ _ _ _ _ h
          exact ⟨same_view_trans ⟨rfl, rfl, rfl, rfl, rfl, rfl⟩ this.1, this.2⟩

theorem send_zero_defined (chsend : ChSend) (fuel : Nat) (st : MIMPI_State)
    (destination tag : Int) (hfuel : 1 ≤ fuel)
    (hch : ∀ k d, chsend k d 8 = 8 ∨ chsend k d 8 = -1) :
    ∃ rc st', MIMPI_Send chsend fuel st [] 0 destination tag = some (rc, st') := by
  obtain ⟨n, rfl⟩ : ∃ n, fuel = n + 1 := ⟨fuel - 1, by omega⟩
  unfold MIMPI_Send
  split
  · exact ⟨_, _, rfl⟩
  · split
    · exact ⟨_, _, rfl⟩
    · have hreq : MIN MIMPI_CHANNEL_BUF (wrap32 (0 + 8)) = 8 := by decide
      rw [hreq]
      rw [if_neg (by decide)]
      rcases hch st.written.length destination with h | h
      · rw [h]
        rw [if_neg (by decide)]
        have : wrap32 (8 - 8) = 0 := by decide
        rw [this]
        simp only [send_loop]
        rw [if_pos (by decide)]
        exact ⟨_, _, rfl⟩
      · rw [h]
        rw [if_pos rfl]
        exact ⟨_, _, rfl⟩

theorem send_ignored_zero (chsend : ChSend) (fuel : Nat) (st : MIMPI_State)
    (destination tag : Int) (hfuel : 1 ≤ fuel)
    (hch : ∀ k d, chsend k d 8 = 8 ∨ chsend k d 8 = -1) :
    ∃ st', send_ignored chsend fuel st [] 0 destination tag = some st' ∧
      same_view st st' ∧ st.group_failed = st'.group_failed := by
  rcases send_zero_defined chsend fuel st destination tag hfuel hch with ⟨rc, st', h⟩
  refine ⟨st', ?_, send_view _ _ _ _ _ _ _ _ _ h⟩
  simp [send_ignored, h]

theorem receiver_group_fail_view (chsend : ChSend) (fuel : Nat) (st : MIMPI_State)
    (hfuel : 1 ≤ fuel) (hch : ∀ k d, chsend k d 8 = 8 ∨ chsend k d 8 = -1) :
    ∃ st', receiver_group_fail chsend fuel st = some st' ∧ same_view st st' := by
  unfold receiver_group_fail
  split
  · split
    · rcases send_ignored_zero chsend fuel { st with group_failed := true }
        (st.my_rank * 2 - 1) GROUP_FAIL hfuel hch with ⟨s1, h1, v1, _⟩
      rw [h1]
      simp only [Option.some_bind]
      split
      · rcases send_ignored_zero chsend fuel s1 (st.my_rank * 2 - 1 + 1) GROUP_FAIL hfuel hch
          with ⟨s2, h2, v2, _⟩
        exact ⟨s2, h2, same_view_trans (same_view_trans ⟨rfl, rfl, rfl, rfl, rfl, rfl⟩ v1) v2⟩
      · exact ⟨s1, rfl, same_view_trans ⟨rfl, rfl, rfl, rfl, rfl, rfl⟩ v1⟩
    · exact ⟨_, rfl, ⟨rfl, rfl, rfl, rfl, rfl, rfl⟩⟩
  · exact ⟨_, rfl, same_view_refl _⟩

/-! ## C5: receiving from a peer that leaves -/

/-- C5 (the code against the claim): a `MIMPI_Recv` with a user tag (`tag >= 0`)
from a valid source finds no match in the queue and enters its wait loop; the
receiver thread then reads the frame `-7` of the source.  That turn (lines 115-118)
sets `left_MIMPI_block[source]` and signals without holding `queue.mutex`.  When it
falls between the test of the wait condition (line 446) and the sleep (line 447)
the signal wakes nobody and the call stays blocked with the flag set, where the
claim has it return `MIMPI_ERROR_REMOTE_FINISHED`; when the same turn comes while
the call sleeps, the call wakes and returns `MIMPI_ERROR_REMOTE_FINISHED` with the
queue and the caller's buffer as they were. -/
theorem C5_recv_lost_wakeup (chsend : ChSend) (fuel : Nat) (st : MIMPI_State)
    (data : List Nat) (count source tag : Int)
    (htag : 0 ≤ tag)
    (hself : st.my_rank ≠ source) (h0 : 0 ≤ source) (hN : source < st.world_size)
    (htab : source < 16)
    (hq : ∀ m ∈ st.queue, match_ ⟨source, tag, count, []⟩ m = false)
    (hleft : st.left_MIMPI_block source = false) :
    MIMPI_Recv chsend fuel st data count source tag [Event.left_early source]
      = RecvResult.blocked
          (receiver_left
            { st with msg_pattern := some ⟨source, tag, count, []⟩,
                      found_matching_msg := false } source) ∧
    (receiver_left
        { st with msg_pattern := some ⟨source, tag, count, []⟩,
                  found_matching_msg := false } source).left_MIMPI_block source = true ∧
    MIMPI_Recv chsend fuel st data count source tag [Event.left source]
      = RecvResult.ret MIMPI_ERROR_REMOTE_FINISHED
          { receiver_left
              { st with msg_pattern := some ⟨source, tag, count, []⟩,
                        found_matching_msg := false } source with
            found_matching_msg := true } data := by
  have hrange : ¬ (source < 0 ∨ source ≥ st.world_size) := by omega
  have hfind := find_match_none ⟨source, tag, count, []⟩ st.queue hq
  have hgb : ¬ (tag = GROUP_BEGIN ∨ tag = GROUP_END) := by
    rintro (e | e) <;> rw [e] at htag <;> exact absurd htag (by decide)
  have hneg : decide (tag < 0) = false := by simpa using htag
  have hin : in_table source = true := by
    have h16 : source < TABLE_SIZE := htab
    simp [in_table, h0, h16]
  refine ⟨?_, by simp [receiver_left], ?_⟩
  · unfold MIMPI_Recv
    rw [if_neg hself, if_neg hrange]
    simp only [hfind, if_neg hgb, hneg, hin, Bool.not_true, Bool.not_false, Bool.and_false,
      Bool.false_or, Bool.true_and, cond_wait, hleft, apply_event, signals, if_true,
      Bool.false_eq_true, if_false]
  · unfold MIMPI_Recv
    rw [if_neg hself, if_neg hrange]
    simp [hfind, hgb, hneg, hin, cond_wait, hleft, apply_event, signals, receiver_left,
      recv_after_wait]

/-- C5 at a world of three ranks: rank 0 with an empty queue receives one byte with
tag 42 from rank 1; the frame `-7` of rank 1 is read between the test of the wait
condition and the sleep, and the call blocks for ever with the flag of rank 1 set. -/
theorem C5_recv_lost_wakeup_witness :
    (0 : Int) ≤ 42 ∧ (init_state 3 0).my_rank ≠ 1 ∧ (0 : Int) ≤ 1 ∧
    (1 : Int) < (init_state 3 0).world_size ∧ (1 : Int) < 16 ∧
    (∀ m ∈ (init_state 3 0).queue, match_ ⟨1, 42, 1, []⟩ m = false) ∧
    (init_state 3 0).left_MIMPI_block 1 = false ∧
    (MIMPI_Recv chsend_full 1 (init_state 3 0) [0] 1 1 42 [Event.left_early 1]
      = RecvResult.blocked
          (receiver_left
            { init_state 3 0 with msg_pattern := some ⟨1, 42, 1, []⟩,
                                  found_matching_msg := false } 1) ∧
    (receiver_left
        { init_state 3 0 with msg_pattern := some ⟨1, 42, 1, []⟩,
                              found_matching_msg := false } 1).left_MIMPI_block 1 = true ∧
    MIMPI_Recv chsend_full 1 (init_state 3 0) [0] 1 1 42 [Event.left 1]
      = RecvResult.ret MIMPI_ERROR_REMOTE_FINISHED
          { receiver_left
              { init_state 3 0 with msg_pattern := some ⟨1, 42, 1, []⟩,
                                    found_matching_msg := false } 1 with
            found_matching_msg := true } [0]) :=
  ⟨by decide, by decide, by decide, by decide, by decide,
    (fun m hm => by cases hm), rfl,
    C5_recv_lost_wakeup chsend_full 1 (init_state 3 0) [0] 1 1 42 (by decide) (by decide)
      (by decide) (by decide) (by decide) (fun m hm => by cases hm) rfl⟩

/-! ## Lemmas for the round trip -/

theorem wrap32_id (x : Int) (h1 : -2147483648 ≤ x) (h2 : x < 2147483648) : wrap32 x = x := by
  unfold wrap32; omega

theorem MIN_eq_min (a b : Int) : MIN a b = min a b := by
  unfold MIN; split <;> omega

theorem le32_length (x : Int) : (le32 x).length = 4 := rfl

theorem ofLE32_le32 (x : Int) (h1 : -2147483648 ≤ x) (h2 : x < 2147483648)
    (rest : List Nat) : ofLE32 (le32 x ++ rest) 0 = x := by
  simp only [ofLE32, le32, List.cons_append, List.nil_append, List.getD_cons_zero,
    List.getD_cons_succ, zero_add]
  unfold wrap32
  omega

theorem ofLE32_le32_snd (y x : Int) (h1 : -2147483648 ≤ x) (h2 : x < 2147483648)
    (rest : List Nat) : ofLE32 (le32 y ++ (le32 x ++ rest)) 4 = x := by
  simp only [ofLE32, le32, List.cons_append, List.nil_append, List.getD_cons_zero,
    List.getD_cons_succ, zero_add]
  unfold wrap32
  omega

theorem pipe_to_append (st : MIMPI_State) (d : Int) (ws : List (Int × List Nat))
    (hws : ∀ w ∈ ws, w.1 = d) :
    pipe_to { st with written := st.written ++ ws } d
      = pipe_to st d ++ (ws.map Prod.snd).flatten := by
  unfold pipe_to
  have : ws.filter (fun w => w.1 == d) = ws := by
    rw [List.filter_eq_self]
    intro w hw
    simp [hws w hw]
  simp only [List.filter_append, this, List.map_append, List.flatten_append]

theorem send_loop_full (chsend : ChSend) (hch : ∀ k d n, chsend k d n = n)
    (data : List Nat) (count dst : Int) (hc1 : 0 ≤ count) (hc2 : count < 2147483648) :
    ∀ (fuel : Nat) (st : MIMPI_State) (total : Int),
      0 ≤ total → total ≤ count → (count - total).toNat + 1 ≤ fuel →
      ∃ ws, send_loop chsend data count dst fuel st total
          = some (MIMPI_SUCCESS, { st with written := st.written ++ ws }) ∧
        (∀ w ∈ ws, w.1 = dst ∧ w.2.length ≤ 512) ∧
        (ws.map Prod.snd).flatten = (data.drop total.toNat).take (count - total).toNat := by
  intro fuel
  induction fuel with
  | zero => intro st total _ _ h; omega
  | succ n ih =>
    intro st total h0 h1 hf
    have hw : wrap32 (count - total) = count - total := wrap32_id _ (by omega) (by omega)
    simp only [send_loop, hw, hch, MIN_eq_min, MIMPI_CHANNEL_BUF]
    by_cases hz : count - total = 0
    · refine ⟨[], ?_, by simp, ?_⟩
      · simp [hz]
      · simp [hz]
    · rw [if_neg hz]
      have hreq : ¬ (min 512 (count - total) < 0 ∨ total < 0) := by omega
      have hreq1 : ¬ (min 512 (count - total) = -1) := by omega
      rw [if_neg hreq, if_neg hreq1]
      have hw2 : wrap32 (total + min 512 (count - total)) = total + min 512 (count - total) :=
        wrap32_id _ (by omega) (by omega)
      rw [hw2]
      rcases ih { st with written := st.written ++
            [(dst, (data.drop total.toNat).take (min 512 (count - total)).toNat)] }
          (total + min 512 (count - total)) (by omega) (by omega) (by omega)
        with ⟨ws, h1', h2', h3'⟩
      refine ⟨(dst, (data.drop total.toNat).take (min 512 (count - total)).toNat) :: ws,
        ?_, ?_, ?_⟩
      · rw [h1']
        simp
      · intro w hw'
        rcases List.mem_cons.1 hw' with e | e
        · subst e
          refine ⟨rfl, ?_⟩
          simp only [List.length_take]
          omega
        · exact h2' w e
      · simp only [List.map_cons, List.flatten_cons, h3', List.drop_drop]
        have e1 : (total + min 512 (count - total)).toNat
            = total.toNat + (min 512 (count - total)).toNat := by omega
        have e2 : (count - total).toNat
            = (min 512 (count - total)).toNat
              + (count - (total + min 512 (count - total))).toNat := by omega
        rw [e1, e2, ← List.drop_drop, List.take_add]

theorem send_buffer_eq (data : List Nat) (count tag : Int) (hc1 : 0 ≤ count) :
    send_buffer data count tag
      = le32 tag ++ le32 count ++ data.take (min 504 count).toNat := by
  unfold send_buffer
  rw [MIN_eq_min]
  simp only [MIMPI_CHANNEL_BUF]
  by_cases h : count > 0
  · rw [if_pos h]
    have : (min count (512 - 8)).toNat = (min 504 count).toNat := by omega
    rw [this]
  · rw [if_neg h]
    have : (min 504 count).toNat = 0 := by omega
    rw [this]
    simp

theorem send_full (chsend : ChSend) (hch : ∀ k d n, chsend k d n = n)
    (st : MIMPI_State) (data : List Nat) (count dst tag : Int)
    (hself : st.my_rank ≠ dst) (h0 : 0 ≤ dst) (hN : dst < st.world_size)
    (hc1 : 0 ≤ count) (hc2 : count ≤ 2147483639)
    (fuel : Nat) (hf : count.toNat + 1 ≤ fuel) :
    ∃ ws, MIMPI_Send chsend fuel st data count dst tag
        = some (MIMPI_SUCCESS, { st with written := st.written ++ ws }) ∧
      (∀ w ∈ ws, w.1 = dst ∧ w.2.length ≤ 512) ∧
      (ws.map Prod.snd).flatten = le32 tag ++ le32 count ++ data.take count.toNat := by
  have hrange : ¬ (dst < 0 ∨ dst ≥ st.world_size) := by omega
  have hw : wrap32 (count + 8) = count + 8 := wrap32_id _ (by omega) (by omega)
  have hreq : MIN MIMPI_CHANNEL_BUF (wrap32 (count + 8)) = min 512 (count + 8) := by
    rw [hw, MIN_eq_min]; rfl
  have hw2 : wrap32 (min 512 (count + 8) - 8) = min 504 count := by
    rw [wrap32_id _ (by omega) (by omega)]; omega
  have hbuf : (send_buffer data count tag).take (min 512 (count + 8)).toNat
      = le32 tag ++ le32 count ++ data.take (min 504 count).toNat := by
    rw [send_buffer_eq data count tag hc1]
    apply List.take_of_length_le
    simp only [List.length_append, le32_length, List.length_take]
    omega
  unfold MIMPI_Send
  rw [if_neg hself, if_neg hrange, hreq, hch, if_neg (by omega), if_neg (by omega), hw2, hbuf]
  rcases send_loop_full chsend hch data count dst hc1 (by omega) fuel
      { st with written := st.written ++
          [(dst, le32 tag ++ le32 count ++ data.take (min 504 count).toNat)] }
      (min 504 count) (by omega) (by omega) (by omega) with ⟨ws, h1, h2, h3⟩
  refine ⟨(dst, le32 tag ++ le32 count ++ data.take (min 504 count).toNat) :: ws, ?_, ?_, ?_⟩
  · rw [h1]; simp
  · intro w hw'
    rcases List.mem_cons.1 hw' with e | e
    · subst e
      refine ⟨rfl, ?_⟩
      simp only [List.length_append, le32_length, List.length_take]
      omega
    · exact h2 w e
  · simp only [List.map_cons, List.flatten_cons, h3]
    have e : count.toNat = (min 504 count).toNat + (count - min 504 count).toNat := by omega
    rw [List.append_assoc, List.append_assoc, List.append_assoc]
    congr 2
    conv_rhs => rw [e, List.take_add]

theorem receiver_read_all (chrecv : ChRecv)
    (hrd1 : ∀ a r, chrecv a r ≤ min a r) (hrd2 : ∀ a r, 0 < a → 0 < r → 0 < chrecv a r) :
    ∀ (fuel : Nat) (pipe : List Nat) (bytes_left : Int) (buf : List Nat),
      0 ≤ bytes_left → bytes_left.toNat ≤ pipe.length → bytes_left.toNat + 1 ≤ fuel →
      receiver_read chrecv fuel pipe bytes_left buf
        = some (buf ++ pipe.take bytes_left.toNat, pipe.drop bytes_left.toNat, false) := by
  intro fuel
  induction fuel with
  | zero => intro pipe bytes_left buf _ _ h; omega
  | succ n ih =>
    intro pipe bytes_left buf h0 hlen hf
    simp only [receiver_read]
    by_cases hz : bytes_left = 0
    · subst hz; simp
    · rw [if_neg hz, if_neg (by omega)]
      have hreq : 0 < (MIN bytes_left MIMPI_CHANNEL_BUF).toNat := by
        rw [MIN_eq_min]; simp only [MIMPI_CHANNEL_BUF]; omega
      have hreq2 : (MIN bytes_left MIMPI_CHANNEL_BUF).toNat ≤ bytes_left.toNat := by
        rw [MIN_eq_min]; simp only [MIMPI_CHANNEL_BUF]; omega
      have hpos := hrd2 pipe.length (MIN bytes_left MIMPI_CHANNEL_BUF).toNat (by omega) hreq
      have hle := hrd1 pipe.length (MIN bytes_left MIMPI_CHANNEL_BUF).toNat
      generalize chrecv pipe.length (MIN bytes_left MIMPI_CHANNEL_BUF).toNat = k at *
      rw [if_neg (by omega)]
      rw [ih _ _ _ (by omega) (by simp only [List.length_drop]; omega) (by omega)]
      have e : bytes_left.toNat = k + (bytes_left - (k : Int)).toNat := by omega
      simp only [List.drop_drop, List.append_assoc]
      rw [← e]
      congr 2
      conv_rhs => rw [e, List.take_add]

theorem receiver_enqueue_defined (t : MIMPI_State) (proc tag count : Int) (buffer : List Nat)
    (hpat : t.found_matching_msg = false → t.msg_pattern ≠ none) :
    ∃ t', receiver_enqueue t proc tag count buffer = some t' ∧
      t'.queue = t.queue ++ [⟨proc, tag, count, buffer⟩] ∧
      t'.world_size = t.world_size ∧ t'.my_rank = t.my_rank ∧
      t'.msg_pattern = t.msg_pattern ∧ t'.left_MIMPI_block = t.left_MIMPI_block ∧
      t'.group_failed = t.group_failed ∧ t'.written = t.written := by
  unfold receiver_enqueue
  cases hf : t.found_matching_msg
  · have hp := hpat hf
    cases hm : t.msg_pattern with
    | none => exact absurd hm hp
    | some pat =>
      simp only [Bool.not_false, if_true]
      split
      · exact ⟨_, rfl, rfl, rfl, rfl, rfl, rfl, rfl, rfl⟩
      · exact ⟨_, rfl, rfl, rfl, rfl, rfl, rfl, rfl, rfl⟩
  · simp only [Bool.not_true, Bool.false_eq_true, if_false]
    exact ⟨_, rfl, rfl, rfl, rfl, rfl, rfl, rfl, rfl⟩

theorem receiver_eof (chsend : ChSend) (chrecv : ChRecv) (proc : Int) (h0 : chrecv 0 8 = 0)
    (fuel : Nat) (st : MIMPI_State) (meta_buf : List Nat) :
    MIMPI_Receiver chsend chrecv proc (fuel + 1) st [] meta_buf = some (0, st) := by
  simp only [MIMPI_Receiver, receiver_turn, List.length_nil, h0, if_true]

theorem receiver_data_frame (chsend : ChSend) (chrecv : ChRecv) (proc : Int)
    (fuel : Nat) (st : MIMPI_State) (pipe meta_buf : List Nat)
    (h8 : chrecv pipe.length 8 = 8)
    (h1 : ofLE32 (pipe.take 8 ++ meta_buf.drop 8) 0 ≠ -1)
    (h7 : ofLE32 (pipe.take 8 ++ meta_buf.drop 8) 0 ≠ -7)
    (hg : ofLE32 (pipe.take 8 ++ meta_buf.drop 8) 0 ≠ -8)
    (hc : 0 ≤ ofLE32 (pipe.take 8 ++ meta_buf.drop 8) 4)
    (buf pipe2 : List Nat) (st1 : MIMPI_State)
    (hread : receiver_read chrecv (fuel + 1) (pipe.drop 8)
      (ofLE32 (pipe.take 8 ++ meta_buf.drop 8) 4) [] = some (buf, pipe2, false))
    (henq : receiver_enqueue st proc (ofLE32 (pipe.take 8 ++ meta_buf.drop 8) 0)
      (ofLE32 (pipe.take 8 ++ meta_buf.drop 8) 4) buf = some st1) :
    MIMPI_Receiver chsend chrecv proc (fuel + 1) st pipe meta_buf
      = MIMPI_Receiver chsend chrecv proc fuel st1 pipe2
          (pipe.take 8 ++ meta_buf.drop 8) := by
  have hturn : receiver_turn chsend chrecv proc (fuel + 1) st pipe meta_buf
      = ReceiverTurn.next st1 pipe2 (pipe.take 8 ++ meta_buf.drop 8) := by
    unfold receiver_turn
    rw [h8, if_neg (by decide)]
    unfold receiver_frame
    rw [if_neg h1, if_neg h7, if_neg (by simpa [GROUP_FAIL] using hg)]
    unfold receiver_data
    rw [if_neg (by omega)]
    simp only [hread, henq, Bool.false_eq_true, if_false]
  rw [MIMPI_Receiver, hturn]

theorem receiver_one_frame (chsend : ChSend) (chrecv : ChRecv)
    (hrd1 : ∀ a r, chrecv a r ≤ min a r) (hrd2 : ∀ a r, 0 < a → 0 < r → 0 < chrecv a r)
    (hrd8 : ∀ a, 8 ≤ a → chrecv a 8 = 8)
    (proc : Int) (t : MIMPI_State) (tag count : Int) (data meta_buf : List Nat)
    (ht1 : tag ≠ -1) (ht7 : tag ≠ -7) (ht8 : tag ≠ -8)
    (ht32 : -2147483648 ≤ tag ∧ tag < 2147483648)
    (hc1 : 0 ≤ count) (hc2 : count < 2147483648) (hdata : data.length = count.toNat)
    (hpat : t.found_matching_msg = false → t.msg_pattern ≠ none)
    (fuel : Nat) (hf : count.toNat + 2 ≤ fuel) :
    ∃ t', MIMPI_Receiver chsend chrecv proc fuel t (le32 tag ++ le32 count ++ data) meta_buf
        = some (0, t') ∧
      receiver_enqueue t proc tag count data = some t' := by
  obtain ⟨n, rfl⟩ : ∃ n, fuel = n + 1 := ⟨fuel - 1, by omega⟩
  obtain ⟨k, rfl⟩ : ∃ k, n = k + 1 := ⟨n - 1, by omega⟩
  rcases receiver_enqueue_defined t proc tag count data hpat with ⟨t', ht', _⟩
  refine ⟨t', ?_, ht'⟩
  have hlen : (le32 tag ++ le32 count ++ data).length = 8 + count.toNat := by
    simp only [List.length_append, le32_length, hdata]
  have h8 : chrecv (le32 tag ++ le32 count ++ data).length 8 = 8 := hrd8 _ (by omega)
  have htake : (le32 tag ++ le32 count ++ data).take 8 = le32 tag ++ le32 count := by
    have : (le32 tag ++ le32 count).length = 8 := rfl
    rw [← this, List.take_left]
  have hdrop : (le32 tag ++ le32 count ++ data).drop 8 = data := by
    have : (le32 tag ++ le32 count).length = 8 := rfl
    rw [← this, List.drop_left]
  have htag : ofLE32 (le32 tag ++ le32 count ++ List.drop 8 meta_buf) 0 = tag := by
    rw [List.append_assoc]; exact ofLE32_le32 tag ht32.1 ht32.2 _
  have hcount : ofLE32 (le32 tag ++ le32 count ++ List.drop 8 meta_buf) 4 = count := by
    rw [List.append_assoc]; exact ofLE32_le32_snd tag count (by omega) hc2 _
  have hread : receiver_read chrecv (k + 1 + 1) data count []
      = some (data, [], false) := by
    rw [receiver_read_all chrecv hrd1 hrd2 _ _ _ _ hc1 (by omega) (by omega)]
    rw [← hdata]
    simp
  have h0 : chrecv 0 8 = 0 := by
    have := hrd1 0 8
    omega
  rw [receiver_data_frame chsend chrecv proc (k + 1) t _ meta_buf h8
    (by rw [htake, htag]; exact ht1) (by rw [htake, htag]; exact ht7)
    (by rw [htake, htag]; exact ht8) (by rw [htake, hcount]; exact hc1)
    data [] t' (by rw [htake, hcount, hdrop]; exact hread)
    (by rw [htake, htag, hcount]; exact ht')]
  exact receiver_eof chsend chrecv proc h0 k t' _

theorem match_self (source tag count : Int) (buffer : List Nat) :
    match_ ⟨source, tag, count, []⟩ ⟨source, tag, count, buffer⟩ = true := by
  simp [match_]

theorem copy_whole (data buf : List Nat) (count : Int) (hdata : data.length = count.toNat)
    (hbuf : buf.length = count.toNat) :
    (if count > 0 then data.take count.toNat ++ buf.drop count.toNat else buf) = data := by
  split
  · rw [← hdata, List.take_length, hdata, ← hbuf, List.drop_length, List.append_nil]
  · have hz : count.toNat = 0 := by omega
    rw [hz] at hdata hbuf
    rw [List.length_eq_zero.1 hdata, List.length_eq_zero.1 hbuf]

theorem chrecv_avail_le (a r : Nat) : chrecv_avail a r ≤ min a r := le_refl _

theorem chrecv_avail_pos (a r : Nat) (ha : 0 < a) (hr : 0 < r) : 0 < chrecv_avail a r := by
  unfold chrecv_avail; omega

theorem chrecv_avail_8 (a : Nat) (ha : 8 ≤ a) : chrecv_avail a 8 = 8 := by
  unfold chrecv_avail; omega

theorem chsend_full_all (k : Nat) (d n : Int) : chsend_full k d n = n := rfl

/-! ## C1: the round trip of one message -/

/-- C1, as the claim states it, fails in two places.  First, when the queue of the
receiving process already holds a message of the same source, tag and count
("world"), the `MIMPI_Recv` that follows the arrival of "hello" returns "world".
Second, for `count = 2147483647` the length `MIN(512, count + 8)` of the first write
has wrapped to a negative `int`, so that `MIMPI_Send` has no defined result. -/
theorem C1_counterexample :
    (∃ ws t' t'',
      MIMPI_Send chsend_full 6 (init_state 2 0) [104, 101, 108, 108, 111] 5 1 7
        = some (MIMPI_SUCCESS, { init_state 2 0 with written := ws }) ∧
      MIMPI_Receiver chsend_full chrecv_avail 0 7
        example_world_state
        ((ws.map Prod.snd).flatten) [] = some (0, t') ∧
      MIMPI_Recv chsend_full 7 t' [0, 0, 0, 0, 0] 5 0 7 []
        = RecvResult.ret MIMPI_SUCCESS t'' [119, 111, 114, 108, 100] ∧
      [119, 111, 114, 108, 100] ≠ [104, 101, 108, 108, 111]) ∧
    (∀ fuel : Nat,
      MIMPI_Send chsend_full fuel (init_state 2 0) (List.replicate 2147483647 0)
        2147483647 1 7 = none) := by
  constructor
  · rcases send_full chsend_full chsend_full_all (init_state 2 0)
        [104, 101, 108, 108, 111] 5 1 7 (by decide) (by decide) (by decide) (by decide)
        (by decide) 6 (by decide) with ⟨ws, hs1, _, hs3⟩
    rcases receiver_one_frame chsend_full chrecv_avail
        chrecv_avail_le chrecv_avail_pos chrecv_avail_8 0
        example_world_state 7 5
        [104, 101, 108, 108, 111] [] (by decide) (by decide) (by decide) (by decide)
        (by decide) (by decide) rfl (fun h => by cases h) 7 (by decide) with ⟨t', hr1, hr2⟩
    rcases receiver_enqueue_defined
        example_world_state 0 7 5
        [104, 101, 108, 108, 111] (fun h => by cases h) with
      ⟨t1, he, hq, hws, hmr, _⟩
    have ht1 : t1 = t' := by
      rw [hr2] at he
      exact (Option.some.inj he).symm
    subst ht1
    refine ⟨ws, t1,
      { t1 with queue := [] ++ [⟨0, 7, 5, [104, 101, 108, 108, 111]⟩],
                found_matching_msg := true }, ?_, ?_, ?_, ?_⟩
    · simpa using hs1
    · rw [hs3]; exact hr1
    · exact recv_found chsend_full 7 t1 [0, 0, 0, 0, 0] 5 0 7 []
        (by rw [hmr]; decide) (by decide) (by rw [hws]; decide)
        [] ⟨0, 7, 5, [119, 111, 114, 108, 100]⟩ [⟨0, 7, 5, [104, 101, 108, 108, 111]⟩]
        (by rw [hq]; rfl) (by simp) (by decide) (by decide)
    · decide
  · intro fuel
    unfold MIMPI_Send
    rw [if_neg (by decide), if_neg (by decide), if_pos (by decide)]

/-- C1, amended: for a tag outside `{-1, -7, -8}`, a count with
`0 <= count <= INT_MAX - 8`, a payload of `count` bytes and a valid destination
other than the sender, when every channel write is accepted in full `MIMPI_Send`
returns `MIMPI_SUCCESS` after writes of at most 512 bytes that put tag, count and
payload on the pipe; `MIMPI_Receiver` at the destination, reading exactly these
bytes, appends one message with the sender's rank, the tag, the count and the
payload at the tail of the queue; and when no message queued before matches the
pattern, a following `MIMPI_Recv` with the same count, source and tag returns
`MIMPI_SUCCESS`, unlinks that message and fills the caller's buffer with the
payload. -/
theorem C1_send_receive_round_trip (chsend : ChSend) (chrecv : ChRecv)
    (s t : MIMPI_State) (data buf meta_buf : List Nat) (count tag : Int)
    (events : List Event) (fs fr : Nat)
    (hch : ∀ k d n, chsend k d n = n)
    (hrd1 : ∀ a r, chrecv a r ≤ min a r) (hrd2 : ∀ a r, 0 < a → 0 < r → 0 < chrecv a r)
    (hrd8 : ∀ a, 8 ≤ a → chrecv a 8 = 8)
    (ht1 : tag ≠ -1) (ht7 : tag ≠ -7) (ht8 : tag ≠ -8)
    (ht32 : -2147483648 ≤ tag ∧ tag < 2147483648)
    (hc1 : 0 ≤ count) (hc2 : count ≤ 2147483639)
    (hdata : data.length = count.toNat) (hbuf : buf.length = count.toNat)
    (hds : s.my_rank ≠ t.my_rank) (hd0 : 0 ≤ t.my_rank) (hdN : t.my_rank < s.world_size)
    (hs0 : 0 ≤ s.my_rank) (hsN : s.my_rank < t.world_size)
    (hpat : t.found_matching_msg = false → t.msg_pattern ≠ none)
    (hq : ∀ m ∈ t.queue, match_ ⟨s.my_rank, tag, count, []⟩ m = false)
    (hfs : count.toNat + 1 ≤ fs) (hfr : count.toNat + 2 ≤ fr) :
    ∃ ws t',
      MIMPI_Send chsend fs s data count t.my_rank tag
        = some (MIMPI_SUCCESS, { s with written := s.written ++ ws }) ∧
      (∀ w ∈ ws, w.1 = t.my_rank ∧ w.2.length ≤ 512) ∧
      (ws.map Prod.snd).flatten = le32 tag ++ le32 count ++ data ∧
      MIMPI_Receiver chsend chrecv s.my_rank fr t ((ws.map Prod.snd).flatten) meta_buf
        = some (0, t') ∧
      t'.queue = t.queue ++ [⟨s.my_rank, tag, count, data⟩] ∧
      MIMPI_Recv chsend fr t' buf count s.my_rank tag events
        = RecvResult.ret MIMPI_SUCCESS
            { t' with queue := t.queue, found_matching_msg := true } data := by
  rcases send_full chsend hch s data count t.my_rank tag hds hd0 hdN hc1 hc2 fs hfs
    with ⟨ws, hs1, hs2, hs3⟩
  have htake : data.take count.toNat = data := by
    rw [← hdata, List.take_length]
  rw [htake] at hs3
  rcases receiver_one_frame chsend chrecv hrd1 hrd2 hrd8 s.my_rank t tag count data meta_buf
    ht1 ht7 ht8 ht32 hc1 (by omega) hdata hpat fr hfr with ⟨t', hr1, hr2⟩
  rcases receiver_enqueue_defined t s.my_rank tag count data hpat with
    ⟨t1, he, hqueue, hws, hmr, _⟩
  have ht1' : t1 = t' := by
    rw [hr2] at he
    exact (Option.some.inj he).symm
  subst ht1'
  refine ⟨ws, t1, hs1, hs2, hs3, by rw [hs3]; exact hr1, hqueue, ?_⟩
  have hrecv := recv_found chsend fr t1 buf count s.my_rank tag events
    (by rw [hmr]; exact fun e => hds e.symm) hs0 (by rw [hws]; exact hsN)
    t.queue ⟨s.my_rank, tag, count, data⟩ [] hqueue hq (match_self _ _ _ _)
    (by simp [is_buffered, hdata])
  rw [hrecv, List.append_nil]
  show RecvResult.ret MIMPI_SUCCESS _
      (if count > 0 then data.take count.toNat ++ buf.drop count.toNat else buf) = _
  rw [copy_whole data buf count hdata hbuf]

/-- C1 amended, at the instance of the specification: in a world of 2, rank 0 sends
"hello" (count 5, tag 7) to rank 1, whose queue is empty. -/
theorem C1_send_receive_round_trip_witness :
    ∃ ws t',
      MIMPI_Send chsend_full 6 (init_state 2 0) [104, 101, 108, 108, 111] 5
          (init_state 2 1).my_rank 7
        = some (MIMPI_SUCCESS,
            { init_state 2 0 with written := (init_state 2 0).written ++ ws }) ∧
      (∀ w ∈ ws, w.1 = (init_state 2 1).my_rank ∧ w.2.length ≤ 512) ∧
      (ws.map Prod.snd).flatten = le32 7 ++ le32 5 ++ [104, 101, 108, 108, 111] ∧
      MIMPI_Receiver chsend_full chrecv_avail (init_state 2 0).my_rank 7 (init_state 2 1)
          ((ws.map Prod.snd).flatten) []
        = some (0, t') ∧
      t'.queue = (init_state 2 1).queue
        ++ [⟨(init_state 2 0).my_rank, 7, 5, [104, 101, 108, 108, 111]⟩] ∧
      MIMPI_Recv chsend_full 7 t' [0, 0, 0, 0, 0] 5 (init_state 2 0).my_rank 7 []
        = RecvResult.ret MIMPI_SUCCESS
            { t' with queue := (init_state 2 1).queue, found_matching_msg := true }
            [104, 101, 108, 108, 111] :=
  C1_send_receive_round_trip chsend_full chrecv_avail (init_state 2 0) (init_state 2 1)
    [104, 101, 108, 108, 111] [0, 0, 0, 0, 0] [] 5 7 [] 6 7
    chsend_full_all chrecv_avail_le chrecv_avail_pos chrecv_avail_8
    (by decide) (by decide) (by decide) (by decide) (by decide) (by decide) rfl rfl
    (by decide) (by decide) (by decide) (by decide) (by decide)
    (fun h => by cases h) (by decide) (by decide) (by decide)

/-! ## The rank tree of the collectives -/

theorem real_proc_range (root N x : Int) (hr0 : 0 ≤ root) (hrN : root < N)
    (h0 : 0 ≤ x) (hN : x < N) :
    0 ≤ MIMPI_real_proc x root ∧ MIMPI_real_proc x root < N := by
  simp only [MIMPI_real_proc]
  split_ifs <;> omega

theorem real_proc_invol (root x : Int) :
    MIMPI_real_proc (MIMPI_real_proc x root) root = x := by
  simp only [MIMPI_real_proc]
  split_ifs <;> omega

theorem real_proc_inj (root x y : Int)
    (h : MIMPI_real_proc x root = MIMPI_real_proc y root) : x = y := by
  rw [← real_proc_invol root x, h, real_proc_invol]

theorem treat_as_range (S : TreeShape) (hr0 : 0 ≤ S.root) (hrN : S.root < S.world_size)
    (a : Int) (h0 : 0 ≤ a) (hN : a < S.world_size) :
    0 ≤ S.treat_as a ∧ S.treat_as a < S.world_size :=
  real_proc_range S.root S.world_size a hr0 hrN h0 hN

theorem treat_as_zero_iff (S : TreeShape) (a : Int) : S.treat_as a = 0 ↔ a = S.root := by
  simp only [TreeShape.treat_as, MIMPI_real_proc]
  split_ifs <;> omega

theorem l_child_valid (S : TreeShape) (hr0 : 0 ≤ S.root)
    (a : Int) (h0 : 0 ≤ a) :
    0 ≤ S.l_child a ∧ S.l_child a ≠ a := by
  simp only [TreeShape.l_child, TreeShape.treat_as, MIMPI_real_proc]
  split_ifs <;> omega

theorem r_child_valid (S : TreeShape) (hr0 : 0 ≤ S.root)
    (a : Int) (h0 : 0 ≤ a) :
    0 ≤ S.r_child a ∧ S.r_child a ≠ a := by
  simp only [TreeShape.r_child, TreeShape.treat_as, MIMPI_real_proc]
  split_ifs <;> omega

theorem parent_valid (S : TreeShape) (hr0 : 0 ≤ S.root) (hrN : S.root < S.world_size)
    (a : Int) (h0 : 0 ≤ a) (hN : a < S.world_size) (ht : S.treat_as a ≠ 0) :
    0 ≤ S.parent a ∧ S.parent a < S.world_size ∧ S.parent a ≠ a ∧
    S.treat_as (S.parent a) < S.treat_as a ∧
    (S.l_child (S.parent a) = a ∨
      (S.r_child (S.parent a) = a ∧ S.l_child (S.parent a) < S.world_size)) := by
  have hrange := treat_as_range S hr0 hrN a h0 hN
  have hdiv : Int.tdiv (S.treat_as a + 1) 2 = (S.treat_as a + 1) / 2 :=
    Int.tdiv_eq_ediv (by omega) (by decide)
  have ha : MIMPI_real_proc (S.treat_as a) S.root = a := real_proc_invol S.root a
  have hpar : S.parent a = MIMPI_real_proc ((S.treat_as a + 1) / 2 - 1) S.root := by
    simp only [TreeShape.parent, hdiv]
  have hpv : S.treat_as (S.parent a) = (S.treat_as a + 1) / 2 - 1 := by
    rw [hpar]
    exact real_proc_invol S.root _
  simp only [TreeShape.l_child, TreeShape.r_child, hpv]
  rw [hpar]
  generalize S.treat_as a = t at *
  have hp := real_proc_range S.root S.world_size ((t + 1) / 2 - 1) hr0 hrN
    (by omega) (by omega)
  refine ⟨hp.1, hp.2, ?_, by omega, ?_⟩
  · intro e
    rw [← ha] at e
    have := real_proc_inj _ _ _ e
    omega
  · rcases Int.emod_two_eq_zero_or_one t with h | h
    · right
      have e : ((t + 1) / 2 - 1 + 1) * 2 = t := by omega
      rw [e]
      exact ⟨ha, (real_proc_range S.root S.world_size (t - 1) hr0 hrN (by omega)
        (by omega)).2⟩
    · left
      have e : ((t + 1) / 2 - 1 + 1) * 2 - 1 = t := by omega
      rw [e, ha]

/-! ## The effect of one move on a process -/

theorem set_at_same {α : Type} (f : Int → α) (a : Int) (v : α) : set_at f a v a = v := by
  simp [set_at]

theorem set_at_other {α : Type} (f : Int → α) (a x : Int) (v : α) (h : x ≠ a) :
    set_at f a v x = f x := by
  simp [set_at, h]

theorem send_overflow (st : MIMPI_State) (data : List Nat) (count dst tag : Int)
    (fuel : Nat) (hself : st.my_rank ≠ dst) (h0 : 0 ≤ dst) (hN : dst < st.world_size)
    (hc1 : 2147483639 < count) (hc2 : count < 2147483648) :
    MIMPI_Send chsend_full fuel st data count dst tag = none := by
  have hrange : ¬ (dst < 0 ∨ dst ≥ st.world_size) := by omega
  have hneg : MIN MIMPI_CHANNEL_BUF (wrap32 (count + 8)) < 0 := by
    rw [MIN_eq_min]
    simp only [MIMPI_CHANNEL_BUF, wrap32]
    omega
  unfold MIMPI_Send
  rw [if_neg hself, if_neg hrange, if_pos hneg]

theorem send_wire (st st' : MIMPI_State) (data : List Nat) (count dst tag : Int)
    (rc : MIMPI_Retcode)
    (hself : st.my_rank ≠ dst) (h0 : 0 ≤ dst) (hN : dst < st.world_size)
    (hc1 : 0 ≤ count) (hc2 : count < 2147483648)
    (h : MIMPI_Send chsend_full (count.toNat + 1) st data count dst tag = some (rc, st')) :
    count ≤ 2147483639 ∧
    ∃ ws, st' = { st with written := st.written ++ ws } ∧ (∀ w ∈ ws, w.1 = dst) ∧
      (ws.map Prod.snd).flatten = wire ⟨st.my_rank, tag, count, data.take count.toNat⟩ := by
  have hle : count ≤ 2147483639 := by
    by_contra hgt
    rw [send_overflow st data count dst tag _ hself h0 hN (by omega) hc2] at h
    cases h
  refine ⟨hle, ?_⟩
  rcases send_full chsend_full chsend_full_all st data count dst tag hself h0 hN hc1 hle
    (count.toNat + 1) (le_refl _) with ⟨ws, h1, h2, h3⟩
  rw [h1] at h
  simp only [Option.some.injEq, Prod.mk.injEq] at h
  exact ⟨ws, h.2.symm, fun w hw => (h2 w hw).1, h3⟩

theorem find_match_split (pat : MIMPI_Message) :
    ∀ (q : List MIMPI_Message) (i : Nat), find_match pat q = some i →
      ∃ pre m post, q = pre ++ m :: post ∧ pre.length = i ∧ match_ pat m = true := by
  intro q
  induction q with
  | nil => intro i h; simp [find_match] at h
  | cons a q ih =>
    intro i h
    simp only [find_match] at h
    split at h
    · rename_i ha
      simp only [Option.some.injEq] at h
      exact ⟨[], a, q, rfl, by simpa using h, ha⟩
    · cases hq : find_match pat q with
      | none => rw [hq] at h; simp at h
      | some j =>
        rw [hq] at h
        simp only [Option.map_some', Option.some.injEq] at h
        rcases ih j hq with ⟨pre, m, post, e, hl, hm⟩
        exact ⟨a :: pre, m, post, by rw [e]; rfl, by simp [hl, h], hm⟩

theorem recv_group (st st' : MIMPI_State) (data buf : List Nat) (count source tag : Int)
    (rc : MIMPI_Retcode)
    (hself : st.my_rank ≠ source) (h0 : 0 ≤ source) (hN : source < st.world_size)
    (htag : tag = GROUP_BEGIN ∨ tag = GROUP_END)
    (hleft : st.left_MIMPI_block source = false) (hgf : st.group_failed = false)
    (h : MIMPI_Recv chsend_full 1 st data count source tag [] = RecvResult.ret rc st' buf) :
    rc = MIMPI_SUCCESS ∧
    ∃ pre m post, st.queue = pre ++ m :: post ∧
      m.source = source ∧ m.tag = tag ∧ m.count = count ∧
      st' = { st with queue := pre ++ post, found_matching_msg := true } ∧
      buf = copy_into count m.buffer data := by
  have hrange : ¬ (source < 0 ∨ source ≥ st.world_size) := by omega
  unfold MIMPI_Recv at h
  rw [if_neg hself, if_neg hrange] at h
  cases hf : find_match ⟨source, tag, count, []⟩ st.queue with
  | none =>
    rw [hf] at h
    simp only [htag, if_true] at h
    by_cases ht : in_table source = true
    · simp only [ht, Bool.not_true, cond_wait, hleft, hgf, Bool.not_false,
        Bool.and_self, if_true] at h
      cases h
    · have ht' : in_table source = false := by simpa using ht
      simp only [ht', Bool.not_false, if_true] at h
      cases h
  | some i =>
    rw [hf] at h
    rcases find_match_split _ _ _ hf with ⟨pre, m, post, hq, hl, hm⟩
    simp only at h
    have hbuf : is_buffered m = true := by
      by_contra hb
      have hb' : is_buffered m = false := by simpa using hb
      rw [← hl, recv_take_locked { st with found_matching_msg := true } data pre m post hq
        hb'] at h
      cases h
    rw [← hl, recv_take_split { st with found_matching_msg := true } data pre m post hq
      hbuf] at h
    simp only [RecvResult.ret.injEq] at h
    have hmm := hm
    simp only [match_, Bool.and_eq_true, Bool.or_eq_true, beq_iff_eq,
      decide_eq_true_eq] at hmm
    have htag' : tag = m.tag := by
      rcases hmm.1.1 with ⟨hz, _⟩ | e
      · rcases htag with e | e <;> rw [e] at hz <;> cases hz
      · exact e
    refine ⟨h.1.symm, pre, m, post, hq, hmm.1.2.symm, htag'.symm, hmm.2.symm, h.2.1.symm, ?_⟩
    rw [← h.2.2, copy_into, hmm.2]

theorem receiver_turn_wire (a : Int) (st : MIMPI_State) (m : MIMPI_Message)
    (rest meta_buf : List Nat) (fuel : Nat)
    (hfound : st.found_matching_msg = true)
    (hc1 : 0 ≤ m.count) (hc2 : m.count < 2147483648)
    (hlen : m.buffer.length = m.count.toNat)
    (htag : m.tag = GROUP_BEGIN ∨ m.tag = GROUP_END)
    (hfuel : m.count.toNat + 1 ≤ fuel) :
    receiver_turn chsend_full chrecv_avail a fuel st (wire m ++ rest) meta_buf
      = ReceiverTurn.next
          { st with queue := st.queue ++ [⟨a, m.tag, m.count, m.buffer⟩] } rest
          (le32 m.tag ++ le32 m.count ++ meta_buf.drop 8) := by
  have ht32 : -2147483648 ≤ m.tag ∧ m.tag < 2147483648 := by
    rcases htag with e | e <;> rw [e] <;> decide
  have hwl : (wire m ++ rest).length = 8 + m.count.toNat + rest.length := by
    simp only [wire, List.length_append, le32_length, hlen]
  have h8 : chrecv_avail (wire m ++ rest).length 8 = 8 := chrecv_avail_8 _ (by omega)
  have htake : (wire m ++ rest).take 8 = le32 m.tag ++ le32 m.count := by
    have : (le32 m.tag ++ le32 m.count).length = 8 := rfl
    rw [wire, List.append_assoc, ← this, List.take_left]
  have hdrop : (wire m ++ rest).drop 8 = m.buffer ++ rest := by
    have : (le32 m.tag ++ le32 m.count).length = 8 := rfl
    rw [wire, List.append_assoc, ← this, List.drop_left]
  have htagv : ofLE32 (le32 m.tag ++ le32 m.count ++ List.drop 8 meta_buf) 0 = m.tag := by
    rw [List.append_assoc]; exact ofLE32_le32 m.tag ht32.1 ht32.2 _
  have hcount : ofLE32 (le32 m.tag ++ le32 m.count ++ List.drop 8 meta_buf) 4 = m.count := by
    rw [List.append_assoc]; exact ofLE32_le32_snd m.tag m.count (by omega) hc2 _
  have hread : receiver_read chrecv_avail fuel (m.buffer ++ rest) m.count []
      = some (m.buffer, rest, false) := by
    rw [receiver_read_all chrecv_avail chrecv_avail_le chrecv_avail_pos _ _ _ _ hc1
      (by simp only [List.length_append]; omega) hfuel]
    rw [← hlen]
    simp
  have henq : receiver_enqueue st a m.tag m.count m.buffer
      = some { st with queue := st.queue ++ [⟨a, m.tag, m.count, m.buffer⟩] } := by
    simp [receiver_enqueue, hfound]
  unfold receiver_turn
  rw [h8, if_neg (by decide), htake, hdrop]
  unfold receiver_frame
  rw [htagv]
  have hn1 : ¬ m.tag = -1 := by rcases htag with e | e <;> rw [e] <;> decide
  have hn7 : ¬ m.tag = -7 := by rcases htag with e | e <;> rw [e] <;> decide
  have hn8 : ¬ m.tag = GROUP_FAIL := by rcases htag with e | e <;> rw [e] <;> decide
  rw [if_neg hn1, if_neg hn7, if_neg hn8]
  unfold receiver_data
  rw [hcount, htagv, if_neg (by omega)]
  simp only [hread, henq, Bool.false_eq_true, if_false]

theorem drop_length_sub (l x r : List Nat) (k : Nat) (h : l.drop k = x ++ r) :
    l.drop (l.length - r.length) = r ∧ l.length - r.length ≤ l.length := by
  have hl : l = (l.take k ++ x) ++ r := by
    rw [List.append_assoc, ← h, List.take_append_drop]
  generalize l.take k ++ x = y at hl
  subst hl
  refine ⟨?_, by omega⟩
  have : (y ++ r).length - r.length = y.length := by
    simp only [List.length_append]; omega
  rw [this, List.drop_left]

theorem wires_cons (m : MIMPI_Message) (ms : List MIMPI_Message) :
    wires (m :: ms) = wire m ++ wires ms := by
  simp [wires, List.flatMap_cons]

theorem wires_append (ms ns : List MIMPI_Message) :
    wires (ms ++ ns) = wires ms ++ wires ns := by
  simp [wires, List.flatMap_append]

theorem wire_length (m : MIMPI_Message) : (wire m).length = 8 + m.buffer.length := by
  simp only [wire, List.length_append, le32_length]

/-! ## The invariant is kept by every move -/

theorem Just_mono (S : TreeShape) (T : TreeData)
    (net net' : Net) (h : ∀ x, stage (net.app x) ≤ stage (net'.app x))
    (m : MIMPI_Message) (hm : Just S T net m) : Just S T net' m := by
  rcases hm with ⟨h1, h2, h3, h4⟩
  refine ⟨h1, h2, h3, ?_⟩
  rcases h4 with ⟨a, b, c, d⟩ | ⟨a, b, c, d⟩
  · exact Or.inl ⟨a, le_trans b (h _), c, d⟩
  · exact Or.inr ⟨a, le_trans b (h _), c, d⟩

theorem Order_mono (S : TreeShape) (net net' : Net)
    (h : ∀ x, stage (net.app x) ≤ stage (net'.app x)) (a : Int) (n : Nat)
    (ho : Order S net a n) : Order S net' a n := by
  rcases ho with ⟨h1, h2, h3⟩
  exact ⟨fun x y => le_trans (h1 x y) (h _), fun x y z => le_trans (h2 x y z) (h _),
    fun x y => le_trans (h3 x y) (h _)⟩

theorem Order_le (S : TreeShape) (net : Net) (a : Int) (n k : Nat) (hk : k ≤ n)
    (ho : Order S net a n) : Order S net a k := by
  rcases ho with ⟨h1, h2, h3⟩
  exact ⟨fun x y => h1 (le_trans x hk) y, fun x y z => h2 (le_trans x hk) y z,
    fun x y => h3 (le_trans x hk) y⟩

theorem AppOK_mono (S : TreeShape) (T : TreeData)
    (net net' : Net) (h : ∀ x, stage (net.app x) ≤ stage (net'.app x)) (a : Int)
    (s : Status) (hs : AppOK S T net a s) : AppOK S T net' a s := by
  cases s with
  | idle => trivial
  | running loc => exact ⟨hs.1, hs.2.1, Order_mono S net net' h a _ hs.2.2⟩
  | returned code loc => exact ⟨hs.1, hs.2.1, hs.2.2.1, Order_mono S net net' h a _ hs.2.2.2⟩

theorem stage_set_at (net : Net) (a : Int) (s : Status) (h : stage (net.app a) ≤ stage s)
    (x : Int) : stage (net.app x) ≤ stage (set_at net.app a s x) := by
  by_cases hx : x = a
  · subst hx; rw [set_at_same]; exact h
  · rw [set_at_other _ _ _ _ hx]

theorem pipe_to_nil (N a b : Int) : pipe_to (init_state N a) b = [] := rfl

theorem inv_start (S : TreeShape) (T : TreeData) :
    Inv S T (Net.initial S.world_size) := by
  refine ⟨?_, ?_, ?_, ?_⟩
  · intro a _ _
    exact ⟨rfl, rfl, rfl, fun _ => rfl, rfl⟩
  · refine ⟨fun _ _ => [], ?_⟩
    intro a b _ _
    refine ⟨rfl, Nat.zero_le _, ?_⟩
    intro m hm
    cases hm
  · intro b _ _ m hm
    cases hm
  · intro a _ _
    trivial

theorem inv_update (S : TreeShape) (T : TreeData)
    (net net' : Net) (hinv : Inv S T net) (a : Int) (s' : Status)
    (happ : net'.app = set_at net.app a s') (hstage : stage (net.app a) ≤ stage s')
    (hprocs : ∀ x, x ≠ a → net'.procs x = net.procs x)
    (hcons : net'.consumed = net.consumed)
    (hbasic : (net'.procs a).my_rank = a ∧ (net'.procs a).world_size = S.world_size ∧
      (net'.procs a).found_matching_msg = true ∧
      (∀ p, (net'.procs a).left_MIMPI_block p = false) ∧
      (net'.procs a).group_failed = false)
    (hpipes : ∃ fa : Int → List MIMPI_Message, ∀ b,
      (pipe_to (net'.procs a) b).drop (net.consumed b a) = wires (fa b) ∧
      net.consumed b a ≤ (pipe_to (net'.procs a) b).length ∧
      ∀ m ∈ fa b, m.source = a ∧ Just S T net' m)
    (hqueue : ∀ m ∈ (net'.procs a).queue, Just S T net' m)
    (happok : AppOK S T net' a s') : Inv S T net' := by
  have hmono : ∀ x, stage (net.app x) ≤ stage (net'.app x) := by
    intro x; rw [happ]; exact stage_set_at net a s' hstage x
  rcases hinv with ⟨h1, ⟨fl, h2⟩, h3, h4⟩
  rcases hpipes with ⟨fa, hfa⟩
  refine ⟨?_, ?_, ?_, ?_⟩
  · intro x hx0 hxN
    by_cases hx : x = a
    · subst hx; exact hbasic
    · rw [hprocs x hx]; exact h1 x hx0 hxN
  · refine ⟨fun x b => if x = a then fa b else fl x b, ?_⟩
    intro x b hx0 hxN
    by_cases hx : x = a
    · subst hx
      simp only [if_true, hcons]
      exact hfa b
    · simp only [if_neg hx, hcons, hprocs x hx]
      rcases h2 x b hx0 hxN with ⟨e1, e2, e3⟩
      exact ⟨e1, e2, fun m hm => ⟨(e3 m hm).1, Just_mono S T net net' hmono m (e3 m hm).2⟩⟩
  · intro x hx0 hxN m hm
    by_cases hx : x = a
    · subst hx; exact hqueue m hm
    · rw [hprocs x hx] at hm
      exact Just_mono S T net net' hmono m (h3 x hx0 hxN m hm)
  · intro x hx0 hxN
    by_cases hx : x = a
    · subst hx; rw [happ, set_at_same]; exact happok
    · rw [happ, set_at_other _ _ _ _ hx]
      exact AppOK_mono S T net net' hmono x _ (h4 x hx0 hxN)

theorem inv_local (S : TreeShape) (T : TreeData)
    (net : Net) (hinv : Inv S T net) (a : Int) (h0 : 0 ≤ a) (hN : a < S.world_size)
    (s' : Status) (hstage : stage (net.app a) ≤ stage s')
    (happok : AppOK S T { net with app := set_at net.app a s' } a s') :
    Inv S T { net with app := set_at net.app a s' } := by
  have hmono : ∀ x, stage (net.app x)
      ≤ stage (({ net with app := set_at net.app a s' } : Net).app x) :=
    stage_set_at net a s' hstage
  rcases hinv.pipes_ok with ⟨fl, hfl⟩
  refine inv_update S T net _ hinv a s' rfl hstage (fun _ _ => rfl) rfl
    (hinv.procs_ok a h0 hN) ⟨fl a, ?_⟩ ?_ happok
  · intro b
    rcases hfl a b h0 hN with ⟨e1, e2, e3⟩
    exact ⟨e1, e2, fun m hm => ⟨(e3 m hm).1, Just_mono S T net _ hmono m (e3 m hm).2⟩⟩
  · intro m hm
    exact Just_mono S T net _ hmono m (hinv.queue_ok a h0 hN m hm)

theorem pipe_to_other (st : MIMPI_State) (b dst : Int) (ws : List (Int × List Nat))
    (hws : ∀ w ∈ ws, w.1 = dst) (hb : b ≠ dst) :
    pipe_to { st with written := st.written ++ ws } b = pipe_to st b := by
  unfold pipe_to
  have : ws.filter (fun w => w.1 == b) = [] := by
    rw [List.filter_eq_nil_iff]
    intro w hw
    simp only [beq_iff_eq]
    rw [hws w hw]
    exact fun e => hb e.symm
  simp only [List.filter_append, this, List.append_nil]

theorem inv_send (S : TreeShape) (T : TreeData)
    (net : Net) (hinv : Inv S T net) (a : Int) (h0 : 0 ≤ a) (hN : a < S.world_size)
    (data : List Nat) (count dst tag : Int) (next : Locals) (rc : MIMPI_Retcode)
    (st' : MIMPI_State)
    (hd0 : 0 ≤ dst) (hdN : dst < S.world_size) (hda : dst ≠ a)
    (hc1 : 0 ≤ count) (hc2 : count < 2147483648)
    (hsend : MIMPI_Send chsend_full (count.toNat + 1) (net.procs a) data count dst tag
      = some (rc, st'))
    (hstage : stage (net.app a) ≤ stage (Status.running next))
    (hjust : count ≤ 2147483639 →
      Just S T { net with procs := set_at net.procs a st',
                          app := set_at net.app a (Status.running next) }
        ⟨a, tag, count, data.take count.toNat⟩)
    (happok : AppOK S T { net with procs := set_at net.procs a st',
                                   app := set_at net.app a (Status.running next) }
      a (Status.running next)) :
    Inv S T { net with procs := set_at net.procs a st',
                       app := set_at net.app a (Status.running next) } := by
  have hmono : ∀ x, stage (net.app x)
      ≤ stage (({ net with procs := set_at net.procs a st',
                           app := set_at net.app a (Status.running next) } : Net).app x) :=
    stage_set_at net a _ hstage
  rcases hinv.procs_ok a h0 hN with ⟨b1, b2, b3, b4, b5⟩
  rcases send_wire (net.procs a) st' data count dst tag rc (by rw [b1]; exact fun e => hda e.symm)
    hd0 (by rw [b2]; exact hdN) hc1 hc2 hsend with ⟨hle, ws, hst, hws, hflat⟩
  rcases hinv.pipes_ok with ⟨fl, hfl⟩
  refine inv_update S T net _ hinv a _ rfl hstage
    (fun x hx => set_at_other _ _ _ _ hx) rfl ?_
    ⟨fun b => if b = dst then fl a b ++ [⟨a, tag, count, data.take count.toNat⟩] else fl a b,
      ?_⟩ ?_ happok
  · simp only [set_at_same]
    rw [hst]
    exact ⟨b1, b2, b3, b4, b5⟩
  · intro b
    simp only [set_at_same]
    rcases hfl a b h0 hN with ⟨e1, e2, e3⟩
    by_cases hb : b = dst
    · subst hb
      simp only [if_true]
      rw [hst, pipe_to_append _ _ _ hws, hflat, List.drop_append_of_le_length e2, e1,
        wires_append, b1]
      refine ⟨by simp [wires, List.flatMap_cons], by simp only [List.length_append]; omega, ?_⟩
      intro m hm
      rcases List.mem_append.1 hm with hm | hm
      · exact ⟨(e3 m hm).1, Just_mono S T net _ hmono m (e3 m hm).2⟩
      · rw [List.mem_singleton.1 hm]
        exact ⟨rfl, hjust hle⟩
    · simp only [if_neg hb]
      rw [hst, pipe_to_other _ _ _ _ hws hb]
      exact ⟨e1, e2, fun m hm => ⟨(e3 m hm).1, Just_mono S T net _ hmono m (e3 m hm).2⟩⟩
  · intro m hm
    simp only [set_at_same] at hm
    rw [hst] at hm
    exact Just_mono S T net _ hmono m (hinv.queue_ok a h0 hN m hm)

theorem inv_recv (S : TreeShape) (T : TreeData)
    (net : Net) (hinv : Inv S T net) (a : Int) (h0 : 0 ≤ a) (hN : a < S.world_size)
    (data buf : List Nat) (count source tag : Int) (next : Locals) (rc : MIMPI_Retcode)
    (st' : MIMPI_State)
    (hs0 : 0 ≤ source) (hsN : source < S.world_size) (hsa : source ≠ a)
    (htag : tag = GROUP_BEGIN ∨ tag = GROUP_END)
    (hrecv : MIMPI_Recv chsend_full 1 (net.procs a) data count source tag []
      = RecvResult.ret rc st' buf)
    (hstage : stage (net.app a) ≤ stage (Status.running next))
    (happok : rc = MIMPI_SUCCESS →
      ∀ m, Just S T net m → m.source = source → m.tag = tag → m.count = count →
        buf = copy_into count m.buffer data →
        AppOK S T { net with procs := set_at net.procs a st',
                             app := set_at net.app a (Status.running next) }
          a (Status.running next)) :
    Inv S T { net with procs := set_at net.procs a st',
                       app := set_at net.app a (Status.running next) } := by
  have hmono : ∀ x, stage (net.app x)
      ≤ stage (({ net with procs := set_at net.procs a st',
                           app := set_at net.app a (Status.running next) } : Net).app x) :=
    stage_set_at net a _ hstage
  rcases hinv.procs_ok a h0 hN with ⟨b1, b2, b3, b4, b5⟩
  rcases recv_group (net.procs a) st' data buf count source tag rc
    (by rw [b1]; exact fun e => hsa e.symm) hs0 (by rw [b2]; exact hsN) htag (b4 source) b5
    hrecv with ⟨hrc, pre, m, post, hq, hm1, hm2, hm3, hst, hbuf⟩
  have hmq : m ∈ (net.procs a).queue := by rw [hq]; simp
  rcases hinv.pipes_ok with ⟨fl, hfl⟩
  refine inv_update S T net _ hinv a _ rfl hstage
    (fun x hx => set_at_other _ _ _ _ hx) rfl ?_ ⟨fl a, ?_⟩ ?_
    (happok hrc m (hinv.queue_ok a h0 hN m hmq) hm1 hm2 hm3 hbuf)
  · simp only [set_at_same]
    rw [hst]
    exact ⟨b1, b2, rfl, b4, b5⟩
  · intro b
    simp only [set_at_same]
    rcases hfl a b h0 hN with ⟨e1, e2, e3⟩
    have : pipe_to st' b = pipe_to (net.procs a) b := by rw [hst]; rfl
    rw [this]
    exact ⟨e1, e2, fun m hm => ⟨(e3 m hm).1, Just_mono S T net _ hmono m (e3 m hm).2⟩⟩
  · intro x hx
    simp only [set_at_same] at hx
    rw [hst] at hx
    have hxq : x ∈ (net.procs a).queue := by
      rw [hq]
      rcases List.mem_append.1 hx with h | h
      · exact List.mem_append_left _ h
      · exact List.mem_append_right _ (List.mem_cons_of_mem _ h)
    exact Just_mono S T net _ hmono x (hinv.queue_ok a h0 hN x hxq)

theorem wires_eq_nil (ms : List MIMPI_Message) (h : wires ms = []) : ms = [] := by
  cases ms with
  | nil => rfl
  | cons m ms =>
    rw [wires_cons] at h
    have : (wire m ++ wires ms).length = 0 := by rw [h]; rfl
    simp only [List.length_append, wire_length] at this
    omega

theorem inv_receive (S : TreeShape) (T : TreeData)
    (net net' : Net) (hinv : Inv S T net) (a b : Int)
    (ha0 : 0 ≤ a) (haN : a < S.world_size) (hb0 : 0 ≤ b) (hbN : b < S.world_size)
    (hab : a ≠ b) (h : net.receive b a = some net') : Inv S T net' := by
  rcases hinv.pipes_ok with ⟨fl, hfl⟩
  rcases hfl a b ha0 haN with ⟨e1, e2, e3⟩
  unfold Net.receive at h
  split at h
  · cases h
  · rename_i hne
    cases hfab : fl a b with
    | nil =>
      rw [hfab] at e1
      exact absurd e1 hne
    | cons m rest =>
      rw [hfab] at e1 e3
      rcases e3 m (List.mem_cons_self _ _) with ⟨hsrc, hjust⟩
      rcases hinv.procs_ok b hb0 hbN with ⟨b1, b2, b3, b4, b5⟩
      have htag : m.tag = GROUP_BEGIN ∨ m.tag = GROUP_END := by
        rcases hjust.2.2.2 with h | h
        · exact Or.inl h.1
        · exact Or.inr h.1
      have hturn := receiver_turn_wire a (net.procs b) m (wires rest) (net.meta_bufs b a)
        (((pipe_to (net.procs a) b).drop (net.consumed b a)).length + 1) b3
        hjust.1 (by have := hjust.2.1; omega) hjust.2.2.1 htag
        (by rw [e1, wires_cons]
            simp only [List.length_append, wire_length]
            have := hjust.2.2.1
            omega)
      rw [e1, wires_cons] at h hturn
      rw [hturn] at h
      simp only [Option.some.injEq] at h
      have hdrop := drop_length_sub (pipe_to (net.procs a) b) (wire m) (wires rest)
        (net.consumed b a) (by rw [e1, wires_cons])
      have happ : net'.app = net.app := by rw [← h]
      have hmono : ∀ x, stage (net.app x) ≤ stage (net'.app x) := by
        intro x; rw [happ]
      have hprocs : ∀ x, net'.procs x = if x = b then
          { net.procs b with queue := (net.procs b).queue ++ [⟨a, m.tag, m.count, m.buffer⟩] }
          else net.procs x := by
        intro x; rw [← h]; rfl
      have hcons : ∀ y x, net'.consumed y x = if y = b then
          (if x = a then (pipe_to (net.procs a) b).length - (wires rest).length
            else net.consumed b x) else net.consumed y x := by
        intro y x
        rw [← h]
        show set_at net.consumed b (set_at (net.consumed b) a _) y x = _
        unfold set_at
        by_cases hy : y = b <;> by_cases hx : x = a <;> simp [hy, hx]
      have hpipe : ∀ x y, pipe_to (net'.procs x) y = pipe_to (net.procs x) y := by
        intro x y
        rw [hprocs]
        by_cases hx : x = b
        · subst hx; simp only [if_true]; rfl
        · simp only [if_neg hx]
      refine ⟨?_, ?_, ?_, ?_⟩
      · intro x hx0 hxN
        rw [hprocs]
        by_cases hx : x = b
        · subst hx
          simp only [if_true]
          exact ⟨b1, b2, b3, b4, b5⟩
        · simp only [if_neg hx]
          exact hinv.procs_ok x hx0 hxN
      · refine ⟨fun x y => if x = a ∧ y = b then rest else fl x y, ?_⟩
        intro x y hx0 hxN
        rw [hpipe, hcons]
        by_cases hxy : x = a ∧ y = b
        · rcases hxy with ⟨rfl, rfl⟩
          simp only [and_self, if_true]
          refine ⟨hdrop.1, hdrop.2, ?_⟩
          intro m' hm'
          rcases e3 m' (List.mem_cons_of_mem _ hm') with ⟨q1, q2⟩
          exact ⟨q1, Just_mono S T net net' hmono m' q2⟩
        · simp only [if_neg hxy]
          have hc : (if y = b then (if x = a then
              (pipe_to (net.procs a) b).length - (wires rest).length
              else net.consumed b x) else net.consumed y x) = net.consumed y x := by
            by_cases hy : y = b
            · subst hy
              have hx : ¬ x = a := fun e => hxy ⟨e, rfl⟩
              simp [hx]
            · simp [hy]
          rw [hc]
          rcases hfl x y hx0 hxN with ⟨q1, q2, q3⟩
          exact ⟨q1, q2, fun m' hm' => ⟨(q3 m' hm').1,
            Just_mono S T net net' hmono m' (q3 m' hm').2⟩⟩
      · intro x hx0 hxN m' hm'
        rw [hprocs] at hm'
        by_cases hx : x = b
        · subst hx
          simp only [if_true] at hm'
          rcases List.mem_append.1 hm' with hq | hq
          · exact Just_mono S T net net' hmono m' (hinv.queue_ok x hx0 hxN m' hq)
          · rw [List.mem_singleton.1 hq]
            have : (⟨a, m.tag, m.count, m.buffer⟩ : MIMPI_Message) = m := by
              rw [← hsrc]
            rw [this]
            exact Just_mono S T net net' hmono m hjust
        · simp only [if_neg hx] at hm'
          exact Just_mono S T net net' hmono m' (hinv.queue_ok x hx0 hxN m' hm')
      · intro x hx0 hxN
        rw [happ]
        exact AppOK_mono S T net net' hmono x _ (hinv.app_ok x hx0 hxN)

theorem exec_goto (net net' : Net) (a : Int) (loc next : Locals)
    (h : net.exec a loc (Instr.goto next) = some net') :
    net' = { net with app := set_at net.app a (Status.running next) } := by
  simp only [Net.exec, Option.some.injEq] at h
  exact h.symm

theorem exec_ret (net net' : Net) (a : Int) (loc : Locals) (code : MIMPI_Retcode)
    (h : net.exec a loc (Instr.ret code) = some net') :
    net' = { net with app := set_at net.app a (Status.returned code loc) } := by
  simp only [Net.exec, Option.some.injEq] at h
  exact h.symm

theorem exec_send (net net' : Net) (a : Int) (loc next : Locals) (data : List Nat)
    (count dst tag : Int)
    (h : net.exec a loc (Instr.send data count dst tag next) = some net') :
    ∃ rc st, MIMPI_Send chsend_full (count.toNat + 1) (net.procs a) data count dst tag
        = some (rc, st) ∧
      net' = { net with procs := set_at net.procs a st,
                        app := set_at net.app a (Status.running next) } := by
  simp only [Net.exec] at h
  cases hs : MIMPI_Send chsend_full (count.toNat + 1) (net.procs a) data count dst tag with
  | none => rw [hs] at h; cases h
  | some r =>
    rcases r with ⟨rc, st⟩
    rw [hs] at h
    simp only [Option.some.injEq] at h
    exact ⟨rc, st, rfl, h.symm⟩

theorem exec_recv (net net' : Net) (a : Int) (loc : Locals) (data : List Nat)
    (count source tag : Int) (k : MIMPI_Retcode → List Nat → Locals)
    (h : net.exec a loc (Instr.recv data count source tag k) = some net') :
    ∃ rc st buf, MIMPI_Recv chsend_full 1 (net.procs a) data count source tag []
        = RecvResult.ret rc st buf ∧
      net' = { net with procs := set_at net.procs a st,
                        app := set_at net.app a (Status.running (k rc buf)) } := by
  simp only [Net.exec] at h
  cases hs : MIMPI_Recv chsend_full 1 (net.procs a) data count source tag [] with
  | ret rc st buf =>
    rw [hs] at h
    simp only [Option.some.injEq] at h
    exact ⟨rc, st, buf, rfl, h.symm⟩
  | blocked st => rw [hs] at h; cases h
  | undef => rw [hs] at h; cases h

theorem recv_ok_pc (loc : Locals) (n : Nat) (store : Locals → List Nat → Locals)
    (rc : MIMPI_Retcode) (buf : List Nat) :
    (recv_ok loc n store rc buf).pc = 8 ∨ (recv_ok loc n store rc buf).pc = n := by
  unfold recv_ok
  split
  · exact Or.inl rfl
  · exact Or.inr rfl

theorem recv_ok_success (loc : Locals) (n : Nat) (store : Locals → List Nat → Locals)
    (buf : List Nat) :
    recv_ok loc n store MIMPI_SUCCESS buf = { store loc buf with pc := n } := by
  simp [recv_ok]

theorem Order_of (S : TreeShape) (net : Net) (a : Int) (n k : Nat)
    (h2 : 2 ≤ k → 2 ≤ n) (h3 : 3 ≤ k → 3 ≤ n) (h5 : 5 ≤ k → 5 ≤ n)
    (ho : Order S net a n) : Order S net a k := by
  rcases ho with ⟨o1, o2, o3⟩
  exact ⟨fun x y => o1 (h2 x) y, fun x y z => o2 (h3 x) y z, fun x y => o3 (h5 x) y⟩

theorem stage_running (net : Net) (a : Int) (loc next : Locals)
    (happ : net.app a = Status.running loc) (hpc : loc.pc ≤ next.pc) :
    stage (net.app a) ≤ stage (Status.running next) := by
  rw [happ]
  simp only [stage]
  omega

theorem inv_goto_step (S : TreeShape) (T : TreeData)
    (net : Net) (hinv : Inv S T net) (a : Int) (h0 : 0 ≤ a) (hN : a < S.world_size)
    (loc next : Locals) (happ : net.app a = Status.running loc)
    (hpc : loc.pc ≤ next.pc) (hpc7 : next.pc ≤ 7) (hL : T.L a next)
    (hO : Order S net a next.pc) :
    Inv S T { net with app := set_at net.app a (Status.running next) } := by
  have hst := stage_running net a loc next happ hpc
  refine inv_local S T net hinv a h0 hN _ hst ?_
  exact ⟨hpc7, hL, Order_mono S net _ (stage_set_at net a _ hst) a _ hO⟩

theorem inv_send_step (S : TreeShape) (T : TreeData)
    (net : Net) (hinv : Inv S T net) (a : Int) (h0 : 0 ≤ a) (hN : a < S.world_size)
    (loc next : Locals) (happ : net.app a = Status.running loc)
    (data : List Nat) (count dst tag : Int) (rc : MIMPI_Retcode) (st' : MIMPI_State)
    (hd0 : 0 ≤ dst) (hdN : dst < S.world_size) (hda : dst ≠ a)
    (hc1 : 0 ≤ count) (hc2 : count < 2147483648)
    (hsend : MIMPI_Send chsend_full (count.toNat + 1) (net.procs a) data count dst tag
      = some (rc, st'))
    (hpc : loc.pc ≤ next.pc) (hpc7 : next.pc ≤ 7) (hL : T.L a next)
    (hO : Order S net a next.pc) (hlen : count.toNat ≤ data.length)
    (hmsg : (tag = GROUP_BEGIN ∧ 4 ≤ next.pc ∧ count = S.count_up ∧
        T.U a (data.take count.toNat)) ∨
      (tag = GROUP_END ∧ 5 ≤ next.pc ∧ count = S.count_down ∧
        T.D (data.take count.toNat))) :
    Inv S T { net with procs := set_at net.procs a st',
                       app := set_at net.app a (Status.running next) } := by
  have hst := stage_running net a loc next happ hpc
  refine inv_send S T net hinv a h0 hN data count dst tag next rc st' hd0 hdN hda hc1 hc2
    hsend hst ?_ ?_
  · intro hle
    refine ⟨hc1, hle, by simp only [List.length_take]; omega, ?_⟩
    have hsa : stage (set_at net.app a (Status.running next) a) = next.pc + 1 := by
      rw [set_at_same]; rfl
    rcases hmsg with ⟨e1, e2, e3, e4⟩ | ⟨e1, e2, e3, e4⟩
    · refine Or.inl ⟨e1, ?_, e3, e4⟩
      show 5 ≤ stage (set_at net.app a (Status.running next) a)
      rw [hsa]; omega
    · refine Or.inr ⟨e1, ?_, e3, e4⟩
      show 6 ≤ stage (set_at net.app a (Status.running next) a)
      rw [hsa]; omega
  · exact ⟨hpc7, hL, Order_mono S net _ (stage_set_at net a _ hst) a _ hO⟩

theorem inv_recv_step (S : TreeShape) (T : TreeData)
    (net : Net) (hinv : Inv S T net) (a : Int) (h0 : 0 ≤ a) (hN : a < S.world_size)
    (loc : Locals) (happ : net.app a = Status.running loc)
    (data buf : List Nat) (count source tag : Int) (rc : MIMPI_Retcode) (st' : MIMPI_State)
    (n : Nat) (store : Locals → List Nat → Locals)
    (hs0 : 0 ≤ source) (hsN : source < S.world_size) (hsa : source ≠ a)
    (htag : tag = GROUP_BEGIN ∨ tag = GROUP_END)
    (hrecv : MIMPI_Recv chsend_full 1 (net.procs a) data count source tag []
      = RecvResult.ret rc st' buf)
    (hpc : loc.pc ≤ n) (hpc7 : n ≤ 7)
    (hnext : ∀ m, Just S T net m → m.source = source → m.tag = tag → m.count = count →
      T.L a { store loc (copy_into count m.buffer data) with pc := n } ∧ Order S net a n) :
    Inv S T { net with procs := set_at net.procs a st',
                       app := set_at net.app a
                         (Status.running (recv_ok loc n store rc buf)) } := by
  have hst : stage (net.app a) ≤ stage (Status.running (recv_ok loc n store rc buf)) := by
    apply stage_running net a loc _ happ
    rcases recv_ok_pc loc n store rc buf with e | e <;> rw [e] <;> omega
  refine inv_recv S T net hinv a h0 hN data buf count source tag _ rc st' hs0 hsN hsa htag
    hrecv hst ?_
  intro hrc m hj h1 h2 h3 hbuf
  subst hrc
  rw [recv_ok_success, hbuf]
  rcases hnext m hj h1 h2 h3 with ⟨hL, hO⟩
  refine ⟨hpc7, hL, ?_⟩
  refine Order_mono S net _ ?_ a _ hO
  intro x
  by_cases hx : x = a
  · subst hx
    show stage (net.app x) ≤ stage (set_at net.app x _ x)
    rw [set_at_same, happ]
    simp only [stage]
    omega
  · show stage (net.app x) ≤ stage (set_at net.app a _ x)
    rw [set_at_other _ _ _ _ hx]

theorem Just_begin (S : TreeShape) (T : TreeData)
    (net : Net) (m : MIMPI_Message) (hj : Just S T net m) (ht : m.tag = GROUP_BEGIN) :
    5 ≤ stage (net.app m.source) ∧ m.count = S.count_up ∧ T.U m.source m.buffer ∧
    m.buffer.length = m.count.toNat := by
  rcases hj with ⟨_, _, hl, h | h⟩
  · exact ⟨h.2.1, h.2.2.1, h.2.2.2, hl⟩
  · rw [ht] at h
    exact absurd h.1 (by decide)

theorem Just_end (S : TreeShape) (T : TreeData)
    (net : Net) (m : MIMPI_Message) (hj : Just S T net m) (ht : m.tag = GROUP_END) :
    6 ≤ stage (net.app m.source) ∧ m.count = S.count_down ∧ T.D m.buffer ∧
    m.buffer.length = m.count.toNat := by
  rcases hj with ⟨_, _, hl, h | h⟩
  · rw [ht] at h
    exact absurd h.1 (by decide)
  · exact ⟨h.2.1, h.2.2.1, h.2.2.2, hl⟩

theorem inv_thread (S : TreeShape) {init : Int → Locals} (T : TreeData)
    (hT : TreeLaws S init T)
    (hr0 : 0 ≤ S.root) (hrN : S.root < S.world_size)
    (hcu : 0 ≤ S.count_up ∧ S.count_up < 2147483648)
    (hcd : 0 ≤ S.count_down ∧ S.count_down < 2147483648)
    (net net' : Net) (hinv : Inv S T net) (a : Int) (h0 : 0 ≤ a) (hN : a < S.world_size)
    (loc : Locals) (happ : net.app a = Status.running loc)
    (h : net.exec a loc (tree_collective S a loc) = some net') : Inv S T net' := by
  have hok := hinv.app_ok a h0 hN
  rw [happ] at hok
  rcases hok with ⟨hpc7, hL, hO⟩
  have hcases : loc.pc = 0 ∨ loc.pc = 1 ∨ loc.pc = 2 ∨ loc.pc = 3 ∨ loc.pc = 4 ∨
      loc.pc = 5 ∨ loc.pc = 6 ∨ loc.pc = 7 := by omega
  have hlv := l_child_valid S hr0 a h0
  have hrv := r_child_valid S hr0 a h0
  rcases hcases with hpc | hpc | hpc | hpc | hpc | hpc | hpc | hpc
  · -- place 0
    have hi : tree_collective S a loc = Instr.goto { S.pre a loc with pc := 1 } := by
      simp only [tree_collective, hpc]
    rw [hi] at h
    rw [exec_goto _ _ _ _ _ h]
    exact inv_goto_step S T net hinv a h0 hN loc _ happ (by rw [hpc]; exact Nat.zero_le _)
      (by simp) (hT.at_0 a loc h0 hN hL hpc)
      (Order_of S net a loc.pc 1 (by omega) (by omega) (by omega) hO)
  · -- place 1
    by_cases hl : S.l_child a < S.world_size
    · have hi : tree_collective S a loc = Instr.recv (S.buf_left loc) S.count_up
          (S.l_child a) GROUP_BEGIN (recv_ok loc 2 (S.on_child a)) := by
        simp only [tree_collective, hpc, if_pos hl]
      rw [hi] at h
      rcases exec_recv _ _ _ _ _ _ _ _ _ h with ⟨rc, st, buf, hrecv, hnet⟩
      rw [hnet]
      refine inv_recv_step S T net hinv a h0 hN loc happ _ buf _ _ _ rc st 2 _
        hlv.1 hl hlv.2 (Or.inl rfl) hrecv (by omega) (by simp) ?_
      intro m hj h1 h2 h3
      rcases Just_begin S T net m hj h2 with ⟨j1, j2, j3, j4⟩
      rw [h1] at j1 j3
      refine ⟨hT.at_1 a loc m.buffer h0 hN hL hpc hl j3 (by rw [j4, j2]), ?_⟩
      exact ⟨fun _ _ => j1, fun x => absurd x (by simp), fun x => absurd x (by simp)⟩
    · have hi : tree_collective S a loc = Instr.goto { loc with pc := 3 } := by
        simp only [tree_collective, hpc, if_neg hl]
      rw [hi] at h
      rw [exec_goto _ _ _ _ _ h]
      exact inv_goto_step S T net hinv a h0 hN loc _ happ (by rw [hpc]; simp)
        (by simp) (hT.at_1_skip a loc h0 hN hL hpc hl)
        ⟨fun _ x => absurd x hl, fun _ x _ => absurd x hl, fun x => absurd x (by simp)⟩
  · -- place 2
    by_cases hr : S.r_child a < S.world_size
    · have hi : tree_collective S a loc = Instr.recv (S.buf_right loc) S.count_up
          (S.r_child a) GROUP_BEGIN (recv_ok loc 3 (S.on_child a)) := by
        simp only [tree_collective, hpc, if_pos hr]
      rw [hi] at h
      rcases exec_recv _ _ _ _ _ _ _ _ _ h with ⟨rc, st, buf, hrecv, hnet⟩
      rw [hnet]
      refine inv_recv_step S T net hinv a h0 hN loc happ _ buf _ _ _ rc st 3 _
        hrv.1 hr hrv.2 (Or.inl rfl) hrecv (by omega) (by simp) ?_
      intro m hj h1 h2 h3
      rcases Just_begin S T net m hj h2 with ⟨j1, j2, j3, j4⟩
      rw [h1] at j1 j3
      refine ⟨hT.at_2 a loc m.buffer h0 hN hL hpc hr j3 (by rw [j4, j2]), ?_⟩
      exact ⟨fun _ => hO.1 (by omega), fun _ _ _ => j1, fun x => absurd x (by simp)⟩
    · have hi : tree_collective S a loc = Instr.goto { loc with pc := 3 } := by
        simp only [tree_collective, hpc, if_neg hr]
      rw [hi] at h
      rw [exec_goto _ _ _ _ _ h]
      exact inv_goto_step S T net hinv a h0 hN loc _ happ (by rw [hpc]; simp)
        (by simp) (hT.at_2_skip a loc h0 hN hL hpc hr)
        ⟨fun _ => hO.1 (by omega), fun _ _ x => absurd x hr, fun x => absurd x (by simp)⟩
  · -- place 3
    by_cases ht : S.treat_as a ≠ 0
    · have hi : tree_collective S a loc = Instr.send (S.up loc) S.count_up (S.parent a)
          GROUP_BEGIN { loc with pc := 4 } := by
        simp only [tree_collective, hpc, if_pos ht]
      rw [hi] at h
      rcases exec_send _ _ _ _ _ _ _ _ _ h with ⟨rc, st, hsend, hnet⟩
      rw [hnet]
      rcases parent_valid S hr0 hrN a h0 hN ht with ⟨p1, p2, p3, _, _⟩
      rcases hT.at_3 a loc h0 hN hL hpc ht with ⟨q1, q2, q3⟩
      exact inv_send_step S T net hinv a h0 hN loc _ happ _ _ _ _ rc st p1 p2 p3
        hcu.1 hcu.2 hsend (by rw [hpc]; simp) (by simp) q3
        (Order_of S net a loc.pc 4 (by omega) (by omega) (by omega) hO) q1
        (Or.inl ⟨rfl, le_refl _, rfl, q2⟩)
    · have ht' : S.treat_as a = 0 := by
        by_contra hne; exact ht hne
      have hi : tree_collective S a loc = Instr.goto { loc with pc := 4 } := by
        simp only [tree_collective, hpc, if_neg ht]
      rw [hi] at h
      rw [exec_goto _ _ _ _ _ h]
      exact inv_goto_step S T net hinv a h0 hN loc _ happ (by rw [hpc]; simp)
        (by simp) (hT.at_3_skip a loc h0 hN hL hpc ht')
        (Order_of S net a loc.pc 4 (by omega) (by omega) (by omega) hO)
  · -- place 4
    by_cases ht : S.treat_as a ≠ 0
    · have hi : tree_collective S a loc = Instr.recv (S.buf_parent loc) S.count_down
          (S.parent a) GROUP_END (recv_ok loc 5 S.on_parent) := by
        simp only [tree_collective, hpc, if_pos ht]
      rw [hi] at h
      rcases exec_recv _ _ _ _ _ _ _ _ _ h with ⟨rc, st, buf, hrecv, hnet⟩
      rw [hnet]
      rcases parent_valid S hr0 hrN a h0 hN ht with ⟨p1, p2, p3, _, _⟩
      refine inv_recv_step S T net hinv a h0 hN loc happ _ buf _ _ _ rc st 5 _
        p1 p2 p3 (Or.inr rfl) hrecv (by omega) (by simp) ?_
      intro m hj h1 h2 h3
      rcases Just_end S T net m hj h2 with ⟨j1, j2, j3, j4⟩
      rw [h1] at j1
      refine ⟨hT.at_4 a loc m.buffer h0 hN hL hpc ht j3 (by rw [j4, j2]), ?_⟩
      exact ⟨fun _ => hO.1 (by omega), fun _ => hO.2.1 (by omega), fun _ _ => j1⟩
    · have ht' : S.treat_as a = 0 := by
        by_contra hne; exact ht hne
      have hi : tree_collective S a loc = Instr.goto { loc with pc := 5 } := by
        simp only [tree_collective, hpc, if_neg ht]
      rw [hi] at h
      rw [exec_goto _ _ _ _ _ h]
      exact inv_goto_step S T net hinv a h0 hN loc _ happ (by rw [hpc]; simp)
        (by simp) (hT.at_4_skip a loc h0 hN hL hpc ht')
        ⟨fun _ => hO.1 (by omega), fun _ => hO.2.1 (by omega), fun _ x => absurd ht' x⟩
  · -- place 5
    by_cases hl : S.l_child a < S.world_size
    · have hi : tree_collective S a loc = Instr.send (S.down loc) S.count_down (S.l_child a)
          GROUP_END { loc with pc := 6 } := by
        simp only [tree_collective, hpc, if_pos hl]
      rw [hi] at h
      rcases exec_send _ _ _ _ _ _ _ _ _ h with ⟨rc, st, hsend, hnet⟩
      rw [hnet]
      rcases hT.at_5 a loc h0 hN hL hpc hl with ⟨q1, q2, q3⟩
      exact inv_send_step S T net hinv a h0 hN loc _ happ _ _ _ _ rc st hlv.1 hl hlv.2
        hcd.1 hcd.2 hsend (by rw [hpc]; simp) (by simp) q3
        (Order_of S net a loc.pc 6 (by omega) (by omega) (by omega) hO) q1
        (Or.inr ⟨rfl, by simp, rfl, q2⟩)
    · have hi : tree_collective S a loc = Instr.goto { loc with pc := 7 } := by
        simp only [tree_collective, hpc, if_neg hl]
      rw [hi] at h
      rw [exec_goto _ _ _ _ _ h]
      exact inv_goto_step S T net hinv a h0 hN loc _ happ (by rw [hpc]; simp)
        (by simp) (hT.at_5_skip a loc h0 hN hL hpc hl)
        (Order_of S net a loc.pc 7 (by omega) (by omega) (by omega) hO)
  · -- place 6
    by_cases hr : S.r_child a < S.world_size
    · have hi : tree_collective S a loc = Instr.send (S.down loc) S.count_down (S.r_child a)
          GROUP_END { loc with pc := 7 } := by
        simp only [tree_collective, hpc, if_pos hr]
      rw [hi] at h
      rcases exec_send _ _ _ _ _ _ _ _ _ h with ⟨rc, st, hsend, hnet⟩
      rw [hnet]
      rcases hT.at_6 a loc h0 hN hL hpc hr with ⟨q1, q2, q3⟩
      exact inv_send_step S T net hinv a h0 hN loc _ happ _ _ _ _ rc st hrv.1 hr hrv.2
        hcd.1 hcd.2 hsend (by rw [hpc]; simp) (by simp) q3
        (Order_of S net a loc.pc 7 (by omega) (by omega) (by omega) hO) q1
        (Or.inr ⟨rfl, by simp, rfl, q2⟩)
    · have hi : tree_collective S a loc = Instr.goto { loc with pc := 7 } := by
        simp only [tree_collective, hpc, if_neg hr]
      rw [hi] at h
      rw [exec_goto _ _ _ _ _ h]
      exact inv_goto_step S T net hinv a h0 hN loc _ happ (by rw [hpc]; simp)
        (by simp) (hT.at_6_skip a loc h0 hN hL hpc hr)
        (Order_of S net a loc.pc 7 (by omega) (by omega) (by omega) hO)
  · -- place 7
    have hi : tree_collective S a loc = Instr.ret MIMPI_SUCCESS := by
      simp only [tree_collective, hpc]
    rw [hi] at h
    rw [exec_ret _ _ _ _ _ h]
    have hst : stage (net.app a) ≤ stage (Status.returned MIMPI_SUCCESS loc) := by
      rw [happ]; simp only [stage]; omega
    refine inv_local S T net hinv a h0 hN _ hst ?_
    refine ⟨rfl, hpc, hL, ?_⟩
    rw [← hpc]
    exact Order_mono S net _ (stage_set_at net a _ hst) a _ hO

theorem inv_step (S : TreeShape) {init : Int → Locals} (T : TreeData)
    (hT : TreeLaws S init T)
    (hr0 : 0 ≤ S.root) (hrN : S.root < S.world_size)
    (hcu : 0 ≤ S.count_up ∧ S.count_up < 2147483648)
    (hcd : 0 ≤ S.count_down ∧ S.count_down < 2147483648)
    (net net' : Net) (hinv : Inv S T net) (act : Action)
    (h : net.step S.world_size (tree_collective S) init act = some net') : Inv S T net' := by
  cases act with
  | call a =>
    simp only [Net.step] at h
    split at h
    · rename_i hv
      cases happ : net.app a with
      | idle =>
        rw [happ] at h
        simp only [Option.some.injEq] at h
        rw [← h]
        have hst : stage (net.app a) ≤ stage (Status.running (init a)) := by
          rw [happ]; exact Nat.zero_le _
        refine inv_local S T net hinv a hv.1 hv.2 _ hst ?_
        rcases hT.at_init a hv.1 hv.2 with ⟨i1, i2⟩
        refine ⟨by rw [i1]; exact Nat.zero_le _, i2, ?_⟩
        rw [i1]
        exact ⟨fun x => absurd x (by decide), fun x => absurd x (by decide),
          fun x => absurd x (by decide)⟩
      | running loc => rw [happ] at h; cases h
      | returned code loc => rw [happ] at h; cases h
    · cases h
  | thread a =>
    simp only [Net.step] at h
    split at h
    · rename_i hv
      cases happ : net.app a with
      | idle => rw [happ] at h; cases h
      | running loc =>
        rw [happ] at h
        exact inv_thread S T hT hr0 hrN hcu hcd net net' hinv a hv.1 hv.2 loc happ h
      | returned code loc => rw [happ] at h; cases h
    · cases h
  | receiver b a =>
    simp only [Net.step] at h
    split at h
    · rename_i hv
      exact inv_receive S T net net' hinv a b hv.1 hv.2.1 hv.2.2.1 hv.2.2.2.1 hv.2.2.2.2 h
    · cases h

theorem inv_run (S : TreeShape) {init : Int → Locals} (T : TreeData)
    (hT : TreeLaws S init T)
    (hr0 : 0 ≤ S.root) (hrN : S.root < S.world_size)
    (hcu : 0 ≤ S.count_up ∧ S.count_up < 2147483648)
    (hcd : 0 ≤ S.count_down ∧ S.count_down < 2147483648) :
    ∀ (acts : List Action) (net net' : Net), Inv S T net →
      Net.run S.world_size (tree_collective S) init net acts = some net' → Inv S T net' := by
  intro acts
  induction acts with
  | nil =>
    intro net net' hinv h
    simp only [Net.run, Option.some.injEq] at h
    rw [← h]; exact hinv
  | cons act acts ih =>
    intro net net' hinv h
    simp only [Net.run] at h
    cases hs : net.step S.world_size (tree_collective S) init act with
    | none => rw [hs] at h; cases h
    | some net1 =>
      rw [hs] at h
      exact ih net1 net' (inv_step S T hT hr0 hrN hcu hcd net net1 hinv act hs) h

theorem order_of_stage (S : TreeShape) (T : TreeData)
    (net : Net) (hinv : Inv S T net) (a : Int) (h0 : 0 ≤ a) (hN : a < S.world_size)
    (n : Nat) (h : n + 1 ≤ stage (net.app a)) (hn : n ≤ 7) : Order S net a n := by
  have hok := hinv.app_ok a h0 hN
  cases happ : net.app a with
  | idle => rw [happ] at h; simp only [stage] at h; omega
  | running loc =>
    rw [happ] at h hok
    simp only [stage] at h
    exact Order_le S net a loc.pc n (by omega) hok.2.2
  | returned code loc =>
    rw [happ] at hok
    exact Order_le S net a 7 n hn hok.2.2.2

theorem up_chain (S : TreeShape) (T : TreeData)
    (hr0 : 0 ≤ S.root) (hrN : S.root < S.world_size) (net : Net) (hinv : Inv S T net) :
    ∀ (n : Nat) (a : Int), 0 ≤ a → a < S.world_size → (S.treat_as a).toNat ≤ n →
      6 ≤ stage (net.app a) → 6 ≤ stage (net.app S.root) := by
  intro n
  induction n with
  | zero =>
    intro a h0 hN hn hs
    have hr := treat_as_range S hr0 hrN a h0 hN
    have : S.treat_as a = 0 := by omega
    rw [(treat_as_zero_iff S a).1 this] at hs
    exact hs
  | succ n ih =>
    intro a h0 hN hn hs
    by_cases ht : S.treat_as a = 0
    · rw [(treat_as_zero_iff S a).1 ht] at hs
      exact hs
    · rcases parent_valid S hr0 hrN a h0 hN ht with ⟨p1, p2, _, p4, _⟩
      have hr := treat_as_range S hr0 hrN (S.parent a) p1 p2
      have ho := order_of_stage S T net hinv a h0 hN 5 (by omega) (by decide)
      exact ih (S.parent a) p1 p2 (by omega) (ho.2.2 (le_refl _) ht)

theorem all_sent (S : TreeShape) (T : TreeData)
    (hr0 : 0 ≤ S.root) (hrN : S.root < S.world_size) (net : Net) (hinv : Inv S T net)
    (hroot : 6 ≤ stage (net.app S.root)) :
    ∀ (n : Nat) (a : Int), 0 ≤ a → a < S.world_size → (S.treat_as a).toNat ≤ n →
      a ≠ S.root → 5 ≤ stage (net.app a) := by
  intro n
  induction n with
  | zero =>
    intro a h0 hN hn hne
    have hr := treat_as_range S hr0 hrN a h0 hN
    have : S.treat_as a = 0 := by omega
    exact absurd ((treat_as_zero_iff S a).1 this) hne
  | succ n ih =>
    intro a h0 hN hn hne
    have ht : S.treat_as a ≠ 0 := fun e => hne ((treat_as_zero_iff S a).1 e)
    rcases parent_valid S hr0 hrN a h0 hN ht with ⟨p1, p2, _, p4, p5⟩
    have hr := treat_as_range S hr0 hrN (S.parent a) p1 p2
    have hp : 5 ≤ stage (net.app (S.parent a)) := by
      by_cases hpr : S.parent a = S.root
      · rw [hpr]; omega
      · exact ih (S.parent a) p1 p2 (by omega) hpr
    have ho := order_of_stage S T net hinv (S.parent a) p1 p2 4 (by omega) (by decide)
    rcases p5 with e | ⟨e, hl⟩
    · have := ho.1 (by decide) (by rw [e]; exact hN)
      rw [e] at this
      exact this
    · have := ho.2.1 (by decide) hl (by rw [e]; exact hN)
      rw [e] at this
      exact this

theorem all_entered (S : TreeShape) (T : TreeData)
    (hr0 : 0 ≤ S.root) (hrN : S.root < S.world_size) (net : Net) (hinv : Inv S T net)
    (a : Int) (h0 : 0 ≤ a) (hN : a < S.world_size) (hs : 6 ≤ stage (net.app a)) :
    ∀ b, 0 ≤ b → b < S.world_size →
      net.app b ≠ Status.idle ∧ (b ≠ S.root → 5 ≤ stage (net.app b)) := by
  have hroot := up_chain S T hr0 hrN net hinv _ a h0 hN (le_refl _) hs
  intro b hb0 hbN
  have hb : b ≠ S.root → 5 ≤ stage (net.app b) :=
    all_sent S T hr0 hrN net hinv hroot _ b hb0 hbN (le_refl _)
  refine ⟨?_, hb⟩
  intro hidle
  by_cases hbr : b = S.root
  · rw [← hbr, hidle] at hroot
    simp only [stage] at hroot
    omega
  · have := hb hbr
    rw [hidle] at this
    simp only [stage] at this
    omega

/-! ## C10: the barrier -/

theorem real_proc_zero (x : Int) : MIMPI_real_proc x 0 = x := by
  simp only [MIMPI_real_proc]
  split_ifs <;> omega

theorem barrier_refines (N a : Int) (loc : Locals) :
    MIMPI_Barrier N a loc = tree_collective (barrier_shape N) a loc := by
  have e : (a + 1) * 2 - 1 + 1 = (a + 1) * 2 := by omega
  simp only [MIMPI_Barrier, tree_collective, TreeShape.l_child, TreeShape.r_child,
    TreeShape.parent, TreeShape.treat_as, barrier_shape, real_proc_zero, e]

theorem barrier_laws (N : Int) (init : Int → Locals) (hinit : ∀ r, (init r).pc = 0) :
    TreeLaws (barrier_shape N) init barrier_data where
  at_init := fun a _ _ => ⟨hinit a, trivial⟩
  at_0 := fun _ _ _ _ _ _ => trivial
  at_1_skip := fun _ _ _ _ _ _ _ => trivial
  at_1 := fun _ _ _ _ _ _ _ _ _ _ => trivial
  at_2_skip := fun _ _ _ _ _ _ _ => trivial
  at_2 := fun _ _ _ _ _ _ _ _ _ _ => trivial
  at_3_skip := fun _ _ _ _ _ _ _ => trivial
  at_3 := fun _ _ _ _ _ _ _ => ⟨Nat.zero_le _, rfl, trivial⟩
  at_4_skip := fun _ _ _ _ _ _ _ => trivial
  at_4 := fun _ _ _ _ _ _ _ _ _ _ => trivial
  at_5_skip := fun _ _ _ _ _ _ _ => trivial
  at_5 := fun _ _ _ _ _ _ _ => ⟨Nat.zero_le _, rfl, trivial⟩
  at_6_skip := fun _ _ _ _ _ _ _ => trivial
  at_6 := fun _ _ _ _ _ _ _ => ⟨Nat.zero_le _, rfl, trivial⟩

theorem returned_ok (S : TreeShape) (T : TreeData) (net : Net) (hinv : Inv S T net)
    (a : Int) (h0 : 0 ≤ a) (hN : a < S.world_size) (code : MIMPI_Retcode) (loc : Locals)
    (hret : net.app a = Status.returned code loc) :
    code = MIMPI_SUCCESS ∧ T.L a loc ∧ 6 ≤ stage (net.app a) := by
  have hok := hinv.app_ok a h0 hN
  rw [hret] at hok
  refine ⟨hok.1, hok.2.2.1, ?_⟩
  rw [hret]
  simp only [stage]
  omega

theorem init_none (N r : Int) (h : 16 < N) : MIMPI_Init N r = none := by
  have h' : ¬ N ≤ TABLE_SIZE := by
    intro hle
    have : N ≤ 16 := hle
    omega
  simp only [MIMPI_Init, if_neg h']

theorem start_eq (N : Int) (h : N ≤ 16) : Net.start N = some (Net.initial N) := by
  have h' : N ≤ TABLE_SIZE := h
  simp only [Net.start, MIMPI_Init, if_pos h']

theorem start_none (N : Int) (h : 16 < N) : Net.start N = none := by
  have h' : ¬ N ≤ TABLE_SIZE := by
    intro hle
    have : N ≤ 16 := hle
    omega
  simp only [Net.start, MIMPI_Init, if_neg h']

theorem launch_eq (N : Int) (prog : Int → Locals → Instr) (init : Int → Locals)
    (acts : List Action) (h : N ≤ 16) :
    Net.launch N prog init acts = Net.run N prog init (Net.initial N) acts := by
  simp only [Net.launch, start_eq N h]

theorem launch_none (N : Int) (prog : Int → Locals → Instr) (init : Int → Locals)
    (acts : List Action) (h : 16 < N) : Net.launch N prog init acts = none := by
  simp only [Net.launch, start_none N h]

/-- C10, as the claim states it, fails for a world of more than 16 ranks: with 17
ranks `MIMPI_Init` writes behind the 16-entry arrays `left_MIMPI_block` and
`threads`, so it is undefined in every process, and there is no interleaving of 17
ranks in `MIMPI_Barrier` at all of which the claim could hold. -/
theorem C10_counterexample :
    (1 : Int) ≤ 17 ∧ MIMPI_Init 17 0 = none ∧
    ¬ ∃ acts net, Net.launch 17 (MIMPI_Barrier 17) (fun _ => Locals.start [] []) acts
      = some net := by
  refine ⟨by decide, init_none 17 0 (by decide), ?_⟩
  rintro ⟨acts, net, h⟩
  rw [launch_none 17 _ _ acts (by decide)] at h
  cases h

/-- C10 amended: for `1 <= N <= 16`, in every interleaving of the moves of `N`
ranks that each call `MIMPI_Barrier` once after `MIMPI_Init`, over FIFO pipes that
accept every write and with no peer leaving, a rank that has returned from
`MIMPI_Barrier` has returned `MIMPI_SUCCESS`, and at that time every rank has
entered the barrier and every rank but rank 0 is past its send of `GROUP_BEGIN` to
its parent. -/
theorem C10_barrier_synchronises (N : Int) (init : Int → Locals) (acts : List Action)
    (net : Net) (a : Int) (code : MIMPI_Retcode) (loc : Locals)
    (hN : 1 ≤ N) (hN16 : N ≤ 16) (hinit : ∀ r, (init r).pc = 0)
    (hrun : Net.launch N (MIMPI_Barrier N) init acts = some net)
    (ha0 : 0 ≤ a) (haN : a < N) (hret : net.app a = Status.returned code loc) :
    code = MIMPI_SUCCESS ∧
    ∀ b, 0 ≤ b → b < N →
      net.app b ≠ Status.idle ∧ (b ≠ 0 → 5 ≤ stage (net.app b)) := by
  rw [launch_eq N _ init acts hN16] at hrun
  have hprog : MIMPI_Barrier N = tree_collective (barrier_shape N) := by
    funext r l; exact barrier_refines N r l
  rw [hprog] at hrun
  have hinv : Inv (barrier_shape N) barrier_data net :=
    inv_run (barrier_shape N) barrier_data (barrier_laws N init hinit) (le_refl _)
      (by show (0 : Int) < N; omega) ⟨le_refl _, by show (0 : Int) < 2147483648; decide⟩
      ⟨le_refl _, by show (0 : Int) < 2147483648; decide⟩ acts _ net
      (inv_start (barrier_shape N) barrier_data) hrun
  rcases returned_ok (barrier_shape N) barrier_data net hinv a ha0 haN code loc hret
    with ⟨hcode, _, hst⟩
  exact ⟨hcode, all_entered (barrier_shape N) barrier_data (le_refl _)
    (by show (0 : Int) < N; omega) net hinv a ha0 haN hst⟩

/-- C10 at the instance of the specification: four ranks, an interleaving in which
all of them return; rank 0 has returned `MIMPI_SUCCESS` and all ranks have entered. -/
theorem C10_barrier_synchronises_witness :
    ∃ net,
      Net.launch 4 (MIMPI_Barrier 4) (fun _ => Locals.start [] []) barrier_schedule
        = some net ∧
      net.app 0 = Status.returned MIMPI_SUCCESS { Locals.start [] [] with pc := 7 } ∧
      (MIMPI_SUCCESS = MIMPI_SUCCESS ∧
        ∀ b, 0 ≤ b → b < 4 →
          net.app b ≠ Status.idle ∧ (b ≠ 0 → 5 ≤ stage (net.app b))) := by
  have hsome : (Net.launch 4 (MIMPI_Barrier 4) (fun _ => Locals.start [] [])
      barrier_schedule).isSome = true := by decide
  obtain ⟨net, hnet⟩ := Option.isSome_iff_exists.1 hsome
  have hmap : (Net.launch 4 (MIMPI_Barrier 4) (fun _ => Locals.start [] [])
      barrier_schedule).map (fun n => n.app 0)
      = some (Status.returned MIMPI_SUCCESS { Locals.start [] [] with pc := 7 }) := by
    decide
  have hret : net.app 0
      = Status.returned MIMPI_SUCCESS { Locals.start [] [] with pc := 7 } := by
    rw [hnet] at hmap
    simpa using hmap
  exact ⟨net, hnet, hret,
    C10_barrier_synchronises 4 (fun _ => Locals.start [] []) barrier_schedule net 0
      MIMPI_SUCCESS _ (by decide) (by decide) (fun _ => rfl) hnet (by decide) (by decide)
      hret⟩

/-! ## C7: broadcast -/

theorem heap_fold_unfold {α : Type} (f : α → α → α) (w : Nat → α) (n t : Nat) :
    heap_fold f w n t =
      if 2 * t + 1 < n then
        if 2 * t + 2 < n then
          f (f (w t) (heap_fold f w n (2 * t + 1))) (heap_fold f w n (2 * t + 2))
        else f (w t) (heap_fold f w n (2 * t + 1))
      else w t := by
  rw [heap_fold]

theorem heap_fold_congr {α : Type} (f : α → α → α) (w w' : Nat → α) (n : Nat)
    (h : ∀ t, t < n → w t = w' t) :
    ∀ (k t : Nat), n - t ≤ k → t < n → heap_fold f w n t = heap_fold f w' n t := by
  intro k
  induction k with
  | zero => intro t ht htn; omega
  | succ k ih =>
    intro t ht htn
    rw [heap_fold_unfold f w n t, heap_fold_unfold f w' n t]
    by_cases h1 : 2 * t + 1 < n
    · by_cases h2 : 2 * t + 2 < n
      · simp only [h1, h2, if_true]
        rw [ih (2 * t + 1) (by omega) h1, ih (2 * t + 2) (by omega) h2, h t htn]
      · simp only [h1, h2, if_true, if_false]
        rw [ih (2 * t + 1) (by omega) h1, h t htn]
    · simp only [h1, if_false]
      exact h t htn

theorem stage_set_at_same (net : Net) (a : Int) (s : Status) :
    stage (set_at net.app a s a) = stage s := by
  rw [set_at_same]

theorem l_child_facts (S : TreeShape) (hr0 : 0 ≤ S.root) (hrN : S.root < S.world_size)
    (a : Int) (h0 : 0 ≤ a) (hN : a < S.world_size) :
    S.treat_as (S.l_child a) = 2 * S.treat_as a + 1 ∧ S.parent (S.l_child a) = a := by
  have hrange := treat_as_range S hr0 hrN a h0 hN
  have ht : S.treat_as (S.l_child a) = 2 * S.treat_as a + 1 := by
    show MIMPI_real_proc (MIMPI_real_proc ((S.treat_as a + 1) * 2 - 1) S.root) S.root = _
    rw [real_proc_invol]; omega
  refine ⟨ht, ?_⟩
  show MIMPI_real_proc (Int.tdiv (S.treat_as (S.l_child a) + 1) 2 - 1) S.root = a
  rw [ht, Int.tdiv_eq_ediv (by omega) (by decide)]
  have e : (2 * S.treat_as a + 1 + 1) / 2 - 1 = S.treat_as a := by omega
  rw [e]
  exact real_proc_invol S.root a

theorem r_child_facts (S : TreeShape) (hr0 : 0 ≤ S.root) (hrN : S.root < S.world_size)
    (a : Int) (h0 : 0 ≤ a) (hN : a < S.world_size) :
    S.treat_as (S.r_child a) = 2 * S.treat_as a + 2 ∧ S.parent (S.r_child a) = a ∧
    S.l_child a ≠ S.r_child a := by
  have hrange := treat_as_range S hr0 hrN a h0 hN
  have ht : S.treat_as (S.r_child a) = 2 * S.treat_as a + 2 := by
    show MIMPI_real_proc (MIMPI_real_proc ((S.treat_as a + 1) * 2) S.root) S.root = _
    rw [real_proc_invol]; omega
  refine ⟨ht, ?_, ?_⟩
  · show MIMPI_real_proc (Int.tdiv (S.treat_as (S.r_child a) + 1) 2 - 1) S.root = a
    rw [ht, Int.tdiv_eq_ediv (by omega) (by decide)]
    have e : (2 * S.treat_as a + 2 + 1) / 2 - 1 = S.treat_as a := by omega
    rw [e]
    exact real_proc_invol S.root a
  · intro e
    have := congrArg S.treat_as e
    rw [ht, (l_child_facts S hr0 hrN a h0 hN).1] at this
    omega

/-- C11 (the code against the claim): at rank 0, whatever the world size, the
`GROUP_FAIL` branch of `MIMPI_Receiver` (lines 120-134) sets the group-failed flag
and writes to no pipe: it computes `l_child = 0*2-1 = -1` and `r_child = 0`, and
`MIMPI_Send` refuses both (no such rank, own rank), where the claim has rank 0
forward the frame to the ranks 1 and 2. -/
theorem C11_group_fail_at_rank_zero (chsend : ChSend) (fuel : Nat) (st : MIMPI_State)
    (hrank : st.my_rank = 0) (hflag : st.group_failed = false) :
    receiver_group_fail chsend fuel st = some { st with group_failed := true } := by
  cases st with
  | mk ws mr q mp fm lb gf wr =>
    simp only at hrank hflag
    subst hrank
    subst hflag
    have e1 : ∀ s : MIMPI_State, s.my_rank = 0 →
        send_ignored chsend fuel s [] 0 (0 * 2 - 1) GROUP_FAIL = some s := by
      intro s hs
      simp [send_ignored, MIMPI_Send, hs]
    have e2 : ∀ s : MIMPI_State, s.my_rank = 0 →
        send_ignored chsend fuel s [] 0 (0 * 2 - 1 + 1) GROUP_FAIL = some s := by
      intro s hs
      simp [send_ignored, MIMPI_Send, hs]
    unfold receiver_group_fail
    simp only [Bool.not_false, if_true]
    rw [e1 _ rfl]
    simp only [Option.some_bind]
    rw [e2 _ rfl]
    split_ifs <;> rfl

/-- C11 at a world of three ranks: rank 0, flag not set, reads the frame
`GROUP_FAIL` with count 0 from rank 1; the flag is set and the pipes to the ranks 1
and 2 stay empty. -/
theorem C11_group_fail_at_rank_zero_witness :
    (init_state 3 0).my_rank = 0 ∧ (init_state 3 0).group_failed = false ∧
    receiver_group_fail chsend_full 1 (init_state 3 0)
      = some { init_state 3 0 with group_failed := true } ∧
    receiver_turn chsend_full chrecv_avail 1 1 (init_state 3 0)
        (le32 GROUP_FAIL ++ le32 0) []
      = ReceiverTurn.next { init_state 3 0 with group_failed := true } []
          (le32 GROUP_FAIL ++ le32 0) ∧
    pipe_to { init_state 3 0 with group_failed := true } 1 = [] ∧
    pipe_to { init_state 3 0 with group_failed := true } 2 = [] := by
  have h := C11_group_fail_at_rank_zero chsend_full 1 (init_state 3 0) rfl rfl
  refine ⟨rfl, rfl, h, ?_, rfl, rfl⟩
  have hm : ofLE32 (le32 GROUP_FAIL ++ le32 0) 0 = GROUP_FAIL := by decide
  have hl : chrecv_avail (le32 GROUP_FAIL ++ le32 0).length 8 = 8 := by decide
  unfold receiver_turn
  rw [hl]
  simp only [List.drop_nil, List.append_nil]
  have ht : (le32 GROUP_FAIL ++ le32 0).take 8 = le32 GROUP_FAIL ++ le32 0 := by decide
  have hd : (le32 GROUP_FAIL ++ le32 0).drop 8 = [] := by decide
  rw [ht, hd]
  unfold receiver_frame
  rw [hm, h]
  simp [GROUP_FAIL]

/-! ## C12: the rank tree of the collectives -/

theorem climb_to_root (S : TreeShape) (hr0 : 0 ≤ S.root) (hrN : S.root < S.world_size) :
    ∀ (n : Nat) (a : Int), 0 ≤ a → a < S.world_size → (S.treat_as a).toNat ≤ n →
      ∃ k, k ≤ n ∧ Nat.iterate S.parent k a = S.root := by
  intro n
  induction n with
  | zero =>
    intro a h0 hN hn
    have hta := treat_as_range S hr0 hrN a h0 hN
    exact ⟨0, le_refl _, (treat_as_zero_iff S a).1 (by omega)⟩
  | succ n ih =>
    intro a h0 hN hn
    by_cases ht : S.treat_as a = 0
    · exact ⟨0, Nat.zero_le _, (treat_as_zero_iff S a).1 ht⟩
    · rcases parent_valid S hr0 hrN a h0 hN ht with ⟨p1, p2, _, p4, _⟩
      have hta := treat_as_range S hr0 hrN a h0 hN
      have htp := treat_as_range S hr0 hrN (S.parent a) p1 p2
      rcases ih (S.parent a) p1 p2 (by omega) with ⟨k, hk, hit⟩
      exact ⟨k + 1, by omega, by rw [Function.iterate_succ_apply]; exact hit⟩

/-- C12: for a world of `N` ranks, a root in `[0, N)` and a rank `a` in `[0, N)`,
with `treat_as`, `l_child`, `r_child` and `parent` as `MIMPI_Bcast` and
`MIMPI_Reduce` compute them through `MIMPI_real_proc`: (i) `treat_as` is 0 exactly
when `a` is the root; (ii) if `a` is not the root, its parent is a rank of the world
other than `a`, and `a` is the left or the right child that the parent computes;
(iii) a child of `a` that lies in the world differs from `a` and computes `a` as
its parent; (iv) at most `treat_as` steps from `a` to the parent reach the root;
and with root 0 the parent is `(a+1)/2-1` and the children are `(a+1)*2-1` and
`(a+1)*2`, as in `MIMPI_Barrier`. -/
theorem C12_rank_tree (S : TreeShape) (a : Int)
    (hr0 : 0 ≤ S.root) (hrN : S.root < S.world_size)
    (h0 : 0 ≤ a) (hN : a < S.world_size) :
    (S.treat_as a = 0 ↔ a = S.root) ∧
    (a ≠ S.root →
      0 ≤ S.parent a ∧ S.parent a < S.world_size ∧ S.parent a ≠ a ∧
      (S.l_child (S.parent a) = a ∨ S.r_child (S.parent a) = a)) ∧
    (S.l_child a < S.world_size →
      0 ≤ S.l_child a ∧ S.l_child a ≠ a ∧ S.parent (S.l_child a) = a) ∧
    (S.r_child a < S.world_size →
      0 ≤ S.r_child a ∧ S.r_child a ≠ a ∧ S.parent (S.r_child a) = a) ∧
    (∃ k, k ≤ (S.treat_as a).toNat ∧ Nat.iterate S.parent k a = S.root) ∧
    (S.root = 0 →
      S.treat_as a = a ∧ S.parent a = Int.tdiv (a + 1) 2 - 1 ∧
      S.l_child a = (a + 1) * 2 - 1 ∧ S.r_child a = (a + 1) * 2 - 1 + 1) := by
  refine ⟨treat_as_zero_iff S a, ?_, ?_, ?_, ?_, ?_⟩
  · intro hne
    have ht : S.treat_as a ≠ 0 := fun e => hne ((treat_as_zero_iff S a).1 e)
    rcases parent_valid S hr0 hrN a h0 hN ht with ⟨p1, p2, p3, _, p5⟩
    exact ⟨p1, p2, p3, p5.imp id And.left⟩
  · intro _
    exact ⟨(l_child_valid S hr0 a h0).1, (l_child_valid S hr0 a h0).2,
      (l_child_facts S hr0 hrN a h0 hN).2⟩
  · intro _
    exact ⟨(r_child_valid S hr0 a h0).1, (r_child_valid S hr0 a h0).2,
      (r_child_facts S hr0 hrN a h0 hN).2.1⟩
  · exact climb_to_root S hr0 hrN _ a h0 hN (le_refl _)
  · intro hz
    simp only [TreeShape.treat_as, TreeShape.parent, TreeShape.l_child, TreeShape.r_child,
      hz, real_proc_zero]
    refine ⟨trivial, trivial, trivial, ?_⟩
    omega

/-- C12 at four ranks with root 2, for the rank 3: its parent is rank 0, which
takes the place 2 of the tree, and the parent of rank 0 is the root. -/
theorem C12_rank_tree_witness :
    (0 : Int) ≤ (bcast_shape 4 4 2).root ∧
    (bcast_shape 4 4 2).root < (bcast_shape 4 4 2).world_size ∧
    (bcast_shape 4 4 2).parent 3 = 1 ∧ (bcast_shape 4 4 2).parent 1 = 2 ∧
    (bcast_shape 4 4 2).l_child 2 = 1 ∧ (bcast_shape 4 4 2).r_child 2 = 0 ∧
    (bcast_shape 4 4 2).l_child 1 = 3 ∧
    (((bcast_shape 4 4 2).treat_as 3 = 0 ↔ (3 : Int) = (bcast_shape 4 4 2).root) ∧
    ((3 : Int) ≠ (bcast_shape 4 4 2).root →
      0 ≤ (bcast_shape 4 4 2).parent 3 ∧
      (bcast_shape 4 4 2).parent 3 < (bcast_shape 4 4 2).world_size ∧
      (bcast_shape 4 4 2).parent 3 ≠ 3 ∧
      ((bcast_shape 4 4 2).l_child ((bcast_shape 4 4 2).parent 3) = 3 ∨
        (bcast_shape 4 4 2).r_child ((bcast_shape 4 4 2).parent 3) = 3)) ∧
    ((bcast_shape 4 4 2).l_child 3 < (bcast_shape 4 4 2).world_size →
      0 ≤ (bcast_shape 4 4 2).l_child 3 ∧ (bcast_shape 4 4 2).l_child 3 ≠ 3 ∧
      (bcast_shape 4 4 2).parent ((bcast_shape 4 4 2).l_child 3) = 3) ∧
    ((bcast_shape 4 4 2).r_child 3 < (bcast_shape 4 4 2).world_size →
      0 ≤ (bcast_shape 4 4 2).r_child 3 ∧ (bcast_shape 4 4 2).r_child 3 ≠ 3 ∧
      (bcast_shape 4 4 2).parent ((bcast_shape 4 4 2).r_child 3) = 3) ∧
    (∃ k, k ≤ ((bcast_shape 4 4 2).treat_as 3).toNat ∧
      Nat.iterate (bcast_shape 4 4 2).parent k 3 = (bcast_shape 4 4 2).root) ∧
    ((bcast_shape 4 4 2).root = 0 →
      (bcast_shape 4 4 2).treat_as 3 = 3 ∧
      (bcast_shape 4 4 2).parent 3 = Int.tdiv (3 + 1) 2 - 1 ∧
      (bcast_shape 4 4 2).l_child 3 = (3 + 1) * 2 - 1 ∧
      (bcast_shape 4 4 2).r_child 3 = (3 + 1) * 2 - 1 + 1)) :=
  ⟨by decide, by decide, by decide, by decide, by decide, by decide, by decide,
    C12_rank_tree (bcast_shape 4 4 2) 3 (by decide) (by decide) (by decide) (by decide)⟩

end Mimpi
